import Mathlib

/-!
# Ginix Arcade game bridge: a shallow embedding of `public/games/ginix-bridge.js`

The bridge object is embedded by explicit state passing: every method takes the
bridge state and returns the new state together with the list of messages it
handed to `sendMessage`, in order.  The timers of `waitForGameReady` and the
console overrides are events of a session around the bridge, and the polling
adapter of `public/games/8ball-pool/ginix-integration.js` is embedded as the body
of its interval callback, which returns the calls it makes on the bridge.

Modelling conventions.

* A JavaScript string is the list of its characters.  The regular expressions of
  the bridge carry no `u` flag and only mention ASCII letters, `\b`, `\s`, `\d`
  and a few punctuation marks, so a character outside the Basic Multilingual
  Plane behaves like any other character that is not a word character, a digit
  or white space.
* A JavaScript number that holds a score is an `Int`.  Where the code computes
  a score (`parseInt`, the sum `currentScore + timeBonus`) the result is rounded
  to the nearest double, ties to even (`toDouble`); every integer of magnitude
  below `2^53` is its own double.  Where the code writes a number into a string
  the numeral is the one of `Number.prototype.toString` (`numberToString`), which
  takes the exponent form from `10^21` on.  `NaN` is `none`; `Infinity`, which
  the code reaches from about `1.8 * 10^308` on, has no counterpart in the model.
  Clock values and durations are integers far below `2^53`, where the
  subtraction and the floor of the quotient by 1000 are exact.
* `Date.now()` is read from a per-call clock: `clock k` is the value of the
  `k`-th read made during the call (counting from `0`).
* `_realLog` / `_realError` write to the developer console only; they never
  reach `_processOutput` or `sendMessage` and are not part of the trace.
-/

namespace GinixBridge

/-! ## Character classes of the regular expressions -/

/-- Class `\d`: the ten ASCII digits. -/
def isDigit (c : Char) : Bool :=
  decide (48 ≤ c.toNat) && decide (c.toNat ≤ 57)

/-- Class `\w` (without the `u` flag): ASCII letters, digits and `_`. -/
def isWordChar (c : Char) : Bool :=
  isDigit c
    || (decide (65 ≤ c.toNat) && decide (c.toNat ≤ 90))
    || (decide (97 ≤ c.toNat) && decide (c.toNat ≤ 122))
    || decide (c.toNat = 95)

/-- Class `\s`: ECMAScript WhiteSpace and LineTerminator code points.  The same
set is what `String.prototype.trim` and `parseInt` strip. -/
def isSpace (c : Char) : Bool :=
  (decide (9 ≤ c.toNat) && decide (c.toNat ≤ 13))
    || decide (c.toNat = 32)
    || decide (c.toNat = 160)
    || decide (c.toNat = 5760)
    || (decide (8192 ≤ c.toNat) && decide (c.toNat ≤ 8202))
    || decide (c.toNat = 8232)
    || decide (c.toNat = 8233)
    || decide (c.toNat = 8239)
    || decide (c.toNat = 8287)
    || decide (c.toNat = 12288)
    || decide (c.toNat = 65279)

/-- Class `[\s:=]`. -/
def isSep (c : Char) : Bool :=
  isSpace c || decide (c.toNat = 58) || decide (c.toNat = 61)

/-- Class `[-_]`. -/
def isDashOrUnderscore (c : Char) : Bool :=
  decide (c.toNat = 45) || decide (c.toNat = 95)

/-- Case folding of the `i` flag, restricted to what an ASCII pattern letter can
match: an ASCII lower-case letter is sent to its upper-case form and every other
character is kept (without the `u` flag no character above U+007F folds to an
ASCII letter). -/
def canonicalize (c : Char) : Nat :=
  if 97 ≤ c.toNat ∧ c.toNat ≤ 122 then c.toNat - 32 else c.toNat

/-! ## Regular-expression building blocks -/

/-- Match a literal (an ASCII word of the pattern) case-insensitively at the
start of the input; the result is the rest of the input after the literal. -/
def matchLit : List Char → List Char → Option (List Char)
  | [], s => some s
  | _ :: _, [] => none
  | p :: ps, c :: cs =>
    if canonicalize c = canonicalize p then matchLit ps cs else none

/-- Assertion `\b` between the previous character (if any) and the rest of the
input: exactly one of the two sides is a word character. -/
def wordBoundary (prev : Option Char) (s : List Char) : Bool :=
  xor (prev.elim false isWordChar) (s.head?.elim false isWordChar)

/-- Pattern `\bKW[\s:=]+(\d+)` anchored at the current position, where `prev` is
the character before it.  The result is the text of capture group 1.  The
classes `[\s:=]` and `\d` are disjoint and nothing follows the group, so the
greedy quantifiers never give characters back: the separator run and the digit
run are both maximal. -/
def keywordNumberAt (kw : List Char) (prev : Option Char) (s : List Char) :
    Option (List Char) :=
  if wordBoundary prev s then
    match matchLit kw s with
    | none => none
    | some [] => none
    | some (c :: cs) =>
      if isSep c then
        let ds := ((c :: cs).dropWhile isSep).takeWhile isDigit
        if ds.isEmpty then none else some ds
      else none
  else none

/-- Leftmost match of `\bKW[\s:=]+(\d+)` in the input, as `String.prototype.match`
finds it for a regular expression without the `g` flag: start positions are
tried from left to right.  The result is capture group 1 of that match. -/
def searchKeywordNumber (kw : List Char) : Option Char → List Char → Option (List Char)
  | prev, [] => keywordNumberAt kw prev []
  | prev, c :: cs =>
    match keywordNumberAt kw prev (c :: cs) with
    | some ds => some ds
    | none => searchKeywordNumber kw (some c) cs

/-- Pattern 1: `message.match(/\bbest[\s:=]+(\d+)/i)`, capture group 1. -/
def matchBest (message : List Char) : Option (List Char) :=
  searchKeywordNumber "best".toList none message

/-- Pattern 2: `message.match(/\bscore[\s:=]+(\d+)/i)`, capture group 1. -/
def matchScore (message : List Char) : Option (List Char) :=
  searchKeywordNumber "score".toList none message

/-- Pattern 3: `message.match(/\bpoints[\s:=]+(\d+)/i)`, capture group 1. -/
def matchPoints (message : List Char) : Option (List Char) :=
  searchKeywordNumber "points".toList none message

/-- Pattern 4: `message.match(/\blevel[\s:=]+(\d+)/i)`, capture group 1. -/
def matchLevel (message : List Char) : Option (List Char) :=
  searchKeywordNumber "level".toList none message

/-- Pattern 5: `/^\s*\d+\s*$/.test(message)`.  White space and digits are
disjoint classes, so each greedy run is maximal. -/
def testDigitsOnly (message : List Char) : Bool :=
  let r := message.dropWhile isSpace
  !(r.takeWhile isDigit).isEmpty && ((r.dropWhile isDigit).dropWhile isSpace).isEmpty

/-- Term `[-_]?`: take one dash or underscore when there is one.  What follows
it in the pattern (`\s*over`) cannot start with a dash or an underscore, so
giving the character back never helps. -/
def skipOptDash : List Char → List Char
  | [] => []
  | c :: cs => if isDashOrUnderscore c then cs else c :: cs

/-- Term `\s+` followed by a literal: at least one white-space character, the
run taken maximal (the literal starts with a letter). -/
def skipSpaces1 : List Char → Option (List Char)
  | [] => none
  | c :: cs => if isSpace c then some (cs.dropWhile isSpace) else none

/-- Alternative `game\s*[-_]?\s*over`. -/
def altGameOver (s : List Char) : Bool :=
  match matchLit "game".toList s with
  | none => false
  | some r =>
    (matchLit "over".toList
      ((skipOptDash (r.dropWhile isSpace)).dropWhile isSpace)).isSome

/-- Alternatives `you\s+lose` and `you\s+lost`, by the last word. -/
def altYou (last : List Char) (s : List Char) : Bool :=
  match matchLit "you".toList s with
  | none => false
  | some r =>
    match skipSpaces1 r with
    | none => false
    | some r1 => (matchLit last r1).isSome

/-- Alternatives `game\s*end` and `level\s*complete`: two literals with optional
white space between them. -/
def altTwoWords (first second : List Char) (s : List Char) : Bool :=
  match matchLit first s with
  | none => false
  | some r => (matchLit second (r.dropWhile isSpace)).isSome

/-- The game-over expression
`/game\s*[-_]?\s*over|died|finished|gameover|you\s+lose|you\s+lost|defeat|game\s*end|level\s*complete/i`
anchored at the current position: some alternative matches here. -/
def endPhraseAt (s : List Char) : Bool :=
  altGameOver s
    || (matchLit "died".toList s).isSome
    || (matchLit "finished".toList s).isSome
    || (matchLit "gameover".toList s).isSome
    || altYou "lose".toList s
    || altYou "lost".toList s
    || (matchLit "defeat".toList s).isSome
    || altTwoWords "game".toList "end".toList s
    || altTwoWords "level".toList "complete".toList s

/-- The call `/game\s*[-_]?\s*over|...|level\s*complete/i.test(message)`: the
expression matches at some start position. -/
def testEndPhrase : List Char → Bool
  | [] => endPhraseAt []
  | c :: cs => endPhraseAt (c :: cs) || testEndPhrase cs

/-! ## String built-ins -/

/-- Does `pat` occur at the very start of the input (exact comparison of the
characters). -/
def occursAt : List Char → List Char → Bool
  | [], _ => true
  | _ :: _, [] => false
  | p :: ps, c :: cs => decide (p = c) && occursAt ps cs

/-- First position at which `pat` occurs in the input, or `-1`: the scan of
`String.prototype.indexOf`, where `i` is the position of the head of the
remaining input. -/
def indexOfFrom (pat : List Char) : Int → List Char → Int
  | i, [] => if pat.isEmpty then i else -1
  | i, c :: cs =>
    if occursAt pat (c :: cs) then i else indexOfFrom pat (i + 1) cs

/-- Method `message.indexOf(pat)`. -/
def indexOf (s pat : List Char) : Int :=
  indexOfFrom pat 0 s

/-- Method `message.trim()`: white space stripped at both ends. -/
def trim (s : List Char) : List Char :=
  ((s.dropWhile isSpace).reverse.dropWhile isSpace).reverse

/-- Base-10 value of a run of digit characters, most significant first. -/
def digitsValue (ds : List Char) : Nat :=
  ds.foldl (fun acc c => 10 * acc + (c.toNat - 48)) 0

/-- Number of halvings that bring `n` below `2^53`: for `n ≥ 2^53` it is the
exponent `e` with `2^52 ≤ n / 2^e < 2^53`, the binary exponent of the last
place of the double nearest to `n`.  The first argument bounds the number of
halvings; `n` itself is always enough. -/
def excessBits : Nat → Nat → Nat
  | 0, _ => 0
  | fuel + 1, n => if n < 9007199254740992 then 0 else excessBits fuel (n / 2) + 1

/-- The JavaScript number that stands for a non-negative integer: the double
nearest to it, ties to the even significand.  An integer below `2^53`
(9007199254740992) is a double; a larger one is rounded to 53 significant bits,
that is to a multiple of `2^e`, where `e` is `excessBits`.  The code rounds
integers from `2^1024 - 2^970` on to `Infinity`, which the model does not have:
there the result is the rounded integer. -/
def toDouble (n : Nat) : Nat :=
  if n < 9007199254740992 then n
  else if 2 * (n % 2 ^ excessBits n n) < 2 ^ excessBits n n then
    n / 2 ^ excessBits n n * 2 ^ excessBits n n
  else if 2 ^ excessBits n n < 2 * (n % 2 ^ excessBits n n) then
    (n / 2 ^ excessBits n n + 1) * 2 ^ excessBits n n
  else if n / 2 ^ excessBits n n % 2 = 0 then
    n / 2 ^ excessBits n n * 2 ^ excessBits n n
  else (n / 2 ^ excessBits n n + 1) * 2 ^ excessBits n n

/-- The double nearest to an integer of either sign. -/
def toDoubleInt (z : Int) : Int :=
  if z < 0 then -((toDouble z.natAbs : Nat) : Int) else ((toDouble z.toNat : Nat) : Int)

/-- Call `parseInt(s, 10)`: leading white space is skipped, an optional sign is
read, then the longest run of decimal digits; with no digit the result is `NaN`
(`none`).  The result is a JavaScript number: the double nearest to the base-10
value of the run (the language fixes this for runs of up to 20 significant
digits and lets an implementation replace later digits by zeros). -/
def parseInt (s : List Char) : Option Int :=
  let t := s.dropWhile isSpace
  let neg := decide (t.head? = some (Char.ofNat 45))
  let body := if neg || decide (t.head? = some (Char.ofNat 43)) then t.tail else t
  let ds := body.takeWhile isDigit
  if ds.isEmpty then none
  else some (if neg then -((toDouble (digitsValue ds) : Nat) : Int)
             else ((toDouble (digitsValue ds) : Nat) : Int))

/-! ## The bridge object -/

/-- Mutable fields of the `GinixBridge` object.  A `null` identifier is `none`. -/
structure Bridge where
  sessionId : Option String
  nonce : Option String
  gameId : Option String
  startTime : Int
  currentScore : Int
  isGameActive : Bool
  _gameEndSent : Bool
  deriving DecidableEq, Repr

/-- Envelope handed to `sendMessage(type, data)`: the constructor is the `type`,
`gameId` is `this.gameId`, the other fields are those of `data`. -/
inductive Message where
  | gameReady (gameId : Option String) (timestamp : Int)
  | gameStarted (gameId : Option String) (timestamp : Int)
  | scoreUpdate (gameId : Option String) (score : Int) (timestamp : Int)
  | gameEnd (gameId : Option String) (score : Int) (duration : Int)
      (sessionId : Option String) (timestamp : Int)
  | gameError (gameId : Option String) (error : List Char)
  deriving DecidableEq, Repr

/-- Is the message of type `gameEnd`. -/
def Message.isGameEnd : Message → Bool
  | .gameEnd _ _ _ _ _ => true
  | _ => false

/-- Is the message of type `scoreUpdate`. -/
def Message.isScoreUpdate : Message → Bool
  | .scoreUpdate _ _ _ => true
  | _ => false

/-- Argument of `_processOutput`: a string, or a value of any other type. -/
inductive JsValue where
  | str (s : List Char)
  | notString
  deriving DecidableEq, Repr

/-- The log marker of the bridge, `'[Ginix Bridge]'`. -/
def marker : List Char := "[Ginix Bridge]".toList

/-- Method `onScoreUpdate(score)`: store the score and send `scoreUpdate`. -/
def onScoreUpdate (b : Bridge) (clock : Nat → Int) (score : Int) : Bridge × List Message :=
  ({ b with currentScore := score }, [Message.scoreUpdate b.gameId score (clock 0)])

/-- Method `onGameEnd()`: guarded by `isGameActive` and `_gameEndSent`; the
first clock read gives the duration, the second the timestamp. -/
def onGameEnd (b : Bridge) (clock : Nat → Int) : Bridge × List Message :=
  if !b.isGameActive || b._gameEndSent then (b, [])
  else
    ({ b with _gameEndSent := true, isGameActive := false },
      [Message.gameEnd b.gameId b.currentScore (Int.fdiv (clock 0 - b.startTime) 1000)
        b.sessionId (clock 1)])

/-- The body shared by the five score branches of `_processOutput`:
`if (s > 0 && s !== this.currentScore) this.onScoreUpdate(s); return;`
where `s` is the result of `parseInt` (`NaN > 0` is false). -/
def detectedScore (b : Bridge) (clock : Nat → Int) (s : Option Int) : Bridge × List Message :=
  match s with
  | none => (b, [])
  | some n => if 0 < n ∧ n ≠ b.currentScore then onScoreUpdate b clock n else (b, [])

/-- Method `_processOutput(message)`. -/
def _processOutput (b : Bridge) (clock : Nat → Int) (message : JsValue) :
    Bridge × List Message :=
  match message with
  | .notString => (b, [])
  | .str msg =>
    if msg.isEmpty then (b, [])
    else if indexOf msg marker ≠ -1 then (b, [])
    else
      match matchBest msg with
      | some m1 => detectedScore b clock (parseInt m1)
      | none =>
      match matchScore msg with
      | some m1 => detectedScore b clock (parseInt m1)
      | none =>
      match matchPoints msg with
      | some m1 => detectedScore b clock (parseInt m1)
      | none =>
      match matchLevel msg with
      | some m1 => detectedScore b clock (parseInt m1)
      | none =>
      if testDigitsOnly msg then detectedScore b clock (parseInt (trim msg))
      else if testEndPhrase msg then onGameEnd b clock
      else (b, [])

/-- Public method `updateScore(score)`. -/
def updateScore (b : Bridge) (clock : Nat → Int) (score : Int) : Bridge × List Message :=
  onScoreUpdate b clock score

/-- Public method `endGame(finalScore)`; `none` is a call without argument
(`finalScore === undefined`). -/
def endGame (b : Bridge) (clock : Nat → Int) (finalScore : Option Int) :
    Bridge × List Message :=
  match finalScore with
  | some f => onGameEnd { b with currentScore := f } clock
  | none => onGameEnd b clock

/-- Public method `reset()`; the clock is read once. -/
def reset (b : Bridge) (clock : Nat → Int) : Bridge × List Message :=
  ({ b with currentScore := 0, isGameActive := true, _gameEndSent := false,
            startTime := clock 0 }, [])

/-! ## Sequences of calls -/

/-- One call made on the bridge. -/
inductive Event where
  | processOutput (message : JsValue)
  | updateScore (score : Int)
  | endGame (finalScore : Option Int)
  | onGameEnd
  | reset
  deriving DecidableEq, Repr

/-- An explicit end signal: a call of `onGameEnd` or of `endGame`. -/
def Event.isEndSignal : Event → Bool
  | .onGameEnd => true
  | .endGame _ => true
  | _ => false

/-- Run one call with its clock. -/
def step (b : Bridge) (clock : Nat → Int) : Event → Bridge × List Message
  | .processOutput message => _processOutput b clock message
  | .updateScore score => updateScore b clock score
  | .endGame finalScore => endGame b clock finalScore
  | .onGameEnd => onGameEnd b clock
  | .reset => reset b clock

/-- Run a sequence of calls, each with its own clock, collecting the messages
in emission order. -/
def run (b : Bridge) : List (Event × (Nat → Int)) → Bridge × List Message
  | [] => (b, [])
  | (e, clock) :: rest =>
    let r := step b clock e
    let r2 := run r.1 rest
    (r2.1, r.2 ++ r2.2)

/-- The score-bearing result of a line, by the words of the specification: the
number extracted by the first of the five score matchers (best, score, points,
level, digits only) that matches, if any does. -/
def firstScoreMatch (msg : List Char) : Option Int :=
  match matchBest msg with
  | some m1 => parseInt m1
  | none =>
  match matchScore msg with
  | some m1 => parseInt m1
  | none =>
  match matchPoints msg with
  | some m1 => parseInt m1
  | none =>
  match matchLevel msg with
  | some m1 => parseInt m1
  | none => if testDigitsOnly msg then parseInt (trim msg) else none

/-- Some one of the five score matchers matches the line. -/
def anyScoreMatcher (msg : List Char) : Bool :=
  (matchBest msg).isSome || (matchScore msg).isSome || (matchPoints msg).isSome
    || (matchLevel msg).isSome || testDigitsOnly msg

/-- Number of `gameEnd` messages in a trace. -/
def countGameEnd (msgs : List Message) : Nat :=
  msgs.countP Message.isGameEnd

/-- Number of `scoreUpdate` messages in a trace. -/
def countScoreUpdate (msgs : List Message) : Nat :=
  msgs.countP Message.isScoreUpdate

/-- The bridge object as the script creates it, with the start time `t0` and
before any readiness signal: `isGameActive` is still `false`. -/
def initial (t0 : Int) : Bridge :=
  { sessionId := none, nonce := none, gameId := none, startTime := t0,
    currentScore := 0, isGameActive := false, _gameEndSent := false }

/-- A bridge in an active session: the readiness signal was observed and no
end of game was sent. -/
def activeBridge (cur : Int) : Bridge :=
  { sessionId := some "session-1", nonce := some "n", gameId := some "game-1",
    startTime := 0, currentScore := cur, isGameActive := true, _gameEndSent := false }

/-- A clock whose every read gives the same instant. -/
def constClock (t : Int) : Nat → Int := fun _ => t

/-- A sample session: score reports and end signals of every kind, interleaved. -/
def sampleCalls : List (Event × (Nat → Int)) :=
  [ (Event.updateScore 5, constClock 1000),
    (Event.processOutput (.str "score: 9".toList), constClock 2000),
    (Event.endGame (some 20), constClock 3000),
    (Event.updateScore 30, constClock 4000),
    (Event.onGameEnd, constClock 5000),
    (Event.processOutput (.str "game over".toList), constClock 6000),
    (Event.endGame none, constClock 7000) ]

/-- The character just before position `i` of a string, if there is one. -/
def charBefore (s : List Char) (i : Nat) : Option Char :=
  (s.take i).getLast?

/-- Decimal numeral of a natural number, most significant digit first. -/
def decimal (n : Nat) : List Char :=
  if n = 0 then [Char.ofNat 48]
  else (Nat.digits 10 n).reverse.map (fun d => Char.ofNat (48 + d))

/-- A bridge whose session has ended: the state an active bridge with score
`cur` is left in by an accepted `onGameEnd()`. -/
def endedBridge (cur : Int) : Bridge :=
  (onGameEnd (activeBridge cur) (constClock 5000)).1

/-! ## The session: `init`, the readiness poll, the start-up deadline, the console -/

/-- The `type` field of an envelope. -/
inductive MessageType where
  | gameReady
  | gameStarted
  | scoreUpdate
  | gameEnd
  | gameError
  deriving DecidableEq, Repr

/-- The `type` of a message. -/
def Message.kind : Message → MessageType
  | .gameReady _ _ => .gameReady
  | .gameStarted _ _ => .gameStarted
  | .scoreUpdate _ _ _ => .scoreUpdate
  | .gameEnd _ _ _ _ _ => .gameEnd
  | .gameError _ _ => .gameError

/-- Number of messages of a given type in a trace. -/
def countKind (k : MessageType) (msgs : List Message) : Nat :=
  msgs.countP (fun m => decide (m.kind = k))

/-- The lifecycle part of a trace: the types of its `gameReady`, `gameStarted`
and `gameEnd` messages, in emission order. -/
def lifecycleKinds (msgs : List Message) : List MessageType :=
  (msgs.map Message.kind).filter
    (fun k => decide (k = .gameReady) || decide (k = .gameStarted) || decide (k = .gameEnd))

/-- JavaScript `a || b` on two identifiers: `null` and the empty string are
falsy. -/
def orElse (a b : Option String) : Option String :=
  match a with
  | some s => if s.isEmpty then b else some s
  | none => b

/-- The bridge object together with the two timers of `waitForGameReady`:
`checkInterval` says that the 100 ms interval is installed and not cleared,
`timeoutPending` that the 30 000 ms timeout is installed and has not fired. -/
structure Session where
  bridge : Bridge
  checkInterval : Bool
  timeoutPending : Bool
  deriving DecidableEq, Repr

/-- The page after the script has run and before `init()`: the bridge object as
created at time `t0`, no timer installed. -/
def newSession (t0 : Int) : Session :=
  { bridge := initial t0, checkInterval := false, timeoutPending := false }

/-- Method `init()`: `windowGameID` is `window.gameID`, the other three arguments
are the query parameters.  The identifiers are stored, `waitForGameReady()`
installs the interval and the timeout, and `gameReady` is sent. -/
def init (s : Session) (clock : Nat → Int)
    (windowGameID sessionId nonce gameId : Option String) : Session × List Message :=
  ({ bridge := { s.bridge with sessionId := sessionId, nonce := nonce,
                               gameId := orElse windowGameID gameId },
     checkInterval := true, timeoutPending := true },
    [Message.gameReady (orElse windowGameID gameId) (clock 0)])

/-- The interval callback of `waitForGameReady()`; `canvasWidth` is the width of
the element with id `canvas`, `none` when there is no such element.  A cleared
interval does not call it. -/
def readyCheck (s : Session) (clock : Nat → Int) (canvasWidth : Option Nat) :
    Session × List Message :=
  if !s.checkInterval then (s, [])
  else
    match canvasWidth with
    | none => (s, [])
    | some w =>
      if 0 < w then
        ({ s with checkInterval := false,
                  bridge := { s.bridge with isGameActive := true } },
          [Message.gameStarted s.bridge.gameId (clock 0)])
      else (s, [])

/-- The timeout callback of `waitForGameReady()`, run once, 30 000 ms after
`init()`: it clears the interval and, when `isGameActive` is false, sends
`gameError` with the text `Game failed to load`. -/
def readyTimeout (s : Session) : Session × List Message :=
  if !s.timeoutPending then (s, [])
  else if !s.bridge.isGameActive then
    ({ s with timeoutPending := false, checkInterval := false },
      [Message.gameError s.bridge.gameId "Game failed to load".toList])
  else ({ s with timeoutPending := false, checkInterval := false }, [])

/-- The overrides `console.error` and `virtualConsole.error`: the joined
arguments are sent as a `gameError`. -/
def consoleError (s : Session) (text : List Char) : Session × List Message :=
  (s, [Message.gameError s.bridge.gameId text])

/-- One thing that happens in the page. -/
inductive SessionEvent where
  | init (windowGameID sessionId nonce gameId : Option String)
  | intervalFires (canvasWidth : Option Nat)
  | timeoutFires
  | call (e : Event)
  | consoleError (text : List Char)
  | virtualConsoleError (text : List Char)
  deriving DecidableEq, Repr

/-- Run one event of the page with its clock. -/
def stepSession (s : Session) (clock : Nat → Int) : SessionEvent → Session × List Message
  | .init windowGameID sessionId nonce gameId =>
    init s clock windowGameID sessionId nonce gameId
  | .intervalFires canvasWidth => readyCheck s clock canvasWidth
  | .timeoutFires => readyTimeout s
  | .call e => ({ s with bridge := (step s.bridge clock e).1 }, (step s.bridge clock e).2)
  | .consoleError text => consoleError s text
  | .virtualConsoleError text => consoleError s text

/-- Run a sequence of events of the page, collecting the messages in emission
order. -/
def runSession (s : Session) : List (SessionEvent × (Nat → Int)) → Session × List Message
  | [] => (s, [])
  | (e, clock) :: rest =>
    ((runSession (stepSession s clock e).1 rest).1,
      (stepSession s clock e).2 ++ (runSession (stepSession s clock e).1 rest).2)

/-- Events that belong to the life of one session without replay: anything but
a second `init()` and a `reset()`. -/
def SessionEvent.keepsSession : SessionEvent → Bool
  | .init _ _ _ _ => false
  | .call .reset => false
  | _ => true

/-- Output lines, calls of the public `updateScore` / `endGame` (and of
`onGameEnd`), and readiness polls. -/
def SessionEvent.isGamePlay : SessionEvent → Bool
  | .intervalFires _ => true
  | .call (.processOutput _) => true
  | .call (.updateScore _) => true
  | .call (.endGame _) => true
  | .call .onGameEnd => true
  | _ => false

/-- A readiness poll that observes the readiness signal: a canvas of width
greater than zero. -/
def SessionEvent.seesCanvas : SessionEvent → Bool
  | .intervalFires (some w) => decide (0 < w)
  | _ => false

/-- A call by the game of `console.error` or of `virtualConsole.error`. -/
def SessionEvent.isErrorLog : SessionEvent → Bool
  | .consoleError _ => true
  | .virtualConsoleError _ => true
  | _ => false

/-- A session in which the game became ready after 100 ms, ended with
`endGame(120)` after five seconds, and whose timeout fires at 30 000 ms. -/
def shortGame : List (SessionEvent × (Nat → Int)) :=
  [ (SessionEvent.init none (some "session-1") (some "n") (some "pool"), constClock 0),
    (SessionEvent.intervalFires (some 800), constClock 100),
    (SessionEvent.call (Event.endGame (some 120)), constClock 5000),
    (SessionEvent.timeoutFires, constClock 30000) ]

/-- The three stages of the lifecycle part of a trace, with the flags of the
session at each: only `gameReady` sent and the bridge not yet active; then
`gameStarted` sent, the bridge active and the interval cleared; then `gameEnd`
sent and the latch set. -/
def LifecycleStage (s : Session) (ks : List MessageType) : Prop :=
  (ks = [.gameReady] ∧ s.bridge.isGameActive = false ∧ s.bridge._gameEndSent = false)
    ∨ (ks = [.gameReady, .gameStarted] ∧ s.bridge.isGameActive = true
        ∧ s.bridge._gameEndSent = false ∧ s.checkInterval = false)
    ∨ (ks = [.gameReady, .gameStarted, .gameEnd] ∧ s.bridge.isGameActive = false
        ∧ s.bridge._gameEndSent = true ∧ s.checkInterval = false)

/-! ## The 8 Ball Pool adapter (`public/games/8ball-pool/ginix-integration.js`) -/

/-- The adapter's `gameState` object; `checkInterval` says that the one-second
interval is installed and not cleared. -/
structure GameState where
  ballsPocketed : Int
  gameStartTime : Int
  lastScore : Int
  gameEnded : Bool
  checkInterval : Bool
  deriving DecidableEq, Repr

/-- The sampled `window.projectInfo`: `score` is `none` when the field is
undefined, `levelComplete` is the truthiness of the flag. -/
structure ProjectInfo where
  score : Option Int
  levelComplete : Bool
  deriving DecidableEq, Repr

/-- The sampled `window.playState.gameInfo`. -/
structure GameInfo where
  gameOver : Option Int
  deriving DecidableEq, Repr

/-- The sampled `window.playState`. -/
structure PlayState where
  gameInfo : Option GameInfo
  deriving DecidableEq, Repr

/-- The globals one tick of the adapter reads; `hasBridge` is the truthiness of
`window.GinixBridge`. -/
structure Globals where
  projectInfo : Option ProjectInfo
  playState : Option PlayState
  hasBridge : Bool
  deriving DecidableEq, Repr

/-- What the adapter does to the outside: a `console.log` call (its arguments
joined by a blank, as the bridge's override joins them) or a call of a public
method of the bridge. -/
inductive AdapterCall where
  | log (line : List Char)
  | updateScore (score : Int)
  | endGame (finalScore : Int)
  deriving DecidableEq, Repr

/-- The call as the bridge receives it: `console.log` is the bridge's override,
which hands the joined line to `_processOutput`. -/
def AdapterCall.toEvent : AdapterCall → Event
  | .log line => Event.processOutput (.str line)
  | .updateScore score => Event.updateScore score
  | .endGame finalScore => Event.endGame (some finalScore)

/-- The arguments of the `endGame` calls in a list of calls, in order. -/
def endGameArgs : List AdapterCall → List Int
  | [] => []
  | .endGame f :: rest => f :: endGameArgs rest
  | _ :: rest => endGameArgs rest

/-- The arguments of the `updateScore` calls in a list of calls, in order. -/
def updateScoreArgs : List AdapterCall → List Int
  | [] => []
  | .updateScore s :: rest => s :: updateScoreArgs rest
  | _ :: rest => updateScoreArgs rest

/-- The candidate numerals of step `10^p` for the double `v`: the multiples of
`10^p` next to `v` on either side that round to `v`; of two, the one nearer to
`v`, and on a tie the one whose last digit is even. -/
def shortestAt (v p : Nat) : Option Nat :=
  if toDouble (v / 10 ^ p * 10 ^ p) = v then
    if toDouble (v / 10 ^ p * 10 ^ p + 10 ^ p) = v then
      if 2 * (v % 10 ^ p) < 10 ^ p then some (v / 10 ^ p * 10 ^ p)
      else if 10 ^ p < 2 * (v % 10 ^ p) then some (v / 10 ^ p * 10 ^ p + 10 ^ p)
      else if v / 10 ^ p % 2 = 0 then some (v / 10 ^ p * 10 ^ p)
      else some (v / 10 ^ p * 10 ^ p + 10 ^ p)
    else some (v / 10 ^ p * 10 ^ p)
  else if toDouble (v / 10 ^ p * 10 ^ p + 10 ^ p) = v then some (v / 10 ^ p * 10 ^ p + 10 ^ p)
  else none

/-- The integer with the fewest significant digits that rounds to the double
`v`, searched from the step `10^p` downwards; with the step 1 it is `v` itself.
This is the choice of digits of `Number.prototype.toString`. -/
def shortestFrom (v : Nat) : Nat → Nat
  | 0 => v
  | p + 1 =>
    match shortestAt v (p + 1) with
    | some c => c
    | none => shortestFrom v p

/-- The digits of a numeral without its trailing zeros. -/
def significand (ds : List Char) : List Char :=
  (ds.reverse.dropWhile (fun d => decide (d = Char.ofNat 48))).reverse

/-- The exponent form of the numeral `ds` of an integer: the first significant
digit, a point and the other significant digits if there are any, then `e+` and
the exponent, which is the number of digits after the first. -/
def exponentForm (ds : List Char) : List Char :=
  match significand ds with
  | [] => ds
  | d :: rest =>
    (if rest.isEmpty then [d] else d :: Char.ofNat 46 :: rest)
      ++ "e+".toList ++ decimal (ds.length - 1)

/-- The string of a non-negative integer that is a JavaScript number, as
`Number.prototype.toString` writes it: below `2^53` the decimal numeral; from
there on the shortest digits that read back as the same double, followed by
zeros below `10^21` and in the exponent form from `10^21` (`1e+21`) on. -/
def naturalToString (v : Nat) : List Char :=
  if v < 9007199254740992 then decimal v
  else if v < 1000000000000000000000 then
    decimal (shortestFrom v ((decimal v).length - 1))
  else exponentForm (decimal (shortestFrom v ((decimal v).length - 1)))

/-- How a score (an integer-valued JavaScript number) is written when it is
joined into a string: `String(n)`. -/
def numberToString (n : Int) : List Char :=
  if n < 0 then Char.ofNat 45 :: naturalToString n.natAbs else naturalToString n.toNat

/-- The constant `timeBonus = Math.max(0, 300 - duration)`. -/
def timeBonus (duration : Int) : Int :=
  max 0 (300 - duration)

/-- The constant `finalScore = currentScore + timeBonus`: the sum of two
JavaScript numbers is the double nearest to the exact sum. -/
def finalScore (currentScore duration : Int) : Int :=
  toDoubleInt (currentScore + timeBonus duration)

/-- The constant `duration = Math.floor((Date.now() - gameState.gameStartTime) / 1000)`. -/
def elapsedSeconds (g : GameState) (now : Int) : Int :=
  Int.fdiv (now - g.gameStartTime) 1000

/-- Block "Update score if changed" of the interval callback. -/
def scoreStep (g : GameState) (w : Globals) (currentScore : Int) :
    GameState × List AdapterCall :=
  if currentScore ≠ g.lastScore ∧ 0 < currentScore then
    ({ g with lastScore := currentScore },
      if w.hasBridge then
        [AdapterCall.updateScore currentScore,
         AdapterCall.log ("[8Ball Pool] Score updated: ".toList ++ numberToString currentScore)]
      else [])
  else (g, [])

/-- The calls of a terminal path: the log line, then `endGame(finalScore)` when
the bridge is there. -/
def terminalCalls (w : Globals) (line : List Char) (final : Int) : List AdapterCall :=
  AdapterCall.log line :: (if w.hasBridge then [AdapterCall.endGame final] else [])

/-- Block "Check for game over" of the interval callback. -/
def gameOverStep (g : GameState) (w : Globals) (currentScore now : Int) :
    GameState × List AdapterCall :=
  match w.playState with
  | none => (g, [])
  | some playState =>
    match playState.gameInfo with
    | none => (g, [])
    | some gameInfo =>
      if gameInfo.gameOver = some 1 ∧ g.gameEnded = false then
        ({ g with gameEnded := true, checkInterval := false },
          terminalCalls w
            ("[8Ball Pool] Game ended - Score: ".toList ++ numberToString currentScore
              ++ " Time bonus: ".toList ++ numberToString (timeBonus (elapsedSeconds g now))
              ++ " Final: ".toList
              ++ numberToString (finalScore currentScore (elapsedSeconds g now)))
            (finalScore currentScore (elapsedSeconds g now)))
      else (g, [])

/-- Block "Fallback: Check for levelComplete flag" of the interval callback. -/
def levelCompleteStep (g : GameState) (w : Globals) (projectInfo : ProjectInfo)
    (currentScore now : Int) : GameState × List AdapterCall :=
  if projectInfo.levelComplete = true ∧ g.gameEnded = false then
    ({ g with gameEnded := true, checkInterval := false },
      terminalCalls w
        ("[8Ball Pool] Level complete - Final score: ".toList
          ++ numberToString (finalScore currentScore (elapsedSeconds g now)))
        (finalScore currentScore (elapsedSeconds g now)))
  else (g, [])

/-- The interval callback of `startScoreTracking()`, run on one sample of the
globals with the clock reading `now`; the result is the new `gameState` and the
calls made, in order. -/
def tick (g : GameState) (w : Globals) (now : Int) : GameState × List AdapterCall :=
  match w.projectInfo with
  | none => (g, [])
  | some projectInfo =>
    if g.gameEnded then (g, [])
    else
      ((levelCompleteStep
          (gameOverStep (scoreStep g w (projectInfo.score.getD 0)).1 w
            (projectInfo.score.getD 0) now).1
          w projectInfo (projectInfo.score.getD 0) now).1,
        (scoreStep g w (projectInfo.score.getD 0)).2
          ++ (gameOverStep (scoreStep g w (projectInfo.score.getD 0)).1 w
                (projectInfo.score.getD 0) now).2
          ++ (levelCompleteStep
                (gameOverStep (scoreStep g w (projectInfo.score.getD 0)).1 w
                  (projectInfo.score.getD 0) now).1
                w projectInfo (projectInfo.score.getD 0) now).2)

/-- The interval callback run on a sequence of samples, collecting the calls. -/
def runTicks (g : GameState) : List (Globals × Int) → GameState × List AdapterCall
  | [] => (g, [])
  | (w, now) :: rest =>
    ((runTicks (tick g w now).1 rest).1, (tick g w now).2 ++ (runTicks (tick g w now).1 rest).2)

/-- Pair the calls of the adapter with the clocks of the bridge: the `k`-th call
runs with the clock `clk k`. -/
def attachClocks (clk : Nat → Nat → Int) : Nat → List AdapterCall → List (Event × (Nat → Int))
  | _, [] => []
  | k, c :: rest => (c.toEvent, clk k) :: attachClocks clk (k + 1) rest

/-- A sample in which the score is `s` and `gameInfo.gameOver` is 1. -/
def gameOverSample (s : Int) : Globals :=
  { projectInfo := some { score := some s, levelComplete := false },
    playState := some { gameInfo := some { gameOver := some 1 } },
    hasBridge := true }

/-- A sample in which the score is `s` and no terminal flag is set. -/
def playingSample (s : Int) : Globals :=
  { projectInfo := some { score := some s, levelComplete := false },
    playState := some { gameInfo := some { gameOver := some 0 } },
    hasBridge := true }

/-- The adapter's `gameState` while the game runs: started at time 0, last
reported score `last`. -/
def trackingState (last : Int) : GameState :=
  { ballsPocketed := 0, gameStartTime := 0, lastScore := last, gameEnded := false,
    checkInterval := true }

/-- A call of the adapter that cannot end the game on the bridge: an
`updateScore`, or a log line on which a score matcher fires or the game-over
expression does not match. -/
def AdapterCall.isScoreOnly : AdapterCall → Bool
  | .updateScore _ => true
  | .log line => anyScoreMatcher line || !testEndPhrase line
  | .endGame _ => false

/-! ## The transport: `sendMessage` -/

/-- The frame topology the bridge runs in: the identities of `window`,
`window.parent` and `window.top`. -/
structure Frames where
  self : Nat
  parent : Nat
  top : Nat
  deriving DecidableEq, Repr

/-- One call `target.postMessage(message, targetOrigin)`. -/
structure Post where
  target : Nat
  message : Message
  targetOrigin : String
  deriving DecidableEq, Repr

/-- Method `sendMessage(type, data)`, given the envelope `{type, gameId, ...data}`
it has built: the envelope is posted to the parent when the parent is not the
window itself, and to the top window when that is neither the window itself nor
the parent; both with the target origin `*`. -/
def sendMessage (fr : Frames) (message : Message) : List Post :=
  (if fr.parent ≠ fr.self then [{ target := fr.parent, message := message, targetOrigin := "*" }]
    else [])
  ++ (if fr.top ≠ fr.self ∧ fr.top ≠ fr.parent then
        [{ target := fr.top, message := message, targetOrigin := "*" }]
      else [])

/-- Number of copies of a message posted to a frame. -/
def copiesTo (f : Nat) (posts : List Post) : Nat :=
  posts.countP (fun p => decide (p.target = f))

/-! ## The game registry and `formatNumber` (`lib/games.ts`) -/

/-- The union type of the `color` field. -/
inductive GameColor where
  | cyan
  | purple
  | pink
  deriving DecidableEq, Repr

/-- Interface `Game`. -/
structure Game where
  id : String
  uuid : String
  title : String
  description : String
  icon : String
  color : GameColor
  players : Nat
  highScore : Nat
  category : String
  gamePath : String
  deriving DecidableEq, Repr

/-- The exported list `games`. -/
def games : List Game :=
  [ { id := "neon-sky-runner",
      uuid := "bc72a878-6ebc-4adc-ad66-49b67232ea5a",
      title := "Neon Sky Runner",
      description := "Race through neon-lit skies in this fast-paced endless runner. Dodge obstacles, collect power-ups, and chase the highest score.",
      icon := "Rocket",
      color := GameColor.cyan,
      players := 12847,
      highScore := 985420,
      category := "Endless Runner",
      gamePath := "/games/neon-sky-runner/index.html" },
    { id := "tilenova",
      uuid := "ae0f9846-7011-467c-8244-eebf9028b4e1",
      title := "TileNova Circuit Surge",
      description := "Master the grid in this electrifying puzzle game. Match circuits, create chains, and surge your way to victory.",
      icon := "Puzzle",
      color := GameColor.purple,
      players := 8934,
      highScore := 742150,
      category := "Puzzle",
      gamePath := "/games/tilenova/index.html" },
    { id := "flappy",
      uuid := "d3f1a920-4b8c-4e2a-9c15-7a6b3d8e1f04",
      title := "Flappy Bird",
      description := "Navigate through pipes in this classic arcade game. Simple to learn, impossible to master.",
      icon := "Bird",
      color := GameColor.pink,
      players := 5621,
      highScore := 420,
      category := "Arcade",
      gamePath := "/games/flappy/index.html" },
    { id := "sudoku",
      uuid := "f7a2c391-8d4e-4b0a-a1c7-3e9f5d2b6a08",
      title := "Sudoku: Roast Mode",
      description := "Comedy-driven Sudoku with hilarious characters! Get roasted while solving puzzles. 60+ voice lines!",
      icon := "Grid3x3",
      color := GameColor.cyan,
      players := 3412,
      highScore := 2100,
      category := "Puzzle",
      gamePath := "/games/sudoku/index.html" },
    { id := "8ball-pool",
      uuid := "a1b2c3d4-5e6f-7g8h-9i0j-1k2l3m4n5o6p",
      title := "8 Ball Pool",
      description := "Classic billiards with realistic physics! Pot all your balls and sink the 8-ball to win. Perfect your shot and dominate the table.",
      icon := "Circle",
      color := GameColor.purple,
      players := 0,
      highScore := 0,
      category := "Arcade",
      gamePath := "/games/8ball-pool/game.html" } ]

/-- A hexadecimal digit, in either case. -/
def isHexDigit (c : Char) : Bool :=
  isDigit c
    || (decide (97 ≤ c.toNat) && decide (c.toNat ≤ 102))
    || (decide (65 ≤ c.toNat) && decide (c.toNat ≤ 70))

/-- Does the text consist of groups of hexadecimal digits of the given lengths,
separated by `-`. -/
def hexGroups : List Nat → List Char → Bool
  | [], s => s.isEmpty
  | [n], s => decide (s.length = n) && s.all isHexDigit
  | n :: m :: ns, s =>
    decide ((s.take n).length = n) && (s.take n).all isHexDigit
      && decide ((s.drop n).head? = some (Char.ofNat 45))
      && hexGroups (m :: ns) (s.drop (n + 1))

/-- A well-formed UUID, by the words of the claim: five groups of 8, 4, 4, 4 and
12 hexadecimal digits separated by `-`. -/
def isWellFormedUuid (s : String) : Bool :=
  hexGroups [8, 4, 4, 4, 12] s.toList

/-- The call `(num / unit).toFixed(1)` for a non-negative integer `num` and a
unit of 1000 or 1 000 000: the quotient is rounded to a whole number of tenths
and written with one decimal.  The quotient is a double, so when `num / unit`
lies exactly halfway between two tenths it is the double that decides; `tieUp`
says that it is not below the halfway point.  Away from such ties the double is
far closer to the quotient than to the next halfway point (for `num` below
`10^12`) and the result is the rounding of the exact quotient. -/
def toFixed1 (num unit : Nat) (tieUp : Bool) : List Char :=
  let tenths :=
    if (10 * num) % unit * 2 = unit then
      (if tieUp then (10 * num) / unit + 1 else (10 * num) / unit)
    else (10 * num * 2 + unit) / (2 * unit)
  decimal (tenths / 10) ++ [Char.ofNat 46] ++ decimal (tenths % 10)

/-- Function `formatNumber(num)` on a non-negative integer; see `toFixed1` for
`tieUp`. -/
def formatNumber (num : Nat) (tieUp : Bool) : List Char :=
  if num ≥ 1000000 then toFixed1 num 1000000 tieUp ++ "M".toList
  else if num ≥ 1000 then toFixed1 num 1000 tieUp ++ "K".toList
  else decimal num

/-! ## The Sudoku progress counter (`public/games/sudoku/src/scenes/GameScene.js`) -/

/-- The fields of `GameScene` that the progress counter involves; the selected
cell is given by its `row` and `col` data. -/
structure GameScene where
  gridSize : Nat
  playerGrid : List (List Nat)
  fixedCells : List (List Bool)
  totalCells : Nat
  filledCells : Int
  selectedCell : Option (Nat × Nat)
  deriving DecidableEq, Repr

/-- The scene after `init(data)` with the given grid size: no puzzle yet, no
cell selected. -/
def newScene (gridSize : Nat) : GameScene :=
  { gridSize := gridSize, playerGrid := [], fixedCells := [], totalCells := 0,
    filledCells := 0, selectedCell := none }

/-- The entry `grid[row][col]` of a grid. -/
def cellAt (grid : List (List Nat)) (row col : Nat) : Nat :=
  (grid.getD row []).getD col 0

/-- The assignment `grid[row][col] = value`. -/
def setCell (grid : List (List Nat)) (row col value : Nat) : List (List Nat) :=
  grid.set row ((grid.getD row []).set col value)

/-- Method `generateNewPuzzle()`, with the grid that the generator returns as a
parameter: the player grid is a copy of it, a cell is fixed when its entry is not
zero, and the two loops count all cells in `totalCells` and the non-zero ones in
`filledCells`. -/
def generateNewPuzzle (s : GameScene) (grid : List (List Nat)) : GameScene :=
  { s with
    playerGrid := grid.map (fun row => row),
    fixedCells := (List.range s.gridSize).map (fun row =>
      (List.range s.gridSize).map (fun col => decide (cellAt grid row col ≠ 0))),
    totalCells := (List.range s.gridSize).foldl (fun total _ =>
      (List.range s.gridSize).foldl (fun total _ => total + 1) total) 0,
    filledCells := (List.range s.gridSize).foldl (fun filled row =>
      (List.range s.gridSize).foldl (fun filled col =>
        if cellAt grid row col ≠ 0 then filled + 1 else filled) filled) 0 }

/-- Method `selectCell(cellContainer)` for the cell at `row`, `col`: a fixed cell
is refused. -/
def selectCell (s : GameScene) (row col : Nat) : GameScene :=
  if (s.fixedCells.getD row []).getD col false then s
  else { s with selectedCell := some (row, col) }

/-- Method `placeNumber(number)`, as far as the grid and the counter go. -/
def placeNumber (s : GameScene) (number : Nat) : GameScene :=
  match s.selectedCell with
  | none => s
  | some (row, col) =>
    { s with playerGrid := setCell s.playerGrid row col number,
             filledCells := s.filledCells + 1 }

/-- Method `clearCell()`, as far as the grid and the counter go. -/
def clearCell (s : GameScene) : GameScene :=
  match s.selectedCell with
  | none => s
  | some (row, col) =>
    { s with filledCells :=
               if cellAt s.playerGrid row col ≠ 0 then s.filledCells - 1 else s.filledCells,
             playerGrid := setCell s.playerGrid row col 0 }

/-- Least `k` (from the given start, within the given number of steps) for
which `f * 2^k / t` is at least `2^52`: the scale at which the quotient of two
positive integers below `2^53` has a 53-bit significand. -/
def quotientScale : Nat → Nat → Nat → Nat → Nat
  | 0, _, _, k => k
  | fuel + 1, f, t, k =>
    if 4503599627370496 * t ≤ f * 2 ^ k then k else quotientScale fuel f t (k + 1)

/-- The quotient `f / t` of two JavaScript numbers that are integers below
`2^53`, `t` positive: the double nearest to the exact quotient, ties to even,
given as the pair `(q, k)` that stands for `q / 2^k`. -/
def divideDoubles (f t : Nat) : Nat × Nat :=
  ( (if 2 * (f * 2 ^ quotientScale 106 f t 0 % t) < t then
        f * 2 ^ quotientScale 106 f t 0 / t
      else if t < 2 * (f * 2 ^ quotientScale 106 f t 0 % t) then
        f * 2 ^ quotientScale 106 f t 0 / t + 1
      else if f * 2 ^ quotientScale 106 f t 0 / t % 2 = 0 then
        f * 2 ^ quotientScale 106 f t 0 / t
      else f * 2 ^ quotientScale 106 f t 0 / t + 1),
    quotientScale 106 f t 0 )

/-- The percentage that `updateProgress()` shows,
`Math.floor(filledCells / totalCells * 100)`: the quotient is a double, its
product with 100 is rounded to a double again, and the floor is taken (29 of 100
gives 28).  For `totalCells = 0`, where the code shows `NaN` or `Infinity`, the
model gives 0. -/
def progressPercentage (s : GameScene) : Int :=
  if s.totalCells = 0 then 0
  else if 0 ≤ s.filledCells then
    ((toDouble ((divideDoubles s.filledCells.toNat s.totalCells).1 * 100)
        / 2 ^ (divideDoubles s.filledCells.toNat s.totalCells).2 : Nat) : Int)
  else
    -(((toDouble ((divideDoubles s.filledCells.natAbs s.totalCells).1 * 100)
          + 2 ^ (divideDoubles s.filledCells.natAbs s.totalCells).2 - 1)
        / 2 ^ (divideDoubles s.filledCells.natAbs s.totalCells).2 : Nat) : Int)

/-- Number of non-zero cells of a grid. -/
def countNonZero (grid : List (List Nat)) : Nat :=
  (grid.map (fun row => row.countP (fun v => decide (v ≠ 0)))).sum

/-- A 4×4 puzzle with eight given cells. -/
def puzzle4 : List (List Nat) :=
  [ [0, 2, 0, 4],
    [3, 0, 1, 0],
    [0, 1, 0, 3],
    [4, 0, 2, 0] ]

/-- The 4×4 game after the puzzle is generated and the empty cell in the first
row and first column is selected. -/
def sudokuStart : GameScene :=
  selectCell (generateNewPuzzle (newScene 4) puzzle4) 0 0

/-- The number buttons pressed one after the other on the selected cell. -/
def pressNumbers (s : GameScene) (numbers : List Nat) : GameScene :=
  numbers.foldl placeNumber s

/-- The ten end phrases of the specification's table. -/
def endPhrases : List (List Char) :=
  [ "game over".toList, "game-over".toList, "died".toList, "finished".toList,
    "gameover".toList, "you lose".toList, "you lost".toList, "defeat".toList,
    "game end".toList, "level complete".toList ]

/-- The four keywords of the score matchers, in the order they are tried. -/
def scoreKeywords : List (List Char) :=
  [ "best".toList, "score".toList, "points".toList, "level".toList ]

/-! ## The Sudoku score report -/

/-- The two `console.log` calls of `VictoryScene.createStatsCard` that report to
the bridge, in order: `'SCORE:' + score`, then `'GAME_OVER:' + score`.  The score
is the value returned by `leaderboardManager.calculateScore`, taken as given. -/
def createStatsCard (score : Int) : List (List Char) :=
  [ "SCORE:".toList ++ numberToString score, "GAME_OVER:".toList ++ numberToString score ]

/-- The two report lines as calls on the bridge, with the clocks `c1` and `c2`. -/
def reportCalls (score : Int) (c1 c2 : Nat → Int) : List (Event × (Nat → Int)) :=
  (createStatsCard score).zip [c1, c2] |>.map
    (fun p => (Event.processOutput (.str p.1), p.2))

/-- A sample in which the score is `s`, `levelComplete` is set and
`gameInfo.gameOver` is not 1. -/
def levelCompleteSample (s : Int) : Globals :=
  { projectInfo := some { score := some s, levelComplete := true },
    playState := some { gameInfo := some { gameOver := some 0 } },
    hasBridge := true }

/-! ## Basic facts about the methods -/

theorem detectedScore_cases (b : Bridge) (clock : Nat → Int) (s : Option Int) :
    detectedScore b clock s = (b, []) ∨ ∃ n, detectedScore b clock s = onScoreUpdate b clock n := by
  unfold detectedScore
  cases s with
  | none => exact Or.inl rfl
  | some n =>
    by_cases h : 0 < n ∧ n ≠ b.currentScore
    · exact Or.inr ⟨n, by simp [h]⟩
    · exact Or.inl (by simp [h])

/-- Every call of `_processOutput` does nothing, or makes one call of
`onScoreUpdate`, or makes one call of `onGameEnd`. -/
theorem processOutput_cases (b : Bridge) (clock : Nat → Int) (message : JsValue) :
    _processOutput b clock message = (b, [])
      ∨ (∃ n, _processOutput b clock message = onScoreUpdate b clock n)
      ∨ _processOutput b clock message = onGameEnd b clock := by
  have lift : ∀ s, detectedScore b clock s = (b, [])
      ∨ (∃ n, detectedScore b clock s = onScoreUpdate b clock n)
      ∨ detectedScore b clock s = onGameEnd b clock := fun s =>
    (detectedScore_cases b clock s).elim Or.inl (fun h => Or.inr (Or.inl h))
  unfold _processOutput
  split
  · exact Or.inl rfl
  · split
    · exact Or.inl rfl
    · split
      · exact Or.inl rfl
      · split
        · exact lift _
        · split
          · exact lift _
          · split
            · exact lift _
            · split
              · exact lift _
              · split
                · exact lift _
                · split
                  · exact Or.inr (Or.inr rfl)
                  · exact Or.inl rfl

/-! ## The end latch -/

theorem onGameEnd_accept (b : Bridge) (clock : Nat → Int)
    (ha : b.isGameActive = true) (hs : b._gameEndSent = false) :
    onGameEnd b clock =
      ({ b with _gameEndSent := true, isGameActive := false },
        [Message.gameEnd b.gameId b.currentScore (Int.fdiv (clock 0 - b.startTime) 1000)
          b.sessionId (clock 1)]) := by
  simp [onGameEnd, ha, hs]

theorem onGameEnd_reject (b : Bridge) (clock : Nat → Int)
    (h : ¬ (b.isGameActive = true ∧ b._gameEndSent = false)) :
    onGameEnd b clock = (b, []) := by
  unfold onGameEnd
  cases ha : b.isGameActive <;> cases hs : b._gameEndSent <;> simp_all

/-- C10 (end-signal guard): `onGameEnd` emits a `gameEnd` message exactly when, at
the call, `isGameActive` is true and `_gameEndSent` is false.  An accepted call
emits that single message (score `currentScore`, duration from the first clock
read), sets `_gameEndSent` and clears `isGameActive`, touching nothing else.  In
every other state, in particular on the bridge as created, before any readiness
signal, it emits nothing and returns the state as it was. -/
theorem onGameEnd_guard (b : Bridge) (clock : Nat → Int) :
    ((∃ m ∈ (onGameEnd b clock).2, m.isGameEnd = true)
        ↔ (b.isGameActive = true ∧ b._gameEndSent = false))
      ∧ ((b.isGameActive = true ∧ b._gameEndSent = false) →
          (onGameEnd b clock).2 =
              [Message.gameEnd b.gameId b.currentScore
                (Int.fdiv (clock 0 - b.startTime) 1000) b.sessionId (clock 1)]
            ∧ (onGameEnd b clock).1 = { b with _gameEndSent := true, isGameActive := false }
            ∧ (onGameEnd b clock).1.isGameActive = false
            ∧ (onGameEnd b clock).1._gameEndSent = true)
      ∧ (¬ (b.isGameActive = true ∧ b._gameEndSent = false) →
          onGameEnd b clock = (b, []))
      ∧ (∀ t0, onGameEnd (initial t0) clock = (initial t0, [])) := by
  refine ⟨?_, ?_, ?_, ?_⟩
  · constructor
    · intro h
      by_contra hn
      rw [onGameEnd_reject b clock hn] at h
      simp at h
    · intro h
      rw [onGameEnd_accept b clock h.1 h.2]
      exact ⟨_, List.mem_singleton.mpr rfl, rfl⟩
  · intro h
    rw [onGameEnd_accept b clock h.1 h.2]
    exact ⟨rfl, rfl, rfl, rfl⟩
  · exact onGameEnd_reject b clock
  · intro t0
    exact onGameEnd_reject _ clock (by simp [initial])

/-- C10 at an active bridge with score 12, five seconds after the start: the
accepted call emits the `gameEnd` message and flips both flags. -/
theorem onGameEnd_guard_witness :
    (onGameEnd (activeBridge 12) (constClock 5000)).2
        = [Message.gameEnd (some "game-1") 12 5 (some "session-1") 5000]
      ∧ (onGameEnd (activeBridge 12) (constClock 5000)).1.isGameActive = false
      ∧ (onGameEnd (activeBridge 12) (constClock 5000)).1._gameEndSent = true :=
  ⟨((onGameEnd_guard (activeBridge 12) (constClock 5000)).2.1 ⟨rfl, rfl⟩).1,
    ((onGameEnd_guard (activeBridge 12) (constClock 5000)).2.1 ⟨rfl, rfl⟩).2.2.1,
    ((onGameEnd_guard (activeBridge 12) (constClock 5000)).2.1 ⟨rfl, rfl⟩).2.2.2⟩

/-- C9, the claim as stated fails: on the bridge as created, before any
readiness signal (`isGameActive = false`), `updateScore(7)` stores the score and
emits `scoreUpdate(7)`; it is not a no-op. -/
theorem updateScore_guard_counterexample :
    (initial 0).isGameActive = false
      ∧ updateScore (initial 0) (constClock 0) 7
          = ({ initial 0 with currentScore := 7 }, [Message.scoreUpdate none 7 0])
      ∧ updateScore (initial 0) (constClock 0) 7 ≠ (initial 0, []) := by
  decide

/-- C9, amended: `onScoreUpdate` (reached by the public `updateScore`) does not
consult the lifecycle.  In every bridge state, whatever `isGameActive` and
`_gameEndSent` are, a score that is positive and differs from `currentScore` is
stored in `currentScore` and exactly one `scoreUpdate` message carrying it is
emitted; no other field changes. -/
theorem onScoreUpdate_any_lifecycle (b : Bridge) (clock : Nat → Int) (score : Int)
    (_hpos : 0 < score) (_hne : score ≠ b.currentScore) :
    updateScore b clock score = onScoreUpdate b clock score
      ∧ onScoreUpdate b clock score
          = ({ b with currentScore := score },
              [Message.scoreUpdate b.gameId score (clock 0)])
      ∧ (onScoreUpdate b clock score).1.isGameActive = b.isGameActive
      ∧ (onScoreUpdate b clock score).1._gameEndSent = b._gameEndSent :=
  ⟨rfl, rfl, rfl, rfl⟩

/-- C9 amended, at the bridge as created (not active): `updateScore(7)` stores 7
and emits `scoreUpdate(7)`. -/
theorem onScoreUpdate_any_lifecycle_witness :
    (0 : Int) < 7 ∧ (7 : Int) ≠ (initial 0).currentScore
      ∧ (initial 0).isGameActive = false
      ∧ updateScore (initial 0) (constClock 0) 7
          = ({ initial 0 with currentScore := 7 }, [Message.scoreUpdate none 7 0]) :=
  ⟨by decide, by decide, rfl,
    (onScoreUpdate_any_lifecycle (initial 0) (constClock 0) 7 (by decide) (by decide)).1.trans
      (onScoreUpdate_any_lifecycle (initial 0) (constClock 0) 7 (by decide) (by decide)).2.1⟩

/-! ### Exactly one `gameEnd` per session -/

theorem countGameEnd_append (xs ys : List Message) :
    countGameEnd (xs ++ ys) = countGameEnd xs + countGameEnd ys := by
  simp [countGameEnd, List.countP_append]

/-- Once the latch is set, a call other than `reset` emits no `gameEnd` and
leaves the latch set. -/
theorem step_latched (b : Bridge) (clock : Nat → Int) (e : Event)
    (hs : b._gameEndSent = true) (hr : e ≠ Event.reset) :
    (step b clock e).1._gameEndSent = true ∧ countGameEnd (step b clock e).2 = 0 := by
  have hend : ∀ b1 : Bridge, b1._gameEndSent = true → onGameEnd b1 clock = (b1, []) :=
    fun b1 h1 => onGameEnd_reject b1 clock (by simp [h1])
  cases e with
  | processOutput message =>
    rcases processOutput_cases b clock message with h | ⟨n, h⟩ | h
    · simp [step, h, hs, countGameEnd]
    · simp [step, h, onScoreUpdate, hs, countGameEnd, Message.isGameEnd]
    · simp [step, h, hend b hs, hs, countGameEnd]
  | updateScore score =>
    simp [step, updateScore, onScoreUpdate, hs, countGameEnd, Message.isGameEnd]
  | endGame finalScore =>
    cases finalScore with
    | none => simp [step, endGame, hend b hs, hs, countGameEnd]
    | some f =>
      have h := hend { b with currentScore := f } hs
      show (onGameEnd { b with currentScore := f } clock).1._gameEndSent = true
        ∧ countGameEnd (onGameEnd { b with currentScore := f } clock).2 = 0
      rw [h]
      exact ⟨hs, rfl⟩
  | onGameEnd => simp [step, hend b hs, hs, countGameEnd]
  | reset => exact absurd rfl hr

theorem run_latched (b : Bridge) (evs : List (Event × (Nat → Int)))
    (hs : b._gameEndSent = true) (hr : ∀ p ∈ evs, p.1 ≠ Event.reset) :
    countGameEnd (run b evs).2 = 0 := by
  induction evs generalizing b with
  | nil => simp [run, countGameEnd]
  | cons p rest ih =>
    obtain ⟨e, clock⟩ := p
    have h1 := step_latched b clock e hs (hr (e, clock) (List.mem_cons_self _ _))
    have h2 := ih (step b clock e).1 h1.1 (fun q hq => hr q (List.mem_cons_of_mem _ hq))
    simp only [run, countGameEnd_append, h1.2, h2]

/-- From an active bridge whose latch is unset, a call other than `reset`
either emits no `gameEnd` and leaves the bridge active with the latch unset
(possible only when the call is not an explicit end signal), or emits exactly
one `gameEnd` and sets the latch. -/
theorem step_armed (b : Bridge) (clock : Nat → Int) (e : Event)
    (ha : b.isGameActive = true) (hs : b._gameEndSent = false) (hr : e ≠ Event.reset) :
    (e.isEndSignal = false ∧ (step b clock e).1.isGameActive = true
        ∧ (step b clock e).1._gameEndSent = false ∧ countGameEnd (step b clock e).2 = 0)
      ∨ ((step b clock e).1._gameEndSent = true ∧ countGameEnd (step b clock e).2 = 1) := by
  cases e with
  | processOutput message =>
    rcases processOutput_cases b clock message with h | ⟨n, h⟩ | h
    · left; simp [step, h, ha, hs, countGameEnd, Event.isEndSignal]
    · left
      simp [step, h, onScoreUpdate, ha, hs, countGameEnd, Message.isGameEnd, Event.isEndSignal]
    · right
      simp [step, h, onGameEnd_accept b clock ha hs, countGameEnd, Message.isGameEnd]
  | updateScore score =>
    left
    simp [step, updateScore, onScoreUpdate, ha, hs, countGameEnd, Message.isGameEnd,
      Event.isEndSignal]
  | endGame finalScore =>
    right
    cases finalScore with
    | none => simp [step, endGame, onGameEnd_accept b clock ha hs, countGameEnd, Message.isGameEnd]
    | some f =>
      have := onGameEnd_accept { b with currentScore := f } clock ha hs
      simp [step, endGame, this, countGameEnd, Message.isGameEnd]
  | onGameEnd =>
    right
    simp [step, onGameEnd_accept b clock ha hs, countGameEnd, Message.isGameEnd]
  | reset => exact absurd rfl hr

/-- C1 (end latch): from a bridge with `isGameActive = true` and
`_gameEndSent = false`, every sequence of calls without `reset` that contains at
least one explicit end signal (`onGameEnd()` or `endGame(...)`, with or without a
final score), interleaved in any order with any number of `updateScore` calls
and of lines given to `_processOutput`, emits exactly one `gameEnd` message. -/
theorem end_latch_exactly_once (b : Bridge) (evs : List (Event × (Nat → Int)))
    (ha : b.isGameActive = true) (hs : b._gameEndSent = false)
    (hr : ∀ p ∈ evs, p.1 ≠ Event.reset)
    (hend : ∃ p ∈ evs, p.1.isEndSignal = true) :
    countGameEnd (run b evs).2 = 1 := by
  induction evs generalizing b with
  | nil => obtain ⟨p, hp, _⟩ := hend; simp at hp
  | cons p rest ih =>
    obtain ⟨e, clock⟩ := p
    have hr1 : e ≠ Event.reset := hr (e, clock) (List.mem_cons_self _ _)
    have hr2 : ∀ q ∈ rest, q.1 ≠ Event.reset := fun q hq => hr q (List.mem_cons_of_mem _ hq)
    rcases step_armed b clock e ha hs hr1 with ⟨hne, ha1, hs1, hc⟩ | ⟨hs1, hc⟩
    · have hend2 : ∃ q ∈ rest, q.1.isEndSignal = true := by
        obtain ⟨q, hq, hqe⟩ := hend
        rcases List.mem_cons.mp hq with rfl | hq
        · simp [hne] at hqe
        · exact ⟨q, hq, hqe⟩
      have h2 := ih (step b clock e).1 ha1 hs1 hr2 hend2
      simp only [run, countGameEnd_append, hc, h2]
    · have h2 := run_latched (step b clock e).1 rest hs1 hr2
      simp only [run, countGameEnd_append, hc, h2]


/-- C1 at a sample session of seven calls, three of them explicit end signals and
one an end-phrase line: one `gameEnd` in all. -/
theorem end_latch_exactly_once_witness :
    (activeBridge 0).isGameActive = true ∧ (activeBridge 0)._gameEndSent = false
      ∧ countGameEnd (run (activeBridge 0) sampleCalls).2 = 1 :=
  ⟨rfl, rfl,
    end_latch_exactly_once (activeBridge 0) sampleCalls rfl rfl (by decide) (by decide)⟩

/-! ## Facts about the string built-ins and the matchers -/

theorem isDigit_not_isSpace (c : Char) (h : isDigit c = true) : isSpace c = false := by
  simp only [isDigit, Bool.and_eq_true, decide_eq_true_eq] at h
  simp only [isSpace, Bool.or_eq_false_iff, Bool.and_eq_false_iff, decide_eq_false_iff_not]
  omega

theorem isDigit_not_isSep (c : Char) (h : isDigit c = true) : isSep c = false := by
  have hs := isDigit_not_isSpace c h
  simp only [isDigit, Bool.and_eq_true, decide_eq_true_eq] at h
  simp only [isSep, hs, Bool.false_or, Bool.or_eq_false_iff, decide_eq_false_iff_not]
  omega

theorem isDigit_ne_sign (c : Char) (h : isDigit c = true) :
    c ≠ Char.ofNat 45 ∧ c ≠ Char.ofNat 43 := by
  simp only [isDigit, Bool.and_eq_true, decide_eq_true_eq] at h
  constructor <;> (intro hc; subst hc; revert h; decide)

/-- An integer below `2^53` is a JavaScript number. -/
theorem toDouble_of_lt (n : Nat) (h : n < 9007199254740992) : toDouble n = n := by
  unfold toDouble
  rw [if_pos h]

theorem toDoubleInt_of_lt (z : Int) (h1 : -9007199254740992 < z) (h2 : z < 9007199254740992) :
    toDoubleInt z = z := by
  unfold toDoubleInt
  split
  · rw [toDouble_of_lt _ (by omega)]
    omega
  · rw [toDouble_of_lt _ (by omega)]
    omega

theorem excessBits_small (fuel n : Nat) (h : n < 9007199254740992) : excessBits fuel n = 0 := by
  cases fuel with
  | zero => rfl
  | succ f => simp [excessBits, h]

/-- With enough halvings allowed, `excessBits` is the exponent that scales `n`
into the range of a 53-bit significand. -/
theorem excessBits_spec (fuel n : Nat) (h : n < 9007199254740992 * 2 ^ fuel) :
    n / 2 ^ excessBits fuel n < 9007199254740992
      ∧ (9007199254740992 ≤ n →
          1 ≤ excessBits fuel n ∧ 4503599627370496 ≤ n / 2 ^ excessBits fuel n) := by
  induction fuel generalizing n with
  | zero =>
    simp only [pow_zero, mul_one] at h
    refine ⟨by simpa [excessBits] using h, fun h2 => by omega⟩
  | succ f ih =>
    by_cases hs : n < 9007199254740992
    · rw [excessBits_small _ _ hs]
      exact ⟨by simpa using hs, fun h2 => by omega⟩
    · have hstep : excessBits (f + 1) n = excessBits f (n / 2) + 1 := by
        simp [excessBits, hs]
      have hhalf : n / 2 < 9007199254740992 * 2 ^ f := by
        rw [pow_succ] at h
        omega
      obtain ⟨i1, i2⟩ := ih (n / 2) hhalf
      have hdiv : n / 2 ^ (excessBits f (n / 2) + 1) = n / 2 / 2 ^ excessBits f (n / 2) := by
        rw [pow_succ, mul_comm, Nat.div_div_eq_div_mul]
      rw [hstep, hdiv]
      refine ⟨i1, fun _ => ⟨by omega, ?_⟩⟩
      by_cases hb : 9007199254740992 ≤ n / 2
      · exact (i2 hb).2
      · rw [excessBits_small _ _ (by omega)]
        simp only [pow_zero, Nat.div_one]
        omega

theorem fuel_enough (n : Nat) : n < 9007199254740992 * 2 ^ n := by
  have := Nat.lt_two_pow n
  nlinarith [Nat.one_le_two_pow (n := n)]

theorem excessBits_unique (fuel n e : Nat) (h : n < 9007199254740992 * 2 ^ fuel)
    (he : 1 ≤ e) (h1 : 4503599627370496 ≤ n / 2 ^ e) (h2 : n / 2 ^ e < 9007199254740992) :
    excessBits fuel n = e := by
  have hpos : ∀ k : Nat, 0 < 2 ^ k := fun k => Nat.pow_pos (by norm_num)
  have hlow : 4503599627370496 * 2 ^ e ≤ n := (Nat.le_div_iff_mul_le (hpos e)).mp h1
  have hhigh : n < 9007199254740992 * 2 ^ e := (Nat.div_lt_iff_lt_mul (hpos e)).mp h2
  have hbig : 9007199254740992 ≤ n := by
    have : 2 ^ 1 ≤ 2 ^ e := Nat.pow_le_pow_right (by norm_num) he
    nlinarith
  obtain ⟨s1, s2⟩ := excessBits_spec fuel n h
  obtain ⟨_, s3⟩ := s2 hbig
  have hlow0 : 4503599627370496 * 2 ^ excessBits fuel n ≤ n :=
    (Nat.le_div_iff_mul_le (hpos _)).mp s3
  have hhigh0 : n < 9007199254740992 * 2 ^ excessBits fuel n :=
    (Nat.div_lt_iff_lt_mul (hpos _)).mp s1
  rcases Nat.lt_trichotomy (excessBits fuel n) e with hlt | heq | hgt
  · exfalso
    have : 2 ^ (excessBits fuel n + 1) ≤ 2 ^ e := Nat.pow_le_pow_right (by norm_num) hlt
    rw [pow_succ] at this
    nlinarith
  · exact heq
  · exfalso
    have : 2 ^ (e + 1) ≤ 2 ^ excessBits fuel n := Nat.pow_le_pow_right (by norm_num) hgt
    rw [pow_succ] at this
    nlinarith

/-- A 53-bit significand times a power of two is a JavaScript number. -/
theorem toDouble_multiple (q e : Nat) (he : 1 ≤ e) (h1 : 4503599627370496 ≤ q)
    (h2 : q ≤ 9007199254740992) : toDouble (q * 2 ^ e) = q * 2 ^ e := by
  have hpos : ∀ k : Nat, 0 < 2 ^ k := fun k => Nat.pow_pos (by norm_num)
  have h2e : 2 ^ 1 ≤ 2 ^ e := Nat.pow_le_pow_right (by norm_num) he
  have hbig : ¬ q * 2 ^ e < 9007199254740992 := by nlinarith
  by_cases hq : q < 9007199254740992
  · have hex : excessBits (q * 2 ^ e) (q * 2 ^ e) = e :=
      excessBits_unique _ _ e (fuel_enough _) he
        (by rw [Nat.mul_div_cancel _ (hpos e)]; exact h1)
        (by rw [Nat.mul_div_cancel _ (hpos e)]; exact hq)
    unfold toDouble
    rw [if_neg hbig, hex, Nat.mul_mod_left, if_pos (by simp),
      Nat.mul_div_cancel _ (hpos e)]
  · have hq2 : q = 9007199254740992 := by omega
    have hw : q * 2 ^ e = 4503599627370496 * 2 ^ (e + 1) := by
      rw [hq2, pow_succ]; ring
    have hex : excessBits (q * 2 ^ e) (q * 2 ^ e) = e + 1 := by
      apply excessBits_unique _ _ (e + 1) (fuel_enough _) (by omega)
      · rw [hw, Nat.mul_div_cancel _ (hpos _)]
      · rw [hw, Nat.mul_div_cancel _ (hpos _)]; norm_num
    unfold toDouble
    rw [if_neg hbig, hex, hw, Nat.mul_mod_left, if_pos (by simp),
      Nat.mul_div_cancel _ (hpos _)]

/-- The result of the rounding is a JavaScript number: rounding it again changes
nothing. -/
theorem toDouble_idem (n : Nat) : toDouble (toDouble n) = toDouble n := by
  by_cases hs : n < 9007199254740992
  · rw [toDouble_of_lt n hs, toDouble_of_lt n hs]
  · obtain ⟨s1, s2⟩ := excessBits_spec n n (fuel_enough n)
    obtain ⟨he, s3⟩ := s2 (by omega)
    have hcases : toDouble n = n / 2 ^ excessBits n n * 2 ^ excessBits n n
        ∨ toDouble n = (n / 2 ^ excessBits n n + 1) * 2 ^ excessBits n n := by
      unfold toDouble
      rw [if_neg hs]
      split
      · exact Or.inl rfl
      · split
        · exact Or.inr rfl
        · split
          · exact Or.inl rfl
          · exact Or.inr rfl
    rcases hcases with h | h
    · rw [h]; exact toDouble_multiple _ _ he s3 (by omega)
    · rw [h]; exact toDouble_multiple _ _ he (by omega) (by omega)

theorem toDouble_cases (n : Nat) (h : 9007199254740992 ≤ n) :
    (2 * (n % 2 ^ excessBits n n) < 2 ^ excessBits n n
        ∧ toDouble n = n / 2 ^ excessBits n n * 2 ^ excessBits n n)
      ∨ (2 ^ excessBits n n < 2 * (n % 2 ^ excessBits n n)
        ∧ toDouble n = (n / 2 ^ excessBits n n + 1) * 2 ^ excessBits n n)
      ∨ (2 * (n % 2 ^ excessBits n n) = 2 ^ excessBits n n
        ∧ n / 2 ^ excessBits n n % 2 = 0
        ∧ toDouble n = n / 2 ^ excessBits n n * 2 ^ excessBits n n)
      ∨ (2 * (n % 2 ^ excessBits n n) = 2 ^ excessBits n n
        ∧ n / 2 ^ excessBits n n % 2 = 1
        ∧ toDouble n = (n / 2 ^ excessBits n n + 1) * 2 ^ excessBits n n) := by
  unfold toDouble
  rw [if_neg (by omega)]
  by_cases h1 : 2 * (n % 2 ^ excessBits n n) < 2 ^ excessBits n n
  · rw [if_pos h1]; exact Or.inl ⟨h1, rfl⟩
  · rw [if_neg h1]
    by_cases h2 : 2 ^ excessBits n n < 2 * (n % 2 ^ excessBits n n)
    · rw [if_pos h2]; exact Or.inr (Or.inl ⟨h2, rfl⟩)
    · rw [if_neg h2]
      by_cases h3 : n / 2 ^ excessBits n n % 2 = 0
      · rw [if_pos h3]; exact Or.inr (Or.inr (Or.inl ⟨by omega, h3, rfl⟩))
      · rw [if_neg h3]; exact Or.inr (Or.inr (Or.inr ⟨by omega, by omega, rfl⟩))

/-- For `n ≥ 2^53` the result is a multiple of `2^e`, `e = excessBits n n`, with
a significand between `2^52` and `2^53`, and it differs from `n` by at most half
of `2^e`; when `n` lies halfway between two multiples, the significand is even. -/
theorem toDouble_nearest (n : Nat) (h : 9007199254740992 ≤ n) :
    ∃ q, toDouble n = q * 2 ^ excessBits n n
      ∧ 4503599627370496 ≤ q ∧ q ≤ 9007199254740992
      ∧ 2 * toDouble n ≤ 2 * n + 2 ^ excessBits n n
      ∧ 2 * n ≤ 2 * toDouble n + 2 ^ excessBits n n
      ∧ ((2 * toDouble n = 2 * n + 2 ^ excessBits n n
          ∨ 2 * n = 2 * toDouble n + 2 ^ excessBits n n) → q % 2 = 0) := by
  obtain ⟨s1, s2⟩ := excessBits_spec n n (fuel_enough n)
  obtain ⟨he, s3⟩ := s2 h
  have hdm := Nat.div_add_mod n (2 ^ excessBits n n)
  have hr : n % 2 ^ excessBits n n < 2 ^ excessBits n n :=
    Nat.mod_lt _ (Nat.pow_pos (by norm_num))
  have hc := toDouble_cases n h
  generalize toDouble n = t at hc ⊢
  generalize n / 2 ^ excessBits n n = q at *
  generalize n % 2 ^ excessBits n n = r at *
  generalize 2 ^ excessBits n n = P at *
  rcases hc with ⟨c1, rfl⟩ | ⟨c1, rfl⟩ | ⟨c1, c2, rfl⟩ | ⟨c1, c2, rfl⟩
  · refine ⟨q, rfl, s3, by omega, by nlinarith, by nlinarith, ?_⟩
    intro hx
    exfalso
    rcases hx with hx | hx <;> nlinarith
  · refine ⟨q + 1, rfl, by omega, by omega, by nlinarith, by nlinarith, ?_⟩
    intro hx
    exfalso
    rcases hx with hx | hx <;> nlinarith
  · exact ⟨q, rfl, s3, by omega, by nlinarith, by nlinarith, fun _ => c2⟩
  · exact ⟨q + 1, rfl, by omega, by omega, by nlinarith, by nlinarith, fun _ => by omega⟩

theorem toDouble_pos (n : Nat) (h : 0 < n) : 0 < toDouble n := by
  by_cases hs : n < 9007199254740992
  · rw [toDouble_of_lt n hs]; exact h
  · obtain ⟨_, s2⟩ := excessBits_spec n n (fuel_enough n)
    obtain ⟨_, s3⟩ := s2 (by omega)
    have hp : 0 < 2 ^ excessBits n n := Nat.pow_pos (by norm_num)
    unfold toDouble
    rw [if_neg hs]
    split
    · exact Nat.mul_pos (by omega) hp
    · split
      · exact Nat.mul_pos (by omega) hp
      · split
        · exact Nat.mul_pos (by omega) hp
        · exact Nat.mul_pos (by omega) hp

theorem toDoubleInt_idem (z : Int) : toDoubleInt (toDoubleInt z) = toDoubleInt z := by
  by_cases hz : z < 0
  · have hp := toDouble_pos z.natAbs (by omega)
    have h1 : toDoubleInt z = -((toDouble z.natAbs : Nat) : Int) := by
      unfold toDoubleInt
      rw [if_pos hz]
    rw [h1]
    unfold toDoubleInt
    rw [if_pos (by omega)]
    have hab : (-((toDouble z.natAbs : Nat) : Int)).natAbs = toDouble z.natAbs := by omega
    rw [hab, toDouble_idem]
  · have h1 : toDoubleInt z = ((toDouble z.toNat : Nat) : Int) := by
      unfold toDoubleInt
      rw [if_neg hz]
    rw [h1]
    unfold toDoubleInt
    rw [if_neg (by omega)]
    have hab : (((toDouble z.toNat : Nat) : Int)).toNat = toDouble z.toNat := by omega
    rw [hab, toDouble_idem]

/-- On a non-empty run of digits `parseInt` is the double nearest to the
base-10 value of the run. -/
theorem parseInt_digits (ds : List Char) (hne : ds ≠ []) (hd : ∀ c ∈ ds, isDigit c = true) :
    parseInt ds = some ((toDouble (digitsValue ds) : Nat) : Int) := by
  cases ds with
  | nil => exact absurd rfl hne
  | cons c cs =>
    have hc : isDigit c = true := hd c (List.mem_cons_self _ _)
    have hsp := isDigit_not_isSpace c hc
    have hsg := isDigit_ne_sign c hc
    have htake : List.takeWhile isDigit (c :: cs) = c :: cs :=
      List.takeWhile_eq_self_iff.mpr hd
    simp only [parseInt, List.dropWhile_cons, hsp, Bool.false_eq_true, if_false,
      List.head?_cons, Option.some.injEq, hsg.1, hsg.2, decide_False, Bool.or_self, htake,
      List.isEmpty_cons]

/-- A separate match of the keyword pattern captures a non-empty run of digits. -/
theorem keywordNumberAt_digits (kw : List Char) (prev : Option Char) (s ds : List Char)
    (h : keywordNumberAt kw prev s = some ds) :
    ds ≠ [] ∧ ∀ c ∈ ds, isDigit c = true := by
  unfold keywordNumberAt at h
  split at h
  · split at h
    · exact absurd h (by simp)
    · exact absurd h (by simp)
    · split at h
      · simp only at h
        split at h
        · exact absurd h (by simp)
        · rename_i hne
          have hds := Option.some.inj h
          subst hds
          refine ⟨fun h0 => hne (by simp [h0]), fun c hc => ?_⟩
          exact (List.mem_takeWhile_imp hc)
      · exact absurd h (by simp)
  · exact absurd h (by simp)

theorem searchKeywordNumber_digits (kw : List Char) (prev : Option Char) (s ds : List Char)
    (h : searchKeywordNumber kw prev s = some ds) :
    ds ≠ [] ∧ ∀ c ∈ ds, isDigit c = true := by
  induction s generalizing prev with
  | nil => exact keywordNumberAt_digits kw prev [] ds h
  | cons c cs ih =>
    unfold searchKeywordNumber at h
    split at h
    · rename_i d hd
      have := Option.some.inj h
      subst this
      exact keywordNumberAt_digits kw prev (c :: cs) _ hd
    · exact ih (some c) h

/-- The number a keyword matcher hands to the score test is the double nearest
to the base-10 value of the captured digits; it is never `NaN`. -/
theorem parseInt_capture (kw : List Char) (prev : Option Char) (s ds : List Char)
    (h : searchKeywordNumber kw prev s = some ds) :
    parseInt ds = some ((toDouble (digitsValue ds) : Nat) : Int) :=
  parseInt_digits ds (searchKeywordNumber_digits kw prev s ds h).1
    (searchKeywordNumber_digits kw prev s ds h).2


theorem dropWhile_append_all (p : Char → Bool) (a b : List Char)
    (h : ∀ x ∈ a, p x = true) : (a ++ b).dropWhile p = b.dropWhile p := by
  induction a with
  | nil => rfl
  | cons x xs ih =>
    have hx : p x = true := h x (List.mem_cons_self _ _)
    simp only [List.cons_append, List.dropWhile_cons, hx, if_true]
    exact ih (fun y hy => h y (List.mem_cons_of_mem _ hy))

theorem dropWhile_head_neg (p : Char → Bool) (l : List Char)
    (h : ∀ x, l.head? = some x → p x = false) : l.dropWhile p = l := by
  cases l with
  | nil => rfl
  | cons x xs => simp [List.dropWhile_cons, h x rfl]

/-- On a line accepted by the digits-only test, `trim` leaves exactly the run of
digits. -/
theorem trim_digitsOnly (msg : List Char) (h : testDigitsOnly msg = true) :
    trim msg ≠ [] ∧ (∀ c ∈ trim msg, isDigit c = true)
      ∧ trim msg = (msg.dropWhile isSpace).takeWhile isDigit := by
  simp only [testDigitsOnly, Bool.and_eq_true, Bool.not_eq_true', List.isEmpty_eq_true,
    List.isEmpty_eq_false] at h
  obtain ⟨hne, hw⟩ := h
  have hne2 : (msg.dropWhile isSpace).takeWhile isDigit ≠ [] := by
    intro h0; rw [h0] at hne; simp at hne
  set r := msg.dropWhile isSpace with hr
  set ds := r.takeWhile isDigit with hds
  set w := r.dropWhile isDigit with hwd
  have hsplit : r = ds ++ w := (List.takeWhile_append_dropWhile isDigit r).symm
  have hwall : ∀ x ∈ w, isSpace x = true := by
    have := List.dropWhile_eq_nil_iff.mp hw
    exact this
  have hdall : ∀ c ∈ ds, isDigit c = true := fun c hc => List.mem_takeWhile_imp hc
  have htrim : trim msg = ds := by
    unfold trim
    rw [← hr, hsplit, List.reverse_append,
      dropWhile_append_all isSpace w.reverse ds.reverse
        (fun x hx => hwall x (List.mem_reverse.mp hx))]
    rw [dropWhile_head_neg isSpace ds.reverse, List.reverse_reverse]
    intro x hx
    have hmem : x ∈ ds.reverse := List.mem_of_mem_head? hx
    exact isDigit_not_isSpace x (hdall x (List.mem_reverse.mp hmem))
  exact ⟨by rw [htrim]; exact hne2, by rw [htrim]; exact hdall, htrim⟩

/-- A line matched by one of the five score matchers always yields a number:
the specification-side extractor is defined exactly on those lines. -/
theorem firstScoreMatch_isSome (msg : List Char) :
    (firstScoreMatch msg).isSome = anyScoreMatcher msg := by
  unfold firstScoreMatch anyScoreMatcher matchBest matchScore matchPoints matchLevel
  split
  · rename_i m h
    simp only [h, parseInt_capture _ _ _ _ h, Option.isSome_some, Bool.true_or]
  · rename_i h1
    split
    · rename_i m h
      simp only [h, h1, parseInt_capture _ _ _ _ h, Option.isSome_some, Option.isSome_none,
        Bool.true_or, Bool.or_true]
    · rename_i h2
      split
      · rename_i m h
        simp only [h, h1, h2, parseInt_capture _ _ _ _ h, Option.isSome_some,
          Option.isSome_none, Bool.true_or, Bool.or_true]
      · rename_i h3
        split
        · rename_i m h
          simp only [h, h1, h2, h3, parseInt_capture _ _ _ _ h, Option.isSome_some,
            Option.isSome_none, Bool.true_or, Bool.or_true]
        · rename_i h4
          simp only [h1, h2, h3, h4, Option.isSome_none, Bool.false_or]
          by_cases hd : testDigitsOnly msg = true
          · have ht := trim_digitsOnly msg hd
            simp only [hd, if_true, parseInt_digits _ ht.1 ht.2.1, Option.isSome_some]
          · simp only [hd, Bool.false_eq_true, if_false, Option.isSome_none]


theorem occursAt_iff (pat s : List Char) :
    occursAt pat s = true ↔ ∃ post, s = pat ++ post := by
  induction pat generalizing s with
  | nil => simp [occursAt]
  | cons p ps ih =>
    cases s with
    | nil => simp [occursAt]
    | cons c cs =>
      simp only [occursAt, Bool.and_eq_true, decide_eq_true_eq, ih,
        List.cons_append, List.cons.injEq]
      constructor
      · rintro ⟨rfl, post, rfl⟩; exact ⟨post, rfl, rfl⟩
      · rintro ⟨post, rfl, rfl⟩; exact ⟨rfl, post, rfl⟩

/-- The scan of `indexOf` from a non-negative start either answers `-1`, and
then the pattern occurs nowhere in the input, or answers a position that is not
below the start, and then the pattern occurs in the input. -/
theorem indexOfFrom_spec (pat : List Char) (i : Int) (s : List Char) (hi : 0 ≤ i) :
    (indexOfFrom pat i s = -1 ∧ ¬ ∃ pre post, s = pre ++ pat ++ post)
      ∨ (i ≤ indexOfFrom pat i s ∧ ∃ pre post, s = pre ++ pat ++ post) := by
  induction s generalizing i with
  | nil =>
    cases pat with
    | nil => right; exact ⟨by simp [indexOfFrom], [], [], rfl⟩
    | cons p ps =>
      left
      refine ⟨by simp [indexOfFrom], ?_⟩
      rintro ⟨pre, post, h⟩
      have := congrArg List.length h
      simp at this
      omega
  | cons c cs ih =>
    unfold indexOfFrom
    by_cases hm : occursAt pat (c :: cs) = true
    · right
      obtain ⟨post, hpost⟩ := (occursAt_iff pat (c :: cs)).mp hm
      simp only [hm, if_true]
      exact ⟨le_refl i, [], post, by simpa using hpost⟩
    · simp only [hm, Bool.false_eq_true, if_false]
      rcases ih (i + 1) (by omega) with ⟨h1, h2⟩ | ⟨h1, pre, post, h2⟩
      · left
        refine ⟨h1, ?_⟩
        rintro ⟨pre, post, h⟩
        cases pre with
        | nil =>
          exact hm ((occursAt_iff pat (c :: cs)).mpr ⟨post, by simpa using h⟩)
        | cons x xs =>
          simp only [List.cons_append, List.cons.injEq] at h
          exact h2 ⟨xs, post, h.2⟩
      · right
        exact ⟨by omega, c :: pre, post, by simp [h2]⟩

/-- The test `message.indexOf('[Ginix Bridge]') !== -1` holds exactly when the
marker occurs in the message. -/
theorem indexOf_marker_iff (msg : List Char) :
    indexOf msg marker ≠ -1 ↔ ∃ pre post, msg = pre ++ marker ++ post := by
  unfold indexOf
  rcases indexOfFrom_spec marker 0 msg (le_refl 0) with ⟨h1, h2⟩ | ⟨h1, h2⟩
  · exact ⟨fun h => absurd h1 h, fun h => absurd h h2⟩
  · exact ⟨fun _ => h2, fun _ => by omega⟩


/-! ## The text path: `_processOutput` -/

theorem firstScoreMatch_nil : firstScoreMatch [] = none := by decide

/-- On a line without the marker on which a score matcher fires, the call is
the shared score branch applied to the extracted number. -/
theorem processOutput_eq_detected (b : Bridge) (clock : Nat → Int) (msg : List Char) (s : Int)
    (hm : indexOf msg marker = -1) (hs : firstScoreMatch msg = some s) :
    _processOutput b clock (.str msg) = detectedScore b clock (some s) := by
  have hne : msg.isEmpty = false := by
    cases msg with
    | nil => rw [firstScoreMatch_nil] at hs; exact absurd hs (by simp)
    | cons c cs => rfl
  unfold firstScoreMatch at hs
  simp only [_processOutput, hne, hm, Bool.false_eq_true, if_false, ne_eq, not_true_eq_false]
  split at hs
  · rename_i m h; simp only [h, hs]
  · rename_i h1
    split at hs
    · rename_i m h; simp only [h1, h, hs]
    · rename_i h2
      split at hs
      · rename_i m h; simp only [h1, h2, h, hs]
      · rename_i h3
        split at hs
        · rename_i m h; simp only [h1, h2, h3, h, hs]
        · rename_i h4
          split at hs
          · rename_i hd
            rw [if_pos hd, hs]
          · exact absurd hs (by simp)

/-- On a non-empty line without the marker on which no score matcher fires, the
call is decided by the game-over expression alone. -/
theorem processOutput_no_score (b : Bridge) (clock : Nat → Int) (msg : List Char)
    (hm : indexOf msg marker = -1) (hs : anyScoreMatcher msg = false) :
    _processOutput b clock (.str msg)
      = if testEndPhrase msg then onGameEnd b clock else (b, []) := by
  simp only [anyScoreMatcher, Bool.or_eq_false_iff] at hs
  obtain ⟨⟨⟨⟨h1, h2⟩, h3⟩, h4⟩, h5⟩ := hs
  have e1 : matchBest msg = none := by
    cases h : matchBest msg with
    | none => rfl
    | some m => rw [h] at h1; exact absurd h1 (by simp)
  have e2 : matchScore msg = none := by
    cases h : matchScore msg with
    | none => rfl
    | some m => rw [h] at h2; exact absurd h2 (by simp)
  have e3 : matchPoints msg = none := by
    cases h : matchPoints msg with
    | none => rfl
    | some m => rw [h] at h3; exact absurd h3 (by simp)
  have e4 : matchLevel msg = none := by
    cases h : matchLevel msg with
    | none => rfl
    | some m => rw [h] at h4; exact absurd h4 (by simp)
  cases msg with
  | nil =>
    have : testEndPhrase [] = false := by decide
    simp [_processOutput, this]
  | cons c cs =>
    simp only [_processOutput, List.isEmpty_cons, hm, Bool.false_eq_true, if_false, ne_eq,
      not_true_eq_false, e1, e2, e3, e4, h5]

theorem detectedScore_some (b : Bridge) (clock : Nat → Int) (s : Int) :
    detectedScore b clock (some s)
      = if 0 < s ∧ s ≠ b.currentScore then
          ({ b with currentScore := s }, [Message.scoreUpdate b.gameId s (clock 0)])
        else (b, []) := rfl

/-- C2 (text-path score forwarding): for every bridge state and every line that
does not contain the marker `[Ginix Bridge]` and on which the first matching
score matcher extracts the number `s`, `_processOutput` emits a `scoreUpdate`
message if and only if `s > 0` and `s` differs from `currentScore`.  When it
does, it emits exactly that one message, carrying `s`, and sets `currentScore`
to `s` and nothing else (no monotonicity is required of `s`); otherwise it emits
nothing and returns the state as it was. -/
theorem processOutput_score_forwarding (b : Bridge) (clock : Nat → Int)
    (msg : List Char) (s : Int)
    (hm : ¬ ∃ pre post, msg = pre ++ marker ++ post)
    (hs : firstScoreMatch msg = some s) :
    ((∃ m ∈ (_processOutput b clock (.str msg)).2, m.isScoreUpdate = true)
        ↔ (0 < s ∧ s ≠ b.currentScore))
      ∧ ((0 < s ∧ s ≠ b.currentScore) →
          _processOutput b clock (.str msg)
            = ({ b with currentScore := s }, [Message.scoreUpdate b.gameId s (clock 0)]))
      ∧ (¬ (0 < s ∧ s ≠ b.currentScore) → _processOutput b clock (.str msg) = (b, [])) := by
  have hidx : indexOf msg marker = -1 := by
    by_contra h
    exact hm ((indexOf_marker_iff msg).mp h)
  rw [processOutput_eq_detected b clock msg s hidx hs, detectedScore_some]
  by_cases hc : 0 < s ∧ s ≠ b.currentScore
  · rw [if_pos hc]
    exact ⟨⟨fun _ => hc, fun _ => ⟨_, List.mem_singleton.mpr rfl, rfl⟩⟩, fun _ => rfl,
      fun h => absurd hc h⟩
  · rw [if_neg hc]
    refine ⟨⟨fun h => ?_, fun h => absurd h hc⟩, fun h => absurd h hc, fun _ => rfl⟩
    obtain ⟨m, hmem, _⟩ := h
    simp at hmem


/-- C2 at the line `score: 45` on a bridge whose score is 100: the lower score
is forwarded. -/
theorem processOutput_score_forwarding_witness :
    firstScoreMatch "score: 45".toList = some 45
      ∧ _processOutput (activeBridge 100) (constClock 9) (.str "score: 45".toList)
          = ({ activeBridge 100 with currentScore := 45 },
              [Message.scoreUpdate (some "game-1") 45 9]) :=
  ⟨by decide,
    (processOutput_score_forwarding (activeBridge 100) (constClock 9) "score: 45".toList 45
      (fun h => absurd ((indexOf_marker_iff _).mpr h) (by decide)) (by decide)).2.1
      ⟨by decide, by decide⟩⟩

/-! ## Frame properties of `_processOutput` -/

/-- C5 (unmatched lines): for every bridge state and every line on which none
of the six matchers fires (no score matcher and no end phrase), `_processOutput`
emits no message and returns the bridge state unchanged in every field; the
same holds for a non-string argument and for the empty string.  The embedding is
a total function, so no error is raised. -/
theorem processOutput_unmatched_noop (b : Bridge) (clock : Nat → Int) (msg : List Char)
    (hs : anyScoreMatcher msg = false) (he : testEndPhrase msg = false) :
    _processOutput b clock (.str msg) = (b, [])
      ∧ _processOutput b clock .notString = (b, [])
      ∧ _processOutput b clock (.str []) = (b, []) := by
  refine ⟨?_, rfl, rfl⟩
  by_cases hm : indexOf msg marker = -1
  · rw [processOutput_no_score b clock msg hm hs, he]
    rfl
  · cases msg with
    | nil => rfl
    | cons c cs => simp [_processOutput, hm]

/-- C5 at the line `loading...`. -/
theorem processOutput_unmatched_noop_witness :
    anyScoreMatcher "loading...".toList = false
      ∧ testEndPhrase "loading...".toList = false
      ∧ _processOutput (activeBridge 3) (constClock 1) (.str "loading...".toList)
          = (activeBridge 3, []) :=
  ⟨by decide, by decide,
    (processOutput_unmatched_noop (activeBridge 3) (constClock 1) "loading...".toList
      (by decide) (by decide)).1⟩

/-- C6 (feedback-loop guard): for every bridge state and every line that
contains the marker `[Ginix Bridge]`, `_processOutput` emits no message (neither
`scoreUpdate` nor `gameEnd`) and returns the state unchanged, whatever the rest
of the line matches. -/
theorem processOutput_marker_guard (b : Bridge) (clock : Nat → Int) (msg : List Char)
    (h : ∃ pre post, msg = pre ++ marker ++ post) :
    _processOutput b clock (.str msg) = (b, []) := by
  have hm : indexOf msg marker ≠ -1 := (indexOf_marker_iff msg).mpr h
  cases msg with
  | nil => rfl
  | cons c cs => simp [_processOutput, hm]

/-- C6 at the lines `[Ginix Bridge] Detected score: 45` and
`[Ginix Bridge] Game ended`, whose remainders match the score pattern and the
end-phrase expression. -/
theorem processOutput_marker_guard_witness :
    (firstScoreMatch "[Ginix Bridge] Detected score: 45".toList = some 45
        ∧ _processOutput (activeBridge 0) (constClock 1)
            (.str "[Ginix Bridge] Detected score: 45".toList) = (activeBridge 0, []))
      ∧ (testEndPhrase "[Ginix Bridge] Game ended".toList = true
        ∧ _processOutput (activeBridge 0) (constClock 1)
            (.str "[Ginix Bridge] Game ended".toList) = (activeBridge 0, [])) :=
  ⟨⟨by decide,
      processOutput_marker_guard (activeBridge 0) (constClock 1)
        "[Ginix Bridge] Detected score: 45".toList ⟨[], " Detected score: 45".toList, rfl⟩⟩,
    ⟨by decide,
      processOutput_marker_guard (activeBridge 0) (constClock 1)
        "[Ginix Bridge] Game ended".toList ⟨[], " Game ended".toList, rfl⟩⟩⟩

/-- C8 (score dedup): for every positive value `v` and every bridge state whose
`currentScore` differs from `v`, two lines whose extracted candidate is `v`,
processed one after the other, yield exactly one `scoreUpdate` message (emitted
by the first line, carrying `v`), and the state after the second line equals the
state after the first. -/
theorem score_dedup (b : Bridge) (c1 c2 : Nat → Int) (l1 l2 : List Char) (v : Int)
    (hv : 0 < v) (hcur : b.currentScore ≠ v)
    (hm1 : ¬ ∃ pre post, l1 = pre ++ marker ++ post)
    (hm2 : ¬ ∃ pre post, l2 = pre ++ marker ++ post)
    (h1 : firstScoreMatch l1 = some v) (h2 : firstScoreMatch l2 = some v) :
    (_processOutput b c1 (.str l1)).2
          ++ (_processOutput (_processOutput b c1 (.str l1)).1 c2 (.str l2)).2
        = [Message.scoreUpdate b.gameId v (c1 0)]
      ∧ countScoreUpdate ((_processOutput b c1 (.str l1)).2
          ++ (_processOutput (_processOutput b c1 (.str l1)).1 c2 (.str l2)).2) = 1
      ∧ (_processOutput (_processOutput b c1 (.str l1)).1 c2 (.str l2)).1
          = (_processOutput b c1 (.str l1)).1
      ∧ (_processOutput b c1 (.str l1)).1 = { b with currentScore := v } := by
  have hi1 : indexOf l1 marker = -1 := by
    by_contra h
    exact hm1 ((indexOf_marker_iff l1).mp h)
  have hi2 : indexOf l2 marker = -1 := by
    by_contra h
    exact hm2 ((indexOf_marker_iff l2).mp h)
  have e1 : _processOutput b c1 (.str l1)
      = ({ b with currentScore := v }, [Message.scoreUpdate b.gameId v (c1 0)]) := by
    rw [processOutput_eq_detected b c1 l1 v hi1 h1, detectedScore_some,
      if_pos ⟨hv, fun h => hcur h.symm⟩]
  have e2 : _processOutput { b with currentScore := v } c2 (.str l2)
      = ({ b with currentScore := v }, []) := by
    rw [processOutput_eq_detected _ c2 l2 v hi2 h2, detectedScore_some,
      if_neg (fun h => h.2 rfl)]
  rw [e1]
  dsimp only
  rw [e2]
  exact ⟨rfl, rfl, rfl, rfl⟩

/-- C8 at the lines `score: 45` and `Points = 45`, both with candidate 45. -/
theorem score_dedup_witness :
    (_processOutput (activeBridge 0) (constClock 1) (.str "score: 45".toList)).2
        ++ (_processOutput
              (_processOutput (activeBridge 0) (constClock 1) (.str "score: 45".toList)).1
              (constClock 2) (.str "Points = 45".toList)).2
      = [Message.scoreUpdate (some "game-1") 45 1] :=
  (score_dedup (activeBridge 0) (constClock 1) (constClock 2) "score: 45".toList
    "Points = 45".toList 45 (by decide) (by decide)
    (fun h => absurd ((indexOf_marker_iff _).mpr h) (by decide))
    (fun h => absurd ((indexOf_marker_iff _).mpr h) (by decide))
    (by decide) (by decide)).1


/-! ## First match wins -/

theorem onScoreUpdate_countGameEnd (b : Bridge) (clock : Nat → Int) (n : Int) :
    countGameEnd (onScoreUpdate b clock n).2 = 0 := rfl

theorem detectedScore_countGameEnd (b : Bridge) (clock : Nat → Int) (s : Option Int) :
    countGameEnd (detectedScore b clock s).2 = 0 := by
  rcases detectedScore_cases b clock s with h | ⟨n, h⟩ <;> rw [h] <;> rfl

theorem onGameEnd_length (b : Bridge) (clock : Nat → Int) :
    (onGameEnd b clock).2.length ≤ 1 := by
  unfold onGameEnd
  split <;> simp

/-- C3 (first match wins): for every bridge state and every line,
`_processOutput` emits at most one message, and when any of the five score
matchers matches the line it emits no `gameEnd` message, whatever end phrase the
line also contains.  On a line without the marker the matchers are taken in the
order best, score, points, level, digits-only, end-phrase, and the call is the
action of the first one that matches: the shared score branch on the number
captured by that matcher, or `onGameEnd` when only the end-phrase expression
matches, or nothing. -/
theorem processOutput_first_match_wins (b : Bridge) (clock : Nat → Int) (msg : List Char) :
    (_processOutput b clock (.str msg)).2.length ≤ 1
      ∧ (anyScoreMatcher msg = true →
          countGameEnd (_processOutput b clock (.str msg)).2 = 0)
      ∧ (indexOf msg marker = -1 →
          (∀ m, matchBest msg = some m →
              _processOutput b clock (.str msg) = detectedScore b clock (parseInt m))
          ∧ (∀ m, matchBest msg = none → matchScore msg = some m →
              _processOutput b clock (.str msg) = detectedScore b clock (parseInt m))
          ∧ (∀ m, matchBest msg = none → matchScore msg = none → matchPoints msg = some m →
              _processOutput b clock (.str msg) = detectedScore b clock (parseInt m))
          ∧ (∀ m, matchBest msg = none → matchScore msg = none → matchPoints msg = none →
              matchLevel msg = some m →
              _processOutput b clock (.str msg) = detectedScore b clock (parseInt m))
          ∧ (matchBest msg = none → matchScore msg = none → matchPoints msg = none →
              matchLevel msg = none → testDigitsOnly msg = true →
              _processOutput b clock (.str msg) = detectedScore b clock (parseInt (trim msg)))
          ∧ (anyScoreMatcher msg = false → testEndPhrase msg = true →
              _processOutput b clock (.str msg) = onGameEnd b clock)
          ∧ (anyScoreMatcher msg = false → testEndPhrase msg = false →
              _processOutput b clock (.str msg) = (b, []))) := by
  refine ⟨?_, ?_, ?_⟩
  · rcases processOutput_cases b clock (.str msg) with h | ⟨n, h⟩ | h
    · rw [h]; simp
    · rw [h]; simp [onScoreUpdate]
    · rw [h]; exact onGameEnd_length b clock
  · intro hany
    by_cases hm : indexOf msg marker = -1
    · have hsome : (firstScoreMatch msg).isSome = true := by
        rw [firstScoreMatch_isSome]; exact hany
      obtain ⟨s, hs⟩ := Option.isSome_iff_exists.mp hsome
      rw [processOutput_eq_detected b clock msg s hm hs]
      exact detectedScore_countGameEnd b clock _
    · cases msg with
      | nil => rfl
      | cons c cs => simp [_processOutput, hm, countGameEnd]
  · intro hm
    have hne : ∀ m, matchBest msg = some m ∨ matchScore msg = some m
        ∨ matchPoints msg = some m ∨ matchLevel msg = some m ∨ testDigitsOnly msg = true →
        msg.isEmpty = false := by
      intro m h
      cases msg with
      | nil =>
        exfalso
        revert h
        have e1 : matchBest [] = none := by decide
        have e2 : matchScore [] = none := by decide
        have e3 : matchPoints [] = none := by decide
        have e4 : matchLevel [] = none := by decide
        have e5 : testDigitsOnly [] = false := by decide
        simp [e1, e2, e3, e4, e5]
      | cons c cs => rfl
    refine ⟨?_, ?_, ?_, ?_, ?_, ?_, ?_⟩
    · intro m h1
      have := hne m (Or.inl h1)
      simp only [_processOutput, this, hm, Bool.false_eq_true, if_false, ne_eq,
        not_true_eq_false, h1]
    · intro m h1 h2
      have := hne m (Or.inr (Or.inl h2))
      simp only [_processOutput, this, hm, Bool.false_eq_true, if_false, ne_eq,
        not_true_eq_false, h1, h2]
    · intro m h1 h2 h3
      have := hne m (Or.inr (Or.inr (Or.inl h3)))
      simp only [_processOutput, this, hm, Bool.false_eq_true, if_false, ne_eq,
        not_true_eq_false, h1, h2, h3]
    · intro m h1 h2 h3 h4
      have := hne m (Or.inr (Or.inr (Or.inr (Or.inl h4))))
      simp only [_processOutput, this, hm, Bool.false_eq_true, if_false, ne_eq,
        not_true_eq_false, h1, h2, h3, h4]
    · intro h1 h2 h3 h4 h5
      have := hne [] (Or.inr (Or.inr (Or.inr (Or.inr h5))))
      simp only [_processOutput, this, hm, Bool.false_eq_true, if_false, ne_eq,
        not_true_eq_false, h1, h2, h3, h4, h5, if_true]
    · intro hs he
      rw [processOutput_no_score b clock msg hm hs, he]
      rfl
    · intro hs he
      rw [processOutput_no_score b clock msg hm hs, he]
      rfl

/-- C3 at the line `Game over, score: 50`: it contains an end phrase, the score
matcher wins, and the only message is `scoreUpdate(50)`. -/
theorem processOutput_first_match_wins_witness :
    testEndPhrase "Game over, score: 50".toList = true
      ∧ anyScoreMatcher "Game over, score: 50".toList = true
      ∧ countGameEnd (_processOutput (activeBridge 0) (constClock 1)
          (.str "Game over, score: 50".toList)).2 = 0
      ∧ _processOutput (activeBridge 0) (constClock 1) (.str "Game over, score: 50".toList)
          = ({ activeBridge 0 with currentScore := 50 },
              [Message.scoreUpdate (some "game-1") 50 1]) :=
  ⟨by decide, by decide,
    (processOutput_first_match_wins (activeBridge 0) (constClock 1)
      "Game over, score: 50".toList).2.1 (by decide),
    by decide⟩


/-! ## Priority of the `best` matcher -/

/-- The search returns the capture of the leftmost start position at which the
keyword pattern matches: it matches at position `i` and at no position before. -/
theorem searchKeywordNumber_leftmost (kw : List Char) (pre s ds : List Char)
    (h : searchKeywordNumber kw pre.getLast? s = some ds) :
    ∃ i, i ≤ s.length
      ∧ keywordNumberAt kw (pre ++ s.take i).getLast? (s.drop i) = some ds
      ∧ ∀ j, j < i → keywordNumberAt kw (pre ++ s.take j).getLast? (s.drop j) = none := by
  induction s generalizing pre with
  | nil =>
    refine ⟨0, le_refl _, ?_, fun j hj => absurd hj (Nat.not_lt_zero j)⟩
    simpa [searchKeywordNumber] using h
  | cons c cs ih =>
    unfold searchKeywordNumber at h
    split at h
    · rename_i d hd
      have hds := Option.some.inj h
      subst hds
      refine ⟨0, Nat.zero_le _, ?_, fun j hj => absurd hj (Nat.not_lt_zero j)⟩
      simpa using hd
    · rename_i hnone
      have hlast : (pre ++ [c]).getLast? = some c := by simp
      rw [← hlast] at h
      obtain ⟨i, hi, hat, hbefore⟩ := ih (pre ++ [c]) h
      refine ⟨i + 1, by simpa using hi, ?_, ?_⟩
      · simpa [List.append_assoc] using hat
      · intro j hj
        cases j with
        | zero => simpa using hnone
        | succ j =>
          have := hbefore j (by omega)
          simpa [List.append_assoc] using this

/-- C4 (priority of `best`): for every bridge state and every line without the
marker on which the best matcher (`\bbest[\s:=]+(\d+)`, case-insensitive)
matches with capture `m`, the call is the score branch on the number that
`parseInt` reads from `m` (the JavaScript number nearest to its base-10 value,
which below `2^53` is that value), whatever the score, points and level matchers
would find on the line, and `m` is the capture of the leftmost position at which
the pattern matches.  The
line `Best 3` is matched by the best matcher with capture `3`, so its score
candidate is 3 and the generic score pattern is not consulted (it would not
match). -/
theorem best_priority (b : Bridge) (clock : Nat → Int) (msg m : List Char)
    (hm : ¬ ∃ pre post, msg = pre ++ marker ++ post)
    (hbest : matchBest msg = some m) :
    _processOutput b clock (.str msg)
        = detectedScore b clock (some ((toDouble (digitsValue m) : Nat) : Int))
      ∧ firstScoreMatch msg = some ((toDouble (digitsValue m) : Nat) : Int)
      ∧ (digitsValue m < 9007199254740992 → toDouble (digitsValue m) = digitsValue m)
      ∧ (∃ i, i ≤ msg.length
          ∧ keywordNumberAt "best".toList (charBefore msg i) (msg.drop i) = some m
          ∧ ∀ j, j < i →
              keywordNumberAt "best".toList (charBefore msg j) (msg.drop j) = none)
      ∧ (matchBest "Best 3".toList = some "3".toList
          ∧ firstScoreMatch "Best 3".toList = some 3
          ∧ matchScore "Best 3".toList = none) := by
  have hidx : indexOf msg marker = -1 := by
    by_contra h
    exact hm ((indexOf_marker_iff msg).mp h)
  have hparse := parseInt_capture "best".toList none msg m hbest
  have hfirst : firstScoreMatch msg = some ((toDouble (digitsValue m) : Nat) : Int) := by
    unfold firstScoreMatch
    rw [hbest]
    exact hparse
  refine ⟨processOutput_eq_detected b clock msg _ hidx hfirst, hfirst,
    toDouble_of_lt _, ?_, by decide, by decide, by decide⟩
  have := searchKeywordNumber_leftmost "best".toList [] msg m hbest
  simpa [charBefore] using this

/-- C4 at the line `Score: 10 (best: 7)`: the score pattern matches further to
the left, yet the candidate is the 7 of the best matcher. -/
theorem best_priority_witness :
    matchBest "Score: 10 (best: 7)".toList = some "7".toList
      ∧ matchScore "Score: 10 (best: 7)".toList = some "10".toList
      ∧ _processOutput (activeBridge 0) (constClock 1) (.str "Score: 10 (best: 7)".toList)
          = ({ activeBridge 0 with currentScore := 7 },
              [Message.scoreUpdate (some "game-1") 7 1]) :=
  ⟨by decide, by decide,
    (best_priority (activeBridge 0) (constClock 1) "Score: 10 (best: 7)".toList "7".toList
      (fun h => absurd ((indexOf_marker_iff _).mpr h) (by decide)) (by decide)).1⟩


/-! ## Lines of the form `score: <digits>` -/

theorem canonicalize_digit (c : Char) (h : isDigit c = true) :
    48 ≤ canonicalize c ∧ canonicalize c ≤ 57 := by
  simp only [isDigit, Bool.and_eq_true, decide_eq_true_eq] at h
  unfold canonicalize
  split <;> omega

theorem keywordNumberAt_first_ne (p : Char) (ps : List Char) (prev : Option Char)
    (c : Char) (cs : List Char) (h : canonicalize c ≠ canonicalize p) :
    keywordNumberAt (p :: ps) prev (c :: cs) = none := by
  unfold keywordNumberAt
  simp [matchLit, h]

/-- A keyword is not found in a text none of whose characters is the first
letter of the keyword, in either case. -/
theorem searchKeywordNumber_first_absent (p : Char) (ps : List Char) (prev : Option Char)
    (s : List Char) (h : ∀ c ∈ s, canonicalize c ≠ canonicalize p) :
    searchKeywordNumber (p :: ps) prev s = none := by
  induction s generalizing prev with
  | nil => simp [searchKeywordNumber, keywordNumberAt, matchLit]
  | cons c cs ih =>
    unfold searchKeywordNumber
    rw [keywordNumberAt_first_ne p ps prev c cs (h c (List.mem_cons_self _ _))]
    exact ih (some c) (fun x hx => h x (List.mem_cons_of_mem _ hx))

theorem matchBest_scoreLine (ds : List Char) (hd : ∀ c ∈ ds, isDigit c = true) :
    matchBest ("score: ".toList ++ ds) = none := by
  show searchKeywordNumber (Char.ofNat 98 :: "est".toList) none ("score: ".toList ++ ds) = none
  apply searchKeywordNumber_first_absent
  intro c hc
  have hpre : ∀ x ∈ "score: ".toList, canonicalize x ≠ canonicalize (Char.ofNat 98) := by
    decide
  rcases List.mem_append.mp hc with h | h
  · exact hpre c h
  · have := canonicalize_digit c (hd c h)
    have e : canonicalize (Char.ofNat 98) = 66 := by decide
    omega

theorem matchScore_scoreLine (ds : List Char) (hne : ds ≠ [])
    (hd : ∀ c ∈ ds, isDigit c = true) :
    matchScore ("score: ".toList ++ ds) = some ds := by
  have hat : keywordNumberAt "score".toList none ("score: ".toList ++ ds)
      = if ((ds.dropWhile isSep).takeWhile isDigit).isEmpty then none
        else some ((ds.dropWhile isSep).takeWhile isDigit) := rfl
  have hdrop : ds.dropWhile isSep = ds :=
    dropWhile_head_neg isSep ds (fun x hx =>
      isDigit_not_isSep x (hd x (List.mem_of_mem_head? hx)))
  have htake : ds.takeWhile isDigit = ds := List.takeWhile_eq_self_iff.mpr hd
  have hemp : ds.isEmpty = false := by
    cases ds with
    | nil => exact absurd rfl hne
    | cons c cs => rfl
  rw [hdrop, htake, hemp] at hat
  show (match keywordNumberAt "score".toList none ("score: ".toList ++ ds) with
    | some r => some r
    | none => searchKeywordNumber "score".toList (some (Char.ofNat 115))
        ("core: ".toList ++ ds)) = some ds
  rw [hat]
  rfl

theorem indexOfFrom_first_absent (p : Char) (ps : List Char) (i : Int) (s : List Char)
    (h : ∀ c ∈ s, c ≠ p) : indexOfFrom (p :: ps) i s = -1 := by
  induction s generalizing i with
  | nil => rfl
  | cons c cs ih =>
    unfold indexOfFrom
    have hc : p ≠ c := fun e => h c (List.mem_cons_self _ _) e.symm
    simp only [occursAt, hc, decide_False, Bool.false_and, Bool.false_eq_true,
      if_false]
    exact ih (i + 1) (fun x hx => h x (List.mem_cons_of_mem _ hx))

theorem indexOf_scoreLine (ds : List Char) (hd : ∀ c ∈ ds, isDigit c = true) :
    indexOf ("score: ".toList ++ ds) marker = -1 := by
  show indexOfFrom (Char.ofNat 91 :: "Ginix Bridge]".toList) 0 ("score: ".toList ++ ds) = -1
  apply indexOfFrom_first_absent
  intro c hc
  have hpre : ∀ x ∈ "score: ".toList, x ≠ Char.ofNat 91 := by decide
  rcases List.mem_append.mp hc with h | h
  · exact hpre c h
  · intro e
    have h1 := hd c h
    rw [e] at h1
    exact absurd h1 (by decide)

/-- A line `score: <digits>` is a score line whose candidate is the double
nearest to the base-10 value of the digits. -/
theorem firstScoreMatch_scoreLine (ds : List Char) (hne : ds ≠ [])
    (hd : ∀ c ∈ ds, isDigit c = true) :
    firstScoreMatch ("score: ".toList ++ ds)
      = some ((toDouble (digitsValue ds) : Nat) : Int) := by
  unfold firstScoreMatch
  rw [matchBest_scoreLine ds hd, matchScore_scoreLine ds hne hd]
  exact parseInt_digits ds hne hd


/-! ## Decimal numerals -/

theorem digitChar_toNat (d : Nat) (h : d < 10) :
    (Char.ofNat (48 + d)).toNat = 48 + d ∧ isDigit (Char.ofNat (48 + d)) = true := by
  interval_cases d <;> exact ⟨by decide, by decide⟩

theorem digitsValue_snoc (xs : List Char) (c : Char) :
    digitsValue (xs ++ [c]) = 10 * digitsValue xs + (c.toNat - 48) := by
  simp [digitsValue, List.foldl_append]

theorem digitsValue_of_digits (l : List Nat) (h : ∀ d ∈ l, d < 10) :
    digitsValue (l.reverse.map (fun d => Char.ofNat (48 + d))) = Nat.ofDigits 10 l := by
  induction l with
  | nil => rfl
  | cons d l ih =>
    have hd := digitChar_toNat d (h d (List.mem_cons_self _ _))
    have ih2 := ih (fun x hx => h x (List.mem_cons_of_mem _ hx))
    rw [List.reverse_cons, List.map_append, List.map_singleton, digitsValue_snoc, ih2, hd.1,
      Nat.ofDigits_cons]
    omega

/-- The decimal numeral of a positive number is a non-empty run of digits whose
base-10 value is the number. -/
theorem decimal_spec (n : Nat) (hn : 0 < n) :
    decimal n ≠ [] ∧ (∀ c ∈ decimal n, isDigit c = true) ∧ digitsValue (decimal n) = n := by
  have hn0 : n ≠ 0 := Nat.pos_iff_ne_zero.mp hn
  have hlt : ∀ d ∈ Nat.digits 10 n, d < 10 := fun d hd => Nat.digits_lt_base (by norm_num) hd
  have hnil : Nat.digits 10 n ≠ [] := Nat.digits_ne_nil_iff_ne_zero.mpr hn0
  unfold decimal
  rw [if_neg hn0]
  refine ⟨?_, ?_, ?_⟩
  · simpa using hnil
  · intro c hc
    obtain ⟨d, hd, rfl⟩ := List.mem_map.mp hc
    exact (digitChar_toNat d (hlt d (List.mem_reverse.mp hd))).2
  · rw [digitsValue_of_digits _ hlt, Nat.ofDigits_digits]


/-! ## End-to-end text scenario -/

/-- C7, the claim as stated fails: with `a = 2^53` and `b = 2^53 + 1`, two
different positive integers, the line `score: 9007199254740993` is read as
`2^53`, the score the bridge already holds, so the five lines emit only
`scoreUpdate(2^53)` and `gameEnd(score = 2^53)`: two messages, not three, and
`b` is not among the scores. -/
theorem end_to_end_text_scenario_counterexample :
    (decimal 9007199254740992 = "9007199254740992".toList
        ∧ decimal 9007199254740993 = "9007199254740993".toList)
      ∧ parseInt "9007199254740993".toList = some 9007199254740992
      ∧ (run (activeBridge 0)
          [ (Event.processOutput (.str "loading...".toList), constClock 1000),
            (Event.processOutput (.str "score: 9007199254740992".toList), constClock 2000),
            (Event.processOutput (.str "score: 9007199254740992".toList), constClock 3000),
            (Event.processOutput (.str "score: 9007199254740993".toList), constClock 4000),
            (Event.processOutput (.str "you lost".toList), constClock 5000) ]).2
        = [ Message.scoreUpdate (some "game-1") 9007199254740992 2000,
            Message.gameEnd (some "game-1") 9007199254740992 5 (some "session-1") 5000 ] :=
  ⟨⟨by norm_num [decimal], by norm_num [decimal]⟩, by decide, by decide⟩

/-- C7, amended (end-to-end text scenario): for all positive integers `a` and
`b` below `2^53` with `a ≠ b`, on a bridge that is active, has not ended and
whose `currentScore` differs from `a`, the lines `loading...`, `score: a`,
`score: a`, `score: b`, `you lost`, given in that order to `_processOutput`,
emit exactly `scoreUpdate(a)`, `scoreUpdate(b)`, `gameEnd(score = b)`, in that
order: the repeated `score: a` is suppressed, and the `gameEnd` carries the
duration read at the last line. -/
theorem end_to_end_text_scenario (st : Bridge) (c1 c2 c3 c4 c5 : Nat → Int) (a b : Nat)
    (ha : 0 < a) (hb : 0 < b) (hab : a ≠ b)
    (ha2 : a < 9007199254740992) (hb2 : b < 9007199254740992)
    (hact : st.isGameActive = true) (hsent : st._gameEndSent = false)
    (hcur : st.currentScore ≠ (a : Int)) :
    (run st
        [ (Event.processOutput (.str "loading...".toList), c1),
          (Event.processOutput (.str ("score: ".toList ++ decimal a)), c2),
          (Event.processOutput (.str ("score: ".toList ++ decimal a)), c3),
          (Event.processOutput (.str ("score: ".toList ++ decimal b)), c4),
          (Event.processOutput (.str "you lost".toList), c5) ]).2
      = [ Message.scoreUpdate st.gameId a (c2 0),
          Message.scoreUpdate st.gameId b (c4 0),
          Message.gameEnd st.gameId b (Int.fdiv (c5 0 - st.startTime) 1000)
            st.sessionId (c5 1) ] := by
  obtain ⟨hane, had, hav⟩ := decimal_spec a ha
  obtain ⟨hbne, hbd, hbv⟩ := decimal_spec b hb
  have fa := firstScoreMatch_scoreLine (decimal a) hane had
  have fb := firstScoreMatch_scoreLine (decimal b) hbne hbd
  rw [hav, toDouble_of_lt a ha2] at fa
  rw [hbv, toDouble_of_lt b hb2] at fb
  have ia := indexOf_scoreLine (decimal a) had
  have ib := indexOf_scoreLine (decimal b) hbd
  have hapos : (0 : Int) < a := by exact_mod_cast ha
  have hbpos : (0 : Int) < b := by exact_mod_cast hb
  have habz : (b : Int) ≠ (a : Int) := by exact_mod_cast hab.symm
  -- line 1: nothing matches
  have s1 : _processOutput st c1 (.str "loading...".toList) = (st, []) :=
    (processOutput_no_score st c1 "loading...".toList (by decide) (by decide)).trans
      (by rw [if_neg (by decide)])
  -- line 2: the first `score: a`
  have s2 : _processOutput st c2 (.str ("score: ".toList ++ decimal a))
      = ({ st with currentScore := a }, [Message.scoreUpdate st.gameId a (c2 0)]) := by
    rw [processOutput_eq_detected st c2 _ _ ia fa, detectedScore_some,
      if_pos ⟨hapos, fun h => hcur h.symm⟩]
  -- line 3: the repeated `score: a`
  have s3 : _processOutput { st with currentScore := a } c3
      (.str ("score: ".toList ++ decimal a)) = ({ st with currentScore := a }, []) := by
    rw [processOutput_eq_detected _ c3 _ _ ia fa, detectedScore_some,
      if_neg (fun h => h.2 rfl)]
  -- line 4: `score: b`
  have s4 : _processOutput { st with currentScore := a } c4
      (.str ("score: ".toList ++ decimal b))
      = ({ st with currentScore := b }, [Message.scoreUpdate st.gameId b (c4 0)]) := by
    rw [processOutput_eq_detected _ c4 _ _ ib fb, detectedScore_some,
      if_pos ⟨hbpos, habz⟩]
  -- line 5: the end phrase
  have s5 : _processOutput { st with currentScore := b } c5 (.str "you lost".toList)
      = ({ st with currentScore := b, _gameEndSent := true, isGameActive := false },
          [Message.gameEnd st.gameId b (Int.fdiv (c5 0 - st.startTime) 1000)
            st.sessionId (c5 1)]) := by
    have hno : _processOutput { st with currentScore := b } c5 (.str "you lost".toList)
        = onGameEnd { st with currentScore := b } c5 :=
      (processOutput_no_score _ c5 "you lost".toList (by decide) (by decide)).trans
        (by rw [if_pos (by decide)])
    rw [hno]
    exact onGameEnd_accept { st with currentScore := b } c5 hact hsent
  simp only [run, step, s1, s2, s3, s4, s5, List.nil_append, List.append_nil,
    List.singleton_append, List.cons_append]

/-- C7 amended, at `a = 45`, `b = 120`: the lines are `score: 45` and
`score: 120`, and the messages are `scoreUpdate(45)`, `scoreUpdate(120)`,
`gameEnd(score = 120)`. -/
theorem end_to_end_text_scenario_witness :
    (decimal 45 = "45".toList ∧ decimal 120 = "120".toList)
      ∧ (run (activeBridge 0)
          [ (Event.processOutput (.str "loading...".toList), constClock 1000),
            (Event.processOutput (.str ("score: ".toList ++ decimal 45)), constClock 2000),
            (Event.processOutput (.str ("score: ".toList ++ decimal 45)), constClock 3000),
            (Event.processOutput (.str ("score: ".toList ++ decimal 120)), constClock 4000),
            (Event.processOutput (.str "you lost".toList), constClock 5000) ]).2
        = [ Message.scoreUpdate (some "game-1") 45 2000,
            Message.scoreUpdate (some "game-1") 120 4000,
            Message.gameEnd (some "game-1") 120 5 (some "session-1") 5000 ] :=
  ⟨⟨by norm_num [decimal], by norm_num [decimal]⟩,
    end_to_end_text_scenario (activeBridge 0) (constClock 1000) (constClock 2000)
      (constClock 3000) (constClock 4000) (constClock 5000) 45 120
      (by decide) (by decide) (by decide) (by decide) (by decide) rfl rfl (by decide)⟩


/-! ## End calls after the end, and the payload of `gameEnd` -/

/-- After the latch is set, `endGame` emits nothing and touches no field other
than `currentScore`, which takes the override when one is supplied. -/
theorem endGame_latched (b : Bridge) (clock : Nat → Int) (finalScore : Option Int)
    (hs : b._gameEndSent = true) :
    endGame b clock finalScore
      = ({ b with currentScore := finalScore.getD b.currentScore }, []) := by
  cases finalScore with
  | none => exact onGameEnd_reject b clock (by simp [hs])
  | some f => exact onGameEnd_reject { b with currentScore := f } clock (by simp [hs])

/-- C11, the code at the failing input: on a bridge that has already sent its
`gameEnd` (score 120), the call `endGame(50)` emits no message but stores 50 in
`currentScore`, so the state is not left unchanged; the call `endGame()` without
argument, and `onGameEnd()`, do leave it unchanged. -/
theorem endGame_after_end_overwrites_score :
    (endedBridge 120)._gameEndSent = true
      ∧ (endedBridge 120).currentScore = 120
      ∧ (endGame (endedBridge 120) (constClock 9000) (some 50)).2 = []
      ∧ (endGame (endedBridge 120) (constClock 9000) (some 50)).1.currentScore = 50
      ∧ (endGame (endedBridge 120) (constClock 9000) (some 50)).1 ≠ endedBridge 120
      ∧ endGame (endedBridge 120) (constClock 9000) none = (endedBridge 120, [])
      ∧ onGameEnd (endedBridge 120) (constClock 9000) = (endedBridge 120, []) := by
  decide

/-- C12 (ended payload): when `endGame(f)` is accepted (bridge active, latch
unset) with first clock read `t`, exactly one message is emitted, a `gameEnd`
whose score is `f` when `f` was supplied and the `currentScore` at the call
otherwise, and whose duration `d` is the floor of `(t - startTime) / 1000`, that
is the integer with `1000 * d ≤ t - startTime < 1000 * (d + 1)`; the duration is
non-negative whenever `t ≥ startTime`. -/
theorem endGame_payload (b : Bridge) (clock : Nat → Int) (finalScore : Option Int)
    (ha : b.isGameActive = true) (hs : b._gameEndSent = false) :
    (endGame b clock finalScore).2
        = [Message.gameEnd b.gameId (finalScore.getD b.currentScore)
            (Int.fdiv (clock 0 - b.startTime) 1000) b.sessionId (clock 1)]
      ∧ (endGame b clock finalScore).1
          = { b with currentScore := finalScore.getD b.currentScore,
                     _gameEndSent := true, isGameActive := false }
      ∧ 1000 * Int.fdiv (clock 0 - b.startTime) 1000 ≤ clock 0 - b.startTime
      ∧ clock 0 - b.startTime < 1000 * (Int.fdiv (clock 0 - b.startTime) 1000 + 1)
      ∧ (b.startTime ≤ clock 0 → 0 ≤ Int.fdiv (clock 0 - b.startTime) 1000) := by
  have hdiv : Int.fdiv (clock 0 - b.startTime) 1000 = (clock 0 - b.startTime) / 1000 :=
    Int.fdiv_eq_ediv _ (by norm_num)
  refine ⟨?_, ?_, ?_, ?_, ?_⟩
  · cases finalScore with
    | none => rw [endGame, onGameEnd_accept b clock ha hs]; rfl
    | some f =>
      rw [endGame, onGameEnd_accept { b with currentScore := f } clock ha hs]
      rfl
  · cases finalScore with
    | none => rw [endGame, onGameEnd_accept b clock ha hs]; rfl
    | some f =>
      rw [endGame, onGameEnd_accept { b with currentScore := f } clock ha hs]
      rfl
  · rw [hdiv]; omega
  · rw [hdiv]; omega
  · intro h; rw [hdiv]; omega

/-- C12 at an active bridge with score 12 and start time 0: `endGame(320)` read
at 5999 ms carries score 320 and duration 5, and `endGame()` carries score 12. -/
theorem endGame_payload_witness :
    (endGame (activeBridge 12) (constClock 5999) (some 320)).2
        = [Message.gameEnd (some "game-1") 320 5 (some "session-1") 5999]
      ∧ (endGame (activeBridge 12) (constClock 5999) none).2
        = [Message.gameEnd (some "game-1") 12 5 (some "session-1") 5999] :=
  ⟨(endGame_payload (activeBridge 12) (constClock 5999) (some 320) rfl rfl).1,
    (endGame_payload (activeBridge 12) (constClock 5999) none rfl rfl).1⟩


/-! ## The session: timers and console -/

theorem runSession_append (s : Session) (xs ys : List (SessionEvent × (Nat → Int))) :
    runSession s (xs ++ ys)
      = ((runSession (runSession s xs).1 ys).1,
          (runSession s xs).2 ++ (runSession (runSession s xs).1 ys).2) := by
  induction xs generalizing s with
  | nil => simp [runSession]
  | cons p rest ih =>
    obtain ⟨e, clock⟩ := p
    show runSession s ((e, clock) :: (rest ++ ys)) = _
    simp only [runSession, ih, List.append_assoc]

/-- What a call other than `reset` can do to the bridge: either it leaves the
two lifecycle flags and the game identifier as they were and emits nothing but
`scoreUpdate` messages, or the bridge was active with the latch unset and the
call ends the game, emitting exactly one message, a `gameEnd`. -/
theorem step_effect (b : Bridge) (clock : Nat → Int) (e : Event) (hr : e ≠ Event.reset) :
    ((step b clock e).1.isGameActive = b.isGameActive
        ∧ (step b clock e).1._gameEndSent = b._gameEndSent
        ∧ (step b clock e).1.gameId = b.gameId
        ∧ ∀ m ∈ (step b clock e).2, m.kind = MessageType.scoreUpdate)
      ∨ (b.isGameActive = true ∧ b._gameEndSent = false
        ∧ (step b clock e).1.isGameActive = false
        ∧ (step b clock e).1._gameEndSent = true
        ∧ (step b clock e).1.gameId = b.gameId
        ∧ ∃ m, (step b clock e).2 = [m] ∧ m.kind = MessageType.gameEnd) := by
  have hend : ∀ b1 : Bridge, b1.isGameActive = b.isGameActive →
      b1._gameEndSent = b._gameEndSent → b1.gameId = b.gameId →
      ((onGameEnd b1 clock).1.isGameActive = b.isGameActive
        ∧ (onGameEnd b1 clock).1._gameEndSent = b._gameEndSent
        ∧ (onGameEnd b1 clock).1.gameId = b.gameId
        ∧ ∀ m ∈ (onGameEnd b1 clock).2, m.kind = MessageType.scoreUpdate)
      ∨ (b.isGameActive = true ∧ b._gameEndSent = false
        ∧ (onGameEnd b1 clock).1.isGameActive = false
        ∧ (onGameEnd b1 clock).1._gameEndSent = true
        ∧ (onGameEnd b1 clock).1.gameId = b.gameId
        ∧ ∃ m, (onGameEnd b1 clock).2 = [m] ∧ m.kind = MessageType.gameEnd) := by
    intro b1 h1 h2 h3
    by_cases hc : b1.isGameActive = true ∧ b1._gameEndSent = false
    · right
      rw [onGameEnd_accept b1 clock hc.1 hc.2]
      exact ⟨h1 ▸ hc.1, h2 ▸ hc.2, rfl, rfl, h3, _, rfl, rfl⟩
    · left
      rw [onGameEnd_reject b1 clock hc]
      exact ⟨h1, h2, h3, fun m hm => by simp at hm⟩
  have hscore : ∀ n, ((onScoreUpdate b clock n).1.isGameActive = b.isGameActive
        ∧ (onScoreUpdate b clock n).1._gameEndSent = b._gameEndSent
        ∧ (onScoreUpdate b clock n).1.gameId = b.gameId
        ∧ ∀ m ∈ (onScoreUpdate b clock n).2, m.kind = MessageType.scoreUpdate) := by
    intro n
    refine ⟨rfl, rfl, rfl, fun m hm => ?_⟩
    simp only [onScoreUpdate, List.mem_singleton] at hm
    rw [hm]; rfl
  cases e with
  | processOutput message =>
    have hstep : step b clock (Event.processOutput message)
        = _processOutput b clock message := rfl
    rcases processOutput_cases b clock message with h | ⟨n, h⟩ | h
    · left
      rw [hstep, h]
      exact ⟨rfl, rfl, rfl, fun m hm => by simp at hm⟩
    · left
      rw [hstep, h]
      exact hscore n
    · rw [hstep, h]
      exact hend b rfl rfl rfl
  | updateScore score => left; exact hscore score
  | endGame finalScore =>
    cases finalScore with
    | none => exact hend b rfl rfl rfl
    | some f => exact hend { b with currentScore := f } rfl rfl rfl
  | onGameEnd => exact hend b rfl rfl rfl
  | reset => exact absurd rfl hr

/-- C13, the code at the failing input: the game becomes ready 100 ms after
`init()` (`gameStarted` is sent), ends with `endGame(120)` after five seconds,
and the timeout fires at 30 000 ms.  The timeout was never cancelled and finds
`isGameActive` false, which `onGameEnd` has cleared: a `gameError` with the text
`Game failed to load` is emitted after `gameStarted` and `gameEnd`. -/
theorem deadline_fires_after_short_game :
    (runSession (newSession 0) shortGame).2
      = [ Message.gameReady (some "pool") 0,
          Message.gameStarted (some "pool") 100,
          Message.gameEnd (some "pool") 120 5 (some "session-1") 5000,
          Message.gameError (some "pool") "Game failed to load".toList ] := by
  decide

/-- While the bridge is still active when the timeout fires, no `gameError` is
sent. -/
theorem readyTimeout_active (s : Session) (ha : s.bridge.isGameActive = true) :
    (readyTimeout s).2 = [] := by
  unfold readyTimeout
  cases s.timeoutPending <;> simp [ha]


/-- On a bridge that is not active, a poll that cannot succeed (the interval is
cleared, or no canvas is seen), an output line and a call of `updateScore`,
`endGame` or `onGameEnd` leave the bridge inactive and the timers as they were,
and emit only `scoreUpdate` messages. -/
theorem stepSession_inactive (s : Session) (clock : Nat → Int) (e : SessionEvent)
    (ha : s.bridge.isGameActive = false) (hp : e.isGamePlay = true)
    (hc : s.checkInterval = false ∨ e.seesCanvas = false) :
    (stepSession s clock e).1.bridge.isGameActive = false
      ∧ (stepSession s clock e).1.checkInterval = s.checkInterval
      ∧ (stepSession s clock e).1.timeoutPending = s.timeoutPending
      ∧ (stepSession s clock e).1.bridge.gameId = s.bridge.gameId
      ∧ ∀ m ∈ (stepSession s clock e).2, m.kind = MessageType.scoreUpdate := by
  cases e with
  | init a b c d => simp [SessionEvent.isGamePlay] at hp
  | timeoutFires => simp [SessionEvent.isGamePlay] at hp
  | consoleError t => simp [SessionEvent.isGamePlay] at hp
  | virtualConsoleError t => simp [SessionEvent.isGamePlay] at hp
  | intervalFires w =>
    have hnoop : readyCheck s clock w = (s, []) := by
      unfold readyCheck
      rcases hc with hc | hc
      · simp [hc]
      · cases w with
        | none => simp
        | some n =>
          simp only [SessionEvent.seesCanvas, decide_eq_false_iff_not] at hc
          simp [hc]
    have hstep : stepSession s clock (SessionEvent.intervalFires w) = (s, []) := hnoop
    rw [hstep]
    exact ⟨ha, rfl, rfl, rfl, fun m hm => by simp at hm⟩
  | call ev =>
    have hr : ev ≠ Event.reset := by
      intro h; subst h; simp [SessionEvent.isGamePlay] at hp
    rcases step_effect s.bridge clock ev hr with ⟨h1, _, h3, h4⟩ | ⟨h1, _⟩
    · exact ⟨h1.trans ha, rfl, rfl, h3, h4⟩
    · rw [ha] at h1; exact absurd h1 (by simp)

theorem runSession_inactive (s : Session) (evs : List (SessionEvent × (Nat → Int)))
    (ha : s.bridge.isGameActive = false)
    (hp : ∀ p ∈ evs, p.1.isGamePlay = true)
    (hc : s.checkInterval = false ∨ ∀ p ∈ evs, p.1.seesCanvas = false) :
    (runSession s evs).1.bridge.isGameActive = false
      ∧ (runSession s evs).1.checkInterval = s.checkInterval
      ∧ (runSession s evs).1.timeoutPending = s.timeoutPending
      ∧ (runSession s evs).1.bridge.gameId = s.bridge.gameId
      ∧ ∀ m ∈ (runSession s evs).2, m.kind = MessageType.scoreUpdate := by
  induction evs generalizing s with
  | nil => exact ⟨ha, rfl, rfl, rfl, fun m hm => by simp [runSession] at hm⟩
  | cons p rest ih =>
    obtain ⟨e, clock⟩ := p
    have h1 := stepSession_inactive s clock e ha (hp (e, clock) (List.mem_cons_self _ _))
      (hc.imp id (fun h => h (e, clock) (List.mem_cons_self _ _)))
    have h2 := ih (stepSession s clock e).1 h1.1
      (fun q hq => hp q (List.mem_cons_of_mem _ hq))
      (hc.imp (fun h => h1.2.1.trans h) (fun h q hq => h q (List.mem_cons_of_mem _ hq)))
    refine ⟨h2.1, h2.2.1.trans h1.2.1, h2.2.2.1.trans h1.2.2.1,
      h2.2.2.2.1.trans h1.2.2.2.1, ?_⟩
    intro m hm
    simp only [runSession, List.mem_append] at hm
    rcases hm with hm | hm
    · exact h1.2.2.2.2 m hm
    · exact h2.2.2.2.2 m hm

theorem countKind_append (k : MessageType) (xs ys : List Message) :
    countKind k (xs ++ ys) = countKind k xs + countKind k ys := by
  simp [countKind, List.countP_append]

theorem countKind_zero_of_all (k k2 : MessageType) (hk : k2 ≠ k) (xs : List Message)
    (h : ∀ m ∈ xs, m.kind = k2) : countKind k xs = 0 := by
  unfold countKind
  rw [List.countP_eq_zero]
  intro m hm
  simp [h m hm, hk]

/-- C14, the claim as stated fails, in three ways.  After the timeout has fired
without a readiness signal and `gameError` has been sent, `updateScore(7)` and
the line `score: 9` each emit a `scoreUpdate`.  A `console.error` call before
the deadline adds a `gameError` of its own, so the session has two.  A `reset()`
before the deadline makes the bridge active, and the deadline emits nothing. -/
theorem readiness_timeout_counterexample :
    (runSession (newSession 0)
        [ (SessionEvent.init none (some "session-1") (some "n") (some "pool"), constClock 0),
          (SessionEvent.intervalFires none, constClock 100),
          (SessionEvent.timeoutFires, constClock 30000),
          (SessionEvent.call (Event.updateScore 7), constClock 31000),
          (SessionEvent.call (Event.processOutput (.str "score: 9".toList)),
            constClock 32000) ]).2
      = [ Message.gameReady (some "pool") 0,
          Message.gameError (some "pool") "Game failed to load".toList,
          Message.scoreUpdate (some "pool") 7 31000,
          Message.scoreUpdate (some "pool") 9 32000 ]
    ∧ (runSession (newSession 0)
        [ (SessionEvent.init none (some "session-1") (some "n") (some "pool"), constClock 0),
          (SessionEvent.intervalFires none, constClock 100),
          (SessionEvent.consoleError "asset missing".toList, constClock 200),
          (SessionEvent.timeoutFires, constClock 30000) ]).2
      = [ Message.gameReady (some "pool") 0,
          Message.gameError (some "pool") "asset missing".toList,
          Message.gameError (some "pool") "Game failed to load".toList ]
    ∧ (runSession (newSession 0)
        [ (SessionEvent.init none (some "session-1") (some "n") (some "pool"), constClock 0),
          (SessionEvent.intervalFires none, constClock 100),
          (SessionEvent.call Event.reset, constClock 200),
          (SessionEvent.timeoutFires, constClock 30000) ]).2
      = [ Message.gameReady (some "pool") 0 ] := by
  decide

/-- Before the deadline on a bridge that is not active: a poll that sees no
canvas, an output line, a call of `updateScore`, `endGame` or `onGameEnd`, and a
call of `console.error` or `virtualConsole.error` leave the bridge inactive and
the timers as they were; the first kinds emit only `scoreUpdate` messages, an
error call emits exactly one `gameError`. -/
theorem stepSession_beforeDeadline (s : Session) (clock : Nat → Int) (e : SessionEvent)
    (ha : s.bridge.isGameActive = false)
    (he : (e.isGamePlay = true ∧ e.seesCanvas = false) ∨ e.isErrorLog = true) :
    (stepSession s clock e).1.bridge.isGameActive = false
      ∧ (stepSession s clock e).1.checkInterval = s.checkInterval
      ∧ (stepSession s clock e).1.timeoutPending = s.timeoutPending
      ∧ (stepSession s clock e).1.bridge.gameId = s.bridge.gameId
      ∧ (∀ m ∈ (stepSession s clock e).2,
          m.kind = MessageType.scoreUpdate ∨ m.kind = MessageType.gameError)
      ∧ countKind MessageType.gameError (stepSession s clock e).2
          = if e.isErrorLog then 1 else 0 := by
  rcases he with ⟨hp, hc⟩ | herr
  · have h := stepSession_inactive s clock e ha hp (Or.inr hc)
    have hnot : e.isErrorLog = false := by
      cases e <;> simp_all [SessionEvent.isGamePlay, SessionEvent.isErrorLog]
    refine ⟨h.1, h.2.1, h.2.2.1, h.2.2.2.1, fun m hm => Or.inl (h.2.2.2.2 m hm), ?_⟩
    rw [hnot, countKind_zero_of_all _ _ (by decide) _ h.2.2.2.2]
    rfl
  · cases e with
    | consoleError t =>
      exact ⟨ha, rfl, rfl, rfl, fun m hm => by
        simp only [stepSession, consoleError, List.mem_singleton] at hm
        rw [hm]; exact Or.inr rfl, rfl⟩
    | virtualConsoleError t =>
      exact ⟨ha, rfl, rfl, rfl, fun m hm => by
        simp only [stepSession, consoleError, List.mem_singleton] at hm
        rw [hm]; exact Or.inr rfl, rfl⟩
    | init a b c d => simp [SessionEvent.isErrorLog] at herr
    | timeoutFires => simp [SessionEvent.isErrorLog] at herr
    | intervalFires w => simp [SessionEvent.isErrorLog] at herr
    | call ev => simp [SessionEvent.isErrorLog] at herr

theorem runSession_beforeDeadline (s : Session) (evs : List (SessionEvent × (Nat → Int)))
    (ha : s.bridge.isGameActive = false)
    (he : ∀ p ∈ evs, (p.1.isGamePlay = true ∧ p.1.seesCanvas = false) ∨ p.1.isErrorLog = true) :
    (runSession s evs).1.bridge.isGameActive = false
      ∧ (runSession s evs).1.checkInterval = s.checkInterval
      ∧ (runSession s evs).1.timeoutPending = s.timeoutPending
      ∧ (runSession s evs).1.bridge.gameId = s.bridge.gameId
      ∧ (∀ m ∈ (runSession s evs).2,
          m.kind = MessageType.scoreUpdate ∨ m.kind = MessageType.gameError)
      ∧ countKind MessageType.gameError (runSession s evs).2
          = evs.countP (fun p => p.1.isErrorLog) := by
  induction evs generalizing s with
  | nil => exact ⟨ha, rfl, rfl, rfl, fun m hm => by simp [runSession] at hm, rfl⟩
  | cons p rest ih =>
    obtain ⟨e, clock⟩ := p
    have h1 := stepSession_beforeDeadline s clock e ha (he (e, clock) (List.mem_cons_self _ _))
    have h2 := ih (stepSession s clock e).1 h1.1
      (fun q hq => he q (List.mem_cons_of_mem _ hq))
    refine ⟨h2.1, h2.2.1.trans h1.2.1, h2.2.2.1.trans h1.2.2.1,
      h2.2.2.2.1.trans h1.2.2.2.1, ?_, ?_⟩
    · intro m hm
      simp only [runSession, List.mem_append] at hm
      rcases hm with hm | hm
      · exact h1.2.2.2.2.1 m hm
      · exact h2.2.2.2.2.1 m hm
    · show countKind MessageType.gameError
          ((stepSession s clock e).2 ++ (runSession (stepSession s clock e).1 rest).2) = _
      rw [countKind_append, h1.2.2.2.2.2, h2.2.2.2.2.2, List.countP_cons]
      cases e.isErrorLog <;> simp
      omega

/-- C14, amended: when no readiness signal is observed and `reset()` is not
called before the timeout fires (every event before it is a poll that sees no
canvas of positive width, an output line, a call of `updateScore`, `endGame` or
`onGameEnd`, or a call of `console.error` / `virtualConsole.error`), the timeout
emits the `gameError` message `Game failed to load`.  The only other `gameError`
messages of the session are those of the error calls made before the deadline,
one for each, so the session has exactly one `gameError` when there is no such
call.  For every subsequent sequence of output lines, `updateScore` and
`endGame` calls and readiness polls (no `reset`), every message emitted after
the deadline is a `scoreUpdate`: no `gameStarted`, no `gameEnd` and no further
`gameError` follows. -/
theorem readiness_timeout (t0 : Int) (wid sid nonce gid : Option String)
    (cI cD : Nat → Int) (pre post : List (SessionEvent × (Nat → Int)))
    (hpre : ∀ p ∈ pre,
      (p.1.isGamePlay = true ∧ p.1.seesCanvas = false) ∨ p.1.isErrorLog = true)
    (hpost : ∀ p ∈ post, p.1.isGamePlay = true) :
    ∃ m1 m2,
      (runSession (newSession t0)
          ((SessionEvent.init wid sid nonce gid, cI) :: pre
            ++ [(SessionEvent.timeoutFires, cD)] ++ post)).2
        = m1 ++ [Message.gameError (orElse wid gid) "Game failed to load".toList] ++ m2
      ∧ (∀ m ∈ m1, m.kind = MessageType.gameReady ∨ m.kind = MessageType.scoreUpdate
          ∨ m.kind = MessageType.gameError)
      ∧ countKind MessageType.gameError m1 = pre.countP (fun p => p.1.isErrorLog)
      ∧ (∀ m ∈ m2, m.kind = MessageType.scoreUpdate)
      ∧ countKind MessageType.gameError
          (runSession (newSession t0)
            ((SessionEvent.init wid sid nonce gid, cI) :: pre
              ++ [(SessionEvent.timeoutFires, cD)] ++ post)).2
          = 1 + pre.countP (fun p => p.1.isErrorLog)
      ∧ ((∀ p ∈ pre, p.1.isErrorLog = false) →
          countKind MessageType.gameError
            (runSession (newSession t0)
              ((SessionEvent.init wid sid nonce gid, cI) :: pre
                ++ [(SessionEvent.timeoutFires, cD)] ++ post)).2 = 1) := by
  have hA := runSession_beforeDeadline
    (stepSession (newSession t0) cI (SessionEvent.init wid sid nonce gid)).1 pre rfl hpre
  have hT : readyTimeout
      (runSession (stepSession (newSession t0) cI (SessionEvent.init wid sid nonce gid)).1
        pre).1
      = ({ (runSession (stepSession (newSession t0) cI
              (SessionEvent.init wid sid nonce gid)).1 pre).1 with
            timeoutPending := false, checkInterval := false },
          [Message.gameError (orElse wid gid) "Game failed to load".toList]) := by
    unfold readyTimeout
    rw [hA.2.2.1, hA.1, hA.2.2.2.1]
    rfl
  have hB := runSession_inactive
    { (runSession (stepSession (newSession t0) cI
        (SessionEvent.init wid sid nonce gid)).1 pre).1 with
      timeoutPending := false, checkInterval := false }
    post hA.1 hpost (Or.inl rfl)
  have hall : (runSession (newSession t0)
      ((SessionEvent.init wid sid nonce gid, cI) :: pre
        ++ [(SessionEvent.timeoutFires, cD)] ++ post)).2
      = (Message.gameReady (orElse wid gid) (cI 0)
          :: (runSession (stepSession (newSession t0) cI
                (SessionEvent.init wid sid nonce gid)).1 pre).2)
        ++ [Message.gameError (orElse wid gid) "Game failed to load".toList]
        ++ (runSession
            { (runSession (stepSession (newSession t0) cI
                (SessionEvent.init wid sid nonce gid)).1 pre).1 with
              timeoutPending := false, checkInterval := false } post).2 := by
    show (stepSession (newSession t0) cI (SessionEvent.init wid sid nonce gid)).2
      ++ (runSession (stepSession (newSession t0) cI (SessionEvent.init wid sid nonce gid)).1
          (pre ++ [(SessionEvent.timeoutFires, cD)] ++ post)).2 = _
    rw [runSession_append, runSession_append]
    have hone : runSession
        (runSession (stepSession (newSession t0) cI
          (SessionEvent.init wid sid nonce gid)).1 pre).1
        [(SessionEvent.timeoutFires, cD)]
        = ({ (runSession (stepSession (newSession t0) cI
                (SessionEvent.init wid sid nonce gid)).1 pre).1 with
              timeoutPending := false, checkInterval := false },
            [Message.gameError (orElse wid gid) "Game failed to load".toList]) := by
      show ((runSession (readyTimeout _).1 []).1,
        (readyTimeout _).2 ++ (runSession (readyTimeout _).1 []).2) = _
      rw [hT]
      simp [runSession]
    rw [hone]
    rfl
  have hm1 : ∀ m ∈ Message.gameReady (orElse wid gid) (cI 0)
        :: (runSession (stepSession (newSession t0) cI
              (SessionEvent.init wid sid nonce gid)).1 pre).2,
      m.kind = MessageType.gameReady ∨ m.kind = MessageType.scoreUpdate
        ∨ m.kind = MessageType.gameError := by
    intro m hm
    rcases List.mem_cons.mp hm with rfl | hm
    · exact Or.inl rfl
    · exact Or.inr (hA.2.2.2.2.1 m hm)
  have hc1 : countKind MessageType.gameError
      (Message.gameReady (orElse wid gid) (cI 0)
        :: (runSession (stepSession (newSession t0) cI
              (SessionEvent.init wid sid nonce gid)).1 pre).2)
      = pre.countP (fun p => p.1.isErrorLog) := by
    rw [← hA.2.2.2.2.2]
    show countKind MessageType.gameError ([Message.gameReady (orElse wid gid) (cI 0)] ++ _) = _
    rw [countKind_append]
    show 0 + _ = _
    omega
  have hcount : countKind MessageType.gameError
      (runSession (newSession t0)
        ((SessionEvent.init wid sid nonce gid, cI) :: pre
          ++ [(SessionEvent.timeoutFires, cD)] ++ post)).2
      = 1 + pre.countP (fun p => p.1.isErrorLog) := by
    rw [hall, countKind_append, countKind_append, hc1,
      countKind_zero_of_all _ _ (by decide) _ hB.2.2.2.2]
    show _ + 1 + 0 = _
    omega
  refine ⟨_, _, hall, hm1, hc1, hB.2.2.2.2, hcount, ?_⟩
  intro hno
  rw [hcount, List.countP_eq_zero.mpr (fun p hp => by simp [hno p hp])]

/-- C14 amended, at a session that polls twice without a canvas, logs an error
and reports a score before the timeout, and after it polls again with a canvas,
calls `endGame(9)` and prints `game over`: the session has two `gameError`
messages, the one of the error call and the one of the timeout. -/
theorem readiness_timeout_witness :
    countKind MessageType.gameError
      (runSession (newSession 0)
        ((SessionEvent.init none (some "session-1") (some "n") (some "pool"), constClock 0)
          :: [ (SessionEvent.intervalFires none, constClock 100),
               (SessionEvent.consoleError "asset missing".toList, constClock 120),
               (SessionEvent.call (Event.updateScore 3), constClock 150),
               (SessionEvent.intervalFires (some 0), constClock 200) ]
          ++ [(SessionEvent.timeoutFires, constClock 30000)]
          ++ [ (SessionEvent.intervalFires (some 800), constClock 30100),
               (SessionEvent.call (Event.endGame (some 9)), constClock 30200),
               (SessionEvent.call (Event.processOutput (.str "game over".toList)),
                 constClock 30300) ])).2
      = 1 + [ (SessionEvent.intervalFires none, constClock 100),
              (SessionEvent.consoleError "asset missing".toList, constClock 120),
              (SessionEvent.call (Event.updateScore 3), constClock 150),
              (SessionEvent.intervalFires (some 0), constClock 200) ].countP
            (fun p => p.1.isErrorLog) := by
  obtain ⟨_, _, _, _, _, _, h, _⟩ := readiness_timeout 0 none (some "session-1") (some "n")
    (some "pool") (constClock 0) (constClock 30000)
    [ (SessionEvent.intervalFires none, constClock 100),
      (SessionEvent.consoleError "asset missing".toList, constClock 120),
      (SessionEvent.call (Event.updateScore 3), constClock 150),
      (SessionEvent.intervalFires (some 0), constClock 200) ]
    [ (SessionEvent.intervalFires (some 800), constClock 30100),
      (SessionEvent.call (Event.endGame (some 9)), constClock 30200),
      (SessionEvent.call (Event.processOutput (.str "game over".toList)), constClock 30300) ]
    (by decide) (by decide)
  exact h


/-! ## Order of the lifecycle messages -/

theorem lifecycleKinds_append (xs ys : List Message) :
    lifecycleKinds (xs ++ ys) = lifecycleKinds xs ++ lifecycleKinds ys := by
  simp [lifecycleKinds]

theorem lifecycleKinds_scoreUpdates (xs : List Message)
    (h : ∀ m ∈ xs, m.kind = MessageType.scoreUpdate) : lifecycleKinds xs = [] := by
  unfold lifecycleKinds
  rw [List.filter_eq_nil_iff]
  intro k hk
  obtain ⟨m, hm, rfl⟩ := List.mem_map.mp hk
  rw [h m hm]
  decide

/-- One event of a session without replay moves the lifecycle part of the trace
along its three stages. -/
theorem stepSession_stage (s : Session) (clock : Nat → Int) (e : SessionEvent)
    (ks : List MessageType) (hk : e.keepsSession = true) (h : LifecycleStage s ks) :
    LifecycleStage (stepSession s clock e).1 (ks ++ lifecycleKinds (stepSession s clock e).2) := by
  cases e with
  | init a b c d => simp [SessionEvent.keepsSession] at hk
  | consoleError t =>
    show LifecycleStage s (ks ++ lifecycleKinds [Message.gameError s.bridge.gameId t])
    simpa [lifecycleKinds, Message.kind] using h
  | virtualConsoleError t =>
    show LifecycleStage s (ks ++ lifecycleKinds [Message.gameError s.bridge.gameId t])
    simpa [lifecycleKinds, Message.kind] using h
  | timeoutFires =>
    show LifecycleStage (readyTimeout s).1 (ks ++ lifecycleKinds (readyTimeout s).2)
    unfold readyTimeout
    by_cases hp : s.timeoutPending = true
    · by_cases ha : s.bridge.isGameActive = true
      · rcases h with ⟨h1, h2, h3⟩ | ⟨h1, h2, h3, h4⟩ | ⟨h1, h2, h3, h4⟩
        · rw [ha] at h2; exact absurd h2 (by simp)
        · simp only [hp, ha, Bool.not_true, Bool.false_eq_true, if_false, lifecycleKinds,
            List.map_nil, List.filter_nil, List.append_nil]
          exact Or.inr (Or.inl ⟨h1, h2, h3, rfl⟩)
        · rw [ha] at h2; exact absurd h2 (by simp)
      · have ha2 : s.bridge.isGameActive = false := by simpa using ha
        simp only [hp, ha2, Bool.not_true, Bool.not_false, Bool.false_eq_true, if_false,
          if_true]
        rcases h with ⟨h1, h2, h3⟩ | ⟨h1, h2, h3, h4⟩ | ⟨h1, h2, h3, h4⟩
        · exact Or.inl ⟨by simp [h1, lifecycleKinds, Message.kind], h2, h3⟩
        · rw [ha2] at h2; exact absurd h2 (by simp)
        · exact Or.inr (Or.inr ⟨by simp [h1, lifecycleKinds, Message.kind], h2, h3, rfl⟩)
    · have hp2 : s.timeoutPending = false := by simpa using hp
      simp only [hp2, Bool.not_false, if_true, lifecycleKinds, List.map_nil, List.filter_nil,
        List.append_nil]
      exact h
  | intervalFires w =>
    show LifecycleStage (readyCheck s clock w).1 (ks ++ lifecycleKinds (readyCheck s clock w).2)
    by_cases hc : s.checkInterval = true ∧ ∃ n, w = some n ∧ 0 < n
    · obtain ⟨hci, n, rfl, hn⟩ := hc
      have hrc : readyCheck s clock (some n)
          = ({ s with checkInterval := false,
                      bridge := { s.bridge with isGameActive := true } },
              [Message.gameStarted s.bridge.gameId (clock 0)]) := by
        simp [readyCheck, hci, hn]
      rw [hrc]
      rcases h with ⟨h1, h2, h3⟩ | ⟨h1, h2, h3, h4⟩ | ⟨h1, h2, h3, h4⟩
      · exact Or.inr (Or.inl ⟨by simp [h1, lifecycleKinds, Message.kind], rfl, h3, rfl⟩)
      · rw [hci] at h4; exact absurd h4 (by simp)
      · rw [hci] at h4; exact absurd h4 (by simp)
    · have hrc : readyCheck s clock w = (s, []) := by
        unfold readyCheck
        by_cases hci : s.checkInterval = true
        · cases w with
          | none => simp
          | some n =>
            have : ¬ 0 < n := fun hn => hc ⟨hci, n, rfl, hn⟩
            simp [hci, this]
        · have : s.checkInterval = false := by simpa using hci
          simp [this]
      rw [hrc]
      simpa [lifecycleKinds] using h
  | call ev =>
    have hr : ev ≠ Event.reset := by
      intro h0; subst h0; simp [SessionEvent.keepsSession] at hk
    show LifecycleStage { s with bridge := (step s.bridge clock ev).1 }
      (ks ++ lifecycleKinds (step s.bridge clock ev).2)
    rcases step_effect s.bridge clock ev hr with ⟨e1, e2, _, e4⟩ | ⟨a1, a2, e1, e2, _, m, hm, hmk⟩
    · rw [lifecycleKinds_scoreUpdates _ e4, List.append_nil]
      rcases h with ⟨h1, h2, h3⟩ | ⟨h1, h2, h3, h4⟩ | ⟨h1, h2, h3, h4⟩
      · exact Or.inl ⟨h1, e1.trans h2, e2.trans h3⟩
      · exact Or.inr (Or.inl ⟨h1, e1.trans h2, e2.trans h3, h4⟩)
      · exact Or.inr (Or.inr ⟨h1, e1.trans h2, e2.trans h3, h4⟩)
    · have hlk : lifecycleKinds (step s.bridge clock ev).2 = [MessageType.gameEnd] := by
        rw [hm]
        simp [lifecycleKinds, hmk]
      rw [hlk]
      rcases h with ⟨h1, h2, h3⟩ | ⟨h1, h2, h3, h4⟩ | ⟨h1, h2, h3, h4⟩
      · rw [a1] at h2; exact absurd h2 (by simp)
      · exact Or.inr (Or.inr ⟨by simp [h1], e1, e2, h4⟩)
      · rw [a1] at h2; exact absurd h2 (by simp)

theorem runSession_stage (s : Session) (evs : List (SessionEvent × (Nat → Int)))
    (ks : List MessageType) (hk : ∀ p ∈ evs, p.1.keepsSession = true)
    (h : LifecycleStage s ks) :
    LifecycleStage (runSession s evs).1 (ks ++ lifecycleKinds (runSession s evs).2) := by
  induction evs generalizing s ks with
  | nil => simpa [runSession, lifecycleKinds] using h
  | cons p rest ih =>
    obtain ⟨e, clock⟩ := p
    have h1 := stepSession_stage s clock e ks (hk (e, clock) (List.mem_cons_self _ _)) h
    have h2 := ih (stepSession s clock e).1 _ (fun q hq => hk q (List.mem_cons_of_mem _ hq)) h1
    simpa [runSession, lifecycleKinds_append, List.append_assoc] using h2

/-- C15, the claim as stated fails: a score reported before the game is ready
(`updateScore(7)` between `init()` and the successful poll) and a score line
after the end are both forwarded, so a `scoreUpdate` is emitted before
`gameStarted` and another after `gameEnd`. -/
theorem message_order_counterexample :
    (runSession (newSession 0)
        [ (SessionEvent.init none (some "session-1") (some "n") (some "pool"), constClock 0),
          (SessionEvent.call (Event.updateScore 7), constClock 50),
          (SessionEvent.intervalFires (some 800), constClock 100),
          (SessionEvent.call (Event.endGame (some 120)), constClock 5000),
          (SessionEvent.call (Event.processOutput (.str "score: 9".toList)),
            constClock 6000) ]).2
      = [ Message.gameReady (some "pool") 0,
          Message.scoreUpdate (some "pool") 7 50,
          Message.gameStarted (some "pool") 100,
          Message.gameEnd (some "pool") 120 5 (some "session-1") 5000,
          Message.scoreUpdate (some "pool") 9 6000 ] := by
  decide

/-- C15, amended: for every trace of one session that starts with `init()` and
continues with readiness polls, the timeout, output lines, `updateScore`,
`endGame` and console-error calls in any order (no second `init()`, no
`reset()`), the lifecycle messages are emitted in the order `gameReady`, then
`gameStarted`, then `gameEnd`, each at most once: `gameStarted` never comes
before `gameReady` and `gameEnd` never before `gameStarted`. -/
theorem message_order (t0 : Int) (wid sid nonce gid : Option String) (cI : Nat → Int)
    (evs : List (SessionEvent × (Nat → Int)))
    (hk : ∀ p ∈ evs, p.1.keepsSession = true) :
    lifecycleKinds (runSession (newSession t0)
        ((SessionEvent.init wid sid nonce gid, cI) :: evs)).2 = [MessageType.gameReady]
      ∨ lifecycleKinds (runSession (newSession t0)
          ((SessionEvent.init wid sid nonce gid, cI) :: evs)).2
        = [MessageType.gameReady, MessageType.gameStarted]
      ∨ lifecycleKinds (runSession (newSession t0)
          ((SessionEvent.init wid sid nonce gid, cI) :: evs)).2
        = [MessageType.gameReady, MessageType.gameStarted, MessageType.gameEnd] := by
  have h0 : LifecycleStage
      (stepSession (newSession t0) cI (SessionEvent.init wid sid nonce gid)).1
      [MessageType.gameReady] := Or.inl ⟨rfl, rfl, rfl⟩
  have h1 := runSession_stage _ evs _ hk h0
  have hrun : lifecycleKinds (runSession (newSession t0)
      ((SessionEvent.init wid sid nonce gid, cI) :: evs)).2
      = [MessageType.gameReady] ++ lifecycleKinds (runSession
          (stepSession (newSession t0) cI (SessionEvent.init wid sid nonce gid)).1 evs).2 := by
    show lifecycleKinds ((stepSession (newSession t0) cI
        (SessionEvent.init wid sid nonce gid)).2 ++ _) = _
    rw [lifecycleKinds_append]
    rfl
  rw [hrun]
  rcases h1 with ⟨h, _⟩ | ⟨h, _⟩ | ⟨h, _⟩
  · exact Or.inl h
  · exact Or.inr (Or.inl h)
  · exact Or.inr (Or.inr h)

/-- C15 amended, at the session of the counterexample: its lifecycle messages
are `gameReady`, `gameStarted`, `gameEnd`. -/
theorem message_order_witness :
    lifecycleKinds (runSession (newSession 0)
        ((SessionEvent.init none (some "session-1") (some "n") (some "pool"), constClock 0)
          :: [ (SessionEvent.call (Event.updateScore 7), constClock 50),
               (SessionEvent.intervalFires (some 800), constClock 100),
               (SessionEvent.call (Event.endGame (some 120)), constClock 5000),
               (SessionEvent.timeoutFires, constClock 30000) ])).2
      = [MessageType.gameReady, MessageType.gameStarted, MessageType.gameEnd] := by
  rcases message_order 0 none (some "session-1") (some "n") (some "pool") (constClock 0)
    [ (SessionEvent.call (Event.updateScore 7), constClock 50),
      (SessionEvent.intervalFires (some 800), constClock 100),
      (SessionEvent.call (Event.endGame (some 120)), constClock 5000),
      (SessionEvent.timeoutFires, constClock 30000) ] (by decide) with h | h | h
  · exact absurd h (by decide)
  · exact absurd h (by decide)
  · exact h


/-! ## The error surface -/

/-- C16, the claim as stated fails: on an active session, a call of
`console.error("Texture missing")` by the game is sent to the hosting page as a
`gameError` message, and so is a call of `virtualConsole.error`. -/
theorem error_surface_counterexample :
    stepSession { bridge := activeBridge 0, checkInterval := false, timeoutPending := true }
        (constClock 2000) (SessionEvent.consoleError "Texture missing".toList)
      = ({ bridge := activeBridge 0, checkInterval := false, timeoutPending := true },
          [Message.gameError (some "game-1") "Texture missing".toList])
      ∧ (stepSession { bridge := activeBridge 0, checkInterval := false, timeoutPending := true }
          (constClock 2000) (SessionEvent.virtualConsoleError "Texture missing".toList)).2
        = [Message.gameError (some "game-1") "Texture missing".toList] := by
  decide

/-- C16, amended: a `gameError` message is emitted when the start-up timeout
fires without a readiness signal having been observed (the interval is still
installed and the bridge is not active), and on every call of `console.error` or
`virtualConsole.error`, whose joined arguments it carries.  No event other than
the timeout and these two calls emits a `gameError`: not `init()`, a readiness
poll, an output line, `updateScore` with any score, `endGame`, a duplicate end
signal or `reset()`. -/
theorem error_surface (s : Session) (clock : Nat → Int) :
    (∀ text, (stepSession s clock (SessionEvent.consoleError text)).2
        = [Message.gameError s.bridge.gameId text])
      ∧ (∀ text, (stepSession s clock (SessionEvent.virtualConsoleError text)).2
        = [Message.gameError s.bridge.gameId text])
      ∧ (s.timeoutPending = true → s.checkInterval = true → s.bridge.isGameActive = false →
          (stepSession s clock SessionEvent.timeoutFires).2
            = [Message.gameError s.bridge.gameId "Game failed to load".toList])
      ∧ (∀ a b c d, countKind MessageType.gameError
          (stepSession s clock (SessionEvent.init a b c d)).2 = 0)
      ∧ (∀ w, countKind MessageType.gameError
          (stepSession s clock (SessionEvent.intervalFires w)).2 = 0)
      ∧ (∀ e, countKind MessageType.gameError
          (stepSession s clock (SessionEvent.call e)).2 = 0) := by
  refine ⟨fun _ => rfl, fun _ => rfl, ?_, fun _ _ _ _ => rfl, ?_, ?_⟩
  · intro hp _ ha
    show (readyTimeout s).2 = _
    simp [readyTimeout, hp, ha]
  · intro w
    show countKind MessageType.gameError (readyCheck s clock w).2 = 0
    unfold readyCheck
    split
    · rfl
    · split
      · rfl
      · split <;> rfl
  · intro e
    show countKind MessageType.gameError (step s.bridge clock e).2 = 0
    by_cases hr : e = Event.reset
    · subst hr; rfl
    · rcases step_effect s.bridge clock e hr with ⟨_, _, _, h⟩ | ⟨_, _, _, _, _, m, hm, hmk⟩
      · exact countKind_zero_of_all _ _ (by decide) _ h
      · rw [hm]
        simp [countKind, hmk]

/-- C16 amended, at a session waiting for readiness: the timeout emits the
`gameError`, while the unrecognised line `loading...`, the non-positive score
`updateScore(0)` and an end signal on the inactive bridge emit none. -/
theorem error_surface_witness :
    (stepSession (stepSession (newSession 0) (constClock 0)
        (SessionEvent.init none none none (some "pool"))).1 (constClock 30000)
        SessionEvent.timeoutFires).2
      = [Message.gameError (some "pool") "Game failed to load".toList]
    ∧ countKind MessageType.gameError
        (stepSession (stepSession (newSession 0) (constClock 0)
          (SessionEvent.init none none none (some "pool"))).1 (constClock 100)
          (SessionEvent.call (Event.processOutput (.str "loading...".toList)))).2 = 0
    ∧ countKind MessageType.gameError
        (stepSession (stepSession (newSession 0) (constClock 0)
          (SessionEvent.init none none none (some "pool"))).1 (constClock 100)
          (SessionEvent.call (Event.updateScore 0))).2 = 0
    ∧ countKind MessageType.gameError
        (stepSession (stepSession (newSession 0) (constClock 0)
          (SessionEvent.init none none none (some "pool"))).1 (constClock 100)
          (SessionEvent.call (Event.endGame none))).2 = 0 :=
  ⟨(error_surface (stepSession (newSession 0) (constClock 0)
      (SessionEvent.init none none none (some "pool"))).1 (constClock 30000)).2.2.1
      rfl rfl rfl,
    (error_surface (stepSession (newSession 0) (constClock 0)
      (SessionEvent.init none none none (some "pool"))).1 (constClock 100)).2.2.2.2.2 _,
    (error_surface (stepSession (newSession 0) (constClock 0)
      (SessionEvent.init none none none (some "pool"))).1 (constClock 100)).2.2.2.2.2 _,
    (error_surface (stepSession (newSession 0) (constClock 0)
      (SessionEvent.init none none none (some "pool"))).1 (constClock 100)).2.2.2.2.2 _⟩


/-! ## The polling adapter -/

theorem endGameArgs_append (xs ys : List AdapterCall) :
    endGameArgs (xs ++ ys) = endGameArgs xs ++ endGameArgs ys := by
  induction xs with
  | nil => rfl
  | cons c rest ih => cases c <;> simp [endGameArgs, ih]

theorem updateScoreArgs_append (xs ys : List AdapterCall) :
    updateScoreArgs (xs ++ ys) = updateScoreArgs xs ++ updateScoreArgs ys := by
  induction xs with
  | nil => rfl
  | cons c rest ih => cases c <;> simp [updateScoreArgs, ih]

theorem scoreStep_flags (g : GameState) (w : Globals) (cs : Int) :
    (scoreStep g w cs).1.gameEnded = g.gameEnded
      ∧ (scoreStep g w cs).1.gameStartTime = g.gameStartTime
      ∧ (scoreStep g w cs).1.checkInterval = g.checkInterval
      ∧ endGameArgs (scoreStep g w cs).2 = [] := by
  unfold scoreStep
  split
  · refine ⟨rfl, rfl, rfl, ?_⟩
    split <;> rfl
  · exact ⟨rfl, rfl, rfl, rfl⟩

theorem endGameArgs_terminalCalls (w : Globals) (line : List Char) (final : Int) :
    endGameArgs (terminalCalls w line final) = if w.hasBridge then [final] else [] := by
  unfold terminalCalls
  cases w.hasBridge <;> rfl

/-- The game-over path: on a sample with `gameInfo.gameOver === 1`, taken while
the game has not ended, the adapter sets `gameEnded`, clears its interval and
calls `endGame` once, with the final score of the formula. -/
theorem tick_gameOver (g : GameState) (w : Globals) (now : Int) (pi : ProjectInfo)
    (ps : PlayState) (gi : GameInfo)
    (hg : g.gameEnded = false) (hpi : w.projectInfo = some pi)
    (hps : w.playState = some ps) (hgi : ps.gameInfo = some gi)
    (hover : gi.gameOver = some 1) :
    (tick g w now).1.gameEnded = true
      ∧ (tick g w now).1.checkInterval = false
      ∧ endGameArgs (tick g w now).2
          = if w.hasBridge then [finalScore (pi.score.getD 0) (elapsedSeconds g now)] else [] := by
  have h1 := scoreStep_flags g w (pi.score.getD 0)
  have hgo : gameOverStep (scoreStep g w (pi.score.getD 0)).1 w (pi.score.getD 0) now
      = ({ (scoreStep g w (pi.score.getD 0)).1 with gameEnded := true, checkInterval := false },
          terminalCalls w
            ("[8Ball Pool] Game ended - Score: ".toList ++ numberToString (pi.score.getD 0)
              ++ " Time bonus: ".toList ++ numberToString (timeBonus (elapsedSeconds g now))
              ++ " Final: ".toList
              ++ numberToString (finalScore (pi.score.getD 0) (elapsedSeconds g now)))
            (finalScore (pi.score.getD 0) (elapsedSeconds g now))) := by
    simp only [gameOverStep, hps, hgi, hover, h1.1, hg, and_self, if_true, elapsedSeconds,
      h1.2.1]
  have hlc : ∀ g2 : GameState, g2.gameEnded = true →
      levelCompleteStep g2 w pi (pi.score.getD 0) now = (g2, []) := by
    intro g2 h2
    simp [levelCompleteStep, h2]
  simp only [tick, hpi, hg, Bool.false_eq_true, if_false, hgo]
  rw [hlc _ rfl]
  refine ⟨rfl, rfl, ?_⟩
  rw [endGameArgs_append, endGameArgs_append, h1.2.2.2, endGameArgs_terminalCalls]
  simp [endGameArgs]

/-- The level-complete path: on a sample with `projectInfo.levelComplete` set on
which the game-over path does not fire, taken while the game has not ended, the
adapter sets `gameEnded`, clears its interval and calls `endGame` once, with the
final score of the formula. -/
theorem tick_levelComplete (g : GameState) (w : Globals) (now : Int) (pi : ProjectInfo)
    (hg : g.gameEnded = false) (hpi : w.projectInfo = some pi)
    (hlevel : pi.levelComplete = true)
    (hno : ∀ ps gi, w.playState = some ps → ps.gameInfo = some gi → gi.gameOver ≠ some 1) :
    (tick g w now).1.gameEnded = true
      ∧ (tick g w now).1.checkInterval = false
      ∧ endGameArgs (tick g w now).2
          = if w.hasBridge then [finalScore (pi.score.getD 0) (elapsedSeconds g now)] else [] := by
  have h1 := scoreStep_flags g w (pi.score.getD 0)
  have hgo : gameOverStep (scoreStep g w (pi.score.getD 0)).1 w (pi.score.getD 0) now
      = ((scoreStep g w (pi.score.getD 0)).1, []) := by
    unfold gameOverStep
    split
    · rfl
    · rename_i ps hps
      split
      · rfl
      · rename_i gi hgi
        rw [if_neg (fun h => hno ps gi hps hgi h.1)]
  simp only [tick, hpi, hg, Bool.false_eq_true, if_false, hgo]
  have hlc : levelCompleteStep (scoreStep g w (pi.score.getD 0)).1 w pi (pi.score.getD 0) now
      = ({ (scoreStep g w (pi.score.getD 0)).1 with gameEnded := true, checkInterval := false },
          terminalCalls w
            ("[8Ball Pool] Level complete - Final score: ".toList
              ++ numberToString (finalScore (pi.score.getD 0) (elapsedSeconds g now)))
            (finalScore (pi.score.getD 0) (elapsedSeconds g now))) := by
    simp only [levelCompleteStep, hlevel, h1.1, hg, and_self, if_true, elapsedSeconds, h1.2.1]
  rw [hlc]
  refine ⟨rfl, rfl, ?_⟩
  rw [endGameArgs_append, endGameArgs_append, h1.2.2.2, endGameArgs_terminalCalls]
  simp [endGameArgs]

/-- C17, the claim as stated fails: the sum is a sum of JavaScript numbers.  With
the sampled score `s = 2^53` and `d = 299` the bonus is 1, and the final score is
`2^53`, not `s + 1`; this is the value the game-over tick hands to `endGame`. -/
theorem polling_bonus_counterexample :
    timeBonus 299 = 1
      ∧ finalScore 9007199254740992 299 = 9007199254740992
      ∧ finalScore 9007199254740992 299 ≠ 9007199254740992 + max 0 (300 - 299)
      ∧ elapsedSeconds (trackingState 0) 299000 = 299
      ∧ endGameArgs (tick (trackingState 0) (gameOverSample 9007199254740992) 299000).2
          = [9007199254740992] := by
  decide

/-- C17, amended (polling bonus formula): for every sampled score `s` and every
elapsed duration `d` in whole seconds for which `s + max(0, 300 - d)` lies
strictly between `-2^53` and `2^53`, the final score is `s + max(0, 300 - d)`:
it is `s + 300 - d` when `d ≤ 300`, it is `s` when `d ≥ 300`, and it is never
below `s`; `(d, s) = (250, 800)` gives 850 and `(310, 500)` gives 500.  On both
terminal paths of the adapter, `gameOver === 1` and `levelComplete`, the value
handed to `endGame` is this final score, with `d` the floor of the elapsed
milliseconds over 1000. -/
theorem polling_bonus (s d : Int)
    (hlo : -9007199254740992 < s + max 0 (300 - d))
    (hhi : s + max 0 (300 - d) < 9007199254740992) :
    finalScore s d = s + max 0 (300 - d)
      ∧ (d ≤ 300 → finalScore s d = s + 300 - d)
      ∧ (300 ≤ d → finalScore s d = s)
      ∧ s ≤ finalScore s d
      ∧ finalScore 800 250 = 850
      ∧ finalScore 500 310 = 500
      ∧ (∀ (g : GameState) (now : Int) (lc : Bool), g.gameEnded = false →
          elapsedSeconds g now = d →
          endGameArgs (tick g
            { projectInfo := some { score := some s, levelComplete := lc },
              playState := some { gameInfo := some { gameOver := some 1 } },
              hasBridge := true } now).2 = [s + max 0 (300 - d)])
      ∧ (∀ (g : GameState) (now : Int), g.gameEnded = false →
          elapsedSeconds g now = d →
          endGameArgs (tick g
            { projectInfo := some { score := some s, levelComplete := true },
              playState := none, hasBridge := true } now).2 = [s + max 0 (300 - d)]) := by
  have hmax : max (0 : Int) (300 - d) = if d ≤ 300 then 300 - d else 0 := by
    split
    · exact max_eq_right (by omega)
    · exact max_eq_left (by omega)
  have hfin : finalScore s d = s + max 0 (300 - d) := by
    unfold finalScore timeBonus
    exact toDoubleInt_of_lt _ hlo hhi
  refine ⟨hfin, ?_, ?_, ?_, by decide, by decide, ?_, ?_⟩
  · intro h
    rw [hfin, hmax, if_pos h]
    omega
  · intro h
    rw [hfin, hmax]
    split <;> omega
  · rw [hfin, hmax]
    split <;> omega
  · intro g now lc hg hd
    have := (tick_gameOver g
      { projectInfo := some { score := some s, levelComplete := lc },
        playState := some { gameInfo := some { gameOver := some 1 } },
        hasBridge := true } now _ _ _ hg rfl rfl rfl rfl).2.2
    rw [this, hd]
    exact congrArg (fun x => [x]) hfin
  · intro g now hg hd
    have := (tick_levelComplete g
      { projectInfo := some { score := some s, levelComplete := true },
        playState := none, hasBridge := true } now _ hg rfl rfl
      (fun ps gi h => by simp at h)).2.2
    rw [this, hd]
    exact congrArg (fun x => [x]) hfin

/-- C17 amended, at the adapter started at time 0: the game-over sample with
score 800, read after 250 999 ms, hands 850 to `endGame`. -/
theorem polling_bonus_witness :
    elapsedSeconds (trackingState 0) 250999 = 250
      ∧ endGameArgs (tick (trackingState 0)
          { projectInfo := some { score := some 800, levelComplete := false },
            playState := some { gameInfo := some { gameOver := some 1 } },
            hasBridge := true } 250999).2 = [850] :=
  ⟨by decide,
    (polling_bonus 800 250 (by decide) (by decide)).2.2.2.2.2.2.1 (trackingState 0) 250999
      false rfl (by decide)⟩


theorem updateScoreArgs_terminalCalls (w : Globals) (line : List Char) (final : Int) :
    updateScoreArgs (terminalCalls w line final) = [] := by
  unfold terminalCalls
  cases w.hasBridge <;> rfl

theorem gameOverStep_score (g : GameState) (w : Globals) (cs now : Int) :
    (gameOverStep g w cs now).1.lastScore = g.lastScore
      ∧ updateScoreArgs (gameOverStep g w cs now).2 = [] := by
  unfold gameOverStep
  split
  · exact ⟨rfl, rfl⟩
  · split
    · exact ⟨rfl, rfl⟩
    · split
      · exact ⟨rfl, updateScoreArgs_terminalCalls _ _ _⟩
      · exact ⟨rfl, rfl⟩

theorem levelCompleteStep_score (g : GameState) (w : Globals) (pi : ProjectInfo)
    (cs now : Int) :
    (levelCompleteStep g w pi cs now).1.lastScore = g.lastScore
      ∧ updateScoreArgs (levelCompleteStep g w pi cs now).2 = [] := by
  unfold levelCompleteStep
  split
  · exact ⟨rfl, updateScoreArgs_terminalCalls _ _ _⟩
  · exact ⟨rfl, rfl⟩

/-- C19, the claim as stated fails: with 50 as the last reported score, a sample
of 30, which is lower, is forwarded to `updateScore` and becomes `lastScore`. -/
theorem adapter_score_reporting_counterexample :
    (trackingState 50).lastScore = 50
      ∧ updateScoreArgs (tick (trackingState 50) (playingSample 30) 1000).2 = [30]
      ∧ (tick (trackingState 50) (playingSample 30) 1000).1.lastScore = 30 := by
  decide

/-- C19, amended: on every polling tick taken while the game has not ended (with
`window.projectInfo` and the bridge present), the adapter forwards the sampled
score to `updateScore` exactly when it differs from the last reported value and
is positive, and the forwarded score becomes `lastScore`, whether it is higher
or lower than the previous one; a sampled score that equals `lastScore` or is
not positive is not forwarded and does not change `lastScore`. -/
theorem adapter_score_reporting (g : GameState) (w : Globals) (now : Int) (pi : ProjectInfo)
    (hg : g.gameEnded = false) (hpi : w.projectInfo = some pi) (hb : w.hasBridge = true) :
    (pi.score.getD 0 ≠ g.lastScore ∧ 0 < pi.score.getD 0 →
        updateScoreArgs (tick g w now).2 = [pi.score.getD 0]
          ∧ (tick g w now).1.lastScore = pi.score.getD 0)
      ∧ (¬ (pi.score.getD 0 ≠ g.lastScore ∧ 0 < pi.score.getD 0) →
        updateScoreArgs (tick g w now).2 = []
          ∧ (tick g w now).1.lastScore = g.lastScore) := by
  have h2 := gameOverStep_score (scoreStep g w (pi.score.getD 0)).1 w (pi.score.getD 0) now
  have h3 := levelCompleteStep_score
    (gameOverStep (scoreStep g w (pi.score.getD 0)).1 w (pi.score.getD 0) now).1 w pi
    (pi.score.getD 0) now
  have hargs : updateScoreArgs (tick g w now).2
      = updateScoreArgs (scoreStep g w (pi.score.getD 0)).2 := by
    simp only [tick, hpi, hg, Bool.false_eq_true, if_false, updateScoreArgs_append, h2.2, h3.2,
      List.append_nil]
  have hlast : (tick g w now).1.lastScore = (scoreStep g w (pi.score.getD 0)).1.lastScore := by
    simp only [tick, hpi, hg, Bool.false_eq_true, if_false, h3.1, h2.1]
  rw [hargs, hlast]
  constructor
  · intro hc
    have hs : scoreStep g w (pi.score.getD 0)
        = ({ g with lastScore := pi.score.getD 0 },
            [AdapterCall.updateScore (pi.score.getD 0),
             AdapterCall.log ("[8Ball Pool] Score updated: ".toList
               ++ numberToString (pi.score.getD 0))]) := by
      simp only [scoreStep, if_pos hc, hb, if_true]
    rw [hs]
    exact ⟨rfl, rfl⟩
  · intro hc
    have hs : scoreStep g w (pi.score.getD 0) = (g, []) := by
      simp only [scoreStep, if_neg hc]
    rw [hs]
    exact ⟨rfl, rfl⟩

/-- C19 amended, at the last reported score 50: the lower sample 30 is
forwarded, the equal sample 50 and the sample 0 are not. -/
theorem adapter_score_reporting_witness :
    (updateScoreArgs (tick (trackingState 50) (playingSample 30) 1000).2 = [30]
        ∧ (tick (trackingState 50) (playingSample 30) 1000).1.lastScore = 30)
      ∧ (updateScoreArgs (tick (trackingState 50) (playingSample 50) 1000).2 = []
        ∧ (tick (trackingState 50) (playingSample 50) 1000).1.lastScore = 50)
      ∧ (updateScoreArgs (tick (trackingState 50) (playingSample 0) 1000).2 = []
        ∧ (tick (trackingState 50) (playingSample 0) 1000).1.lastScore = 50) :=
  ⟨(adapter_score_reporting (trackingState 50) (playingSample 30) 1000 _ rfl rfl rfl).1
      (by decide),
    (adapter_score_reporting (trackingState 50) (playingSample 50) 1000 _ rfl rfl rfl).2
      (by decide),
    (adapter_score_reporting (trackingState 50) (playingSample 0) 1000 _ rfl rfl rfl).2
      (by decide)⟩

/-! ### The adapter ends the game at most once -/

theorem tick_ended (g : GameState) (w : Globals) (now : Int) (hg : g.gameEnded = true) :
    tick g w now = (g, []) := by
  unfold tick
  split
  · rfl
  · simp [hg]

theorem runTicks_ended (g : GameState) (ticks : List (Globals × Int))
    (hg : g.gameEnded = true) : runTicks g ticks = (g, []) := by
  induction ticks with
  | nil => rfl
  | cons p rest ih =>
    obtain ⟨w, now⟩ := p
    simp only [runTicks, tick_ended g w now hg, ih, List.append_nil]

theorem length_endGameArgs_terminalCalls (w : Globals) (line : List Char) (final : Int) :
    (endGameArgs (terminalCalls w line final)).length ≤ 1 := by
  rw [endGameArgs_terminalCalls]
  cases w.hasBridge <;> simp

theorem gameOverStep_cases (g : GameState) (w : Globals) (cs now : Int) :
    gameOverStep g w cs now = (g, [])
      ∨ ((gameOverStep g w cs now).1.gameEnded = true
        ∧ (gameOverStep g w cs now).1.checkInterval = false
        ∧ (endGameArgs (gameOverStep g w cs now).2).length ≤ 1) := by
  unfold gameOverStep
  split
  · exact Or.inl rfl
  · split
    · exact Or.inl rfl
    · split
      · exact Or.inr ⟨rfl, rfl, length_endGameArgs_terminalCalls _ _ _⟩
      · exact Or.inl rfl

theorem levelCompleteStep_cases (g : GameState) (w : Globals) (pi : ProjectInfo)
    (cs now : Int) :
    levelCompleteStep g w pi cs now = (g, [])
      ∨ (g.gameEnded = false
        ∧ (levelCompleteStep g w pi cs now).1.gameEnded = true
        ∧ (levelCompleteStep g w pi cs now).1.checkInterval = false
        ∧ (endGameArgs (levelCompleteStep g w pi cs now).2).length ≤ 1) := by
  unfold levelCompleteStep
  split
  · rename_i h
    exact Or.inr ⟨h.2, rfl, rfl, length_endGameArgs_terminalCalls _ _ _⟩
  · exact Or.inl rfl

/-- One tick calls `endGame` at most once; a tick that ends the game sets
`gameEnded` and clears the interval, and a tick that does not end it makes no
`endGame` call. -/
theorem tick_endGame (g : GameState) (w : Globals) (now : Int) :
    ((tick g w now).1.gameEnded = g.gameEnded ∧ endGameArgs (tick g w now).2 = [])
      ∨ (g.gameEnded = false ∧ (tick g w now).1.gameEnded = true
        ∧ (tick g w now).1.checkInterval = false
        ∧ (endGameArgs (tick g w now).2).length ≤ 1) := by
  unfold tick
  split
  · exact Or.inl ⟨rfl, rfl⟩
  · rename_i pi hpi
    by_cases hg : g.gameEnded = true
    · left
      simp [hg, endGameArgs]
    · have hg2 : g.gameEnded = false := by simpa using hg
      simp only [hg2, Bool.false_eq_true, if_false]
      have h1 := scoreStep_flags g w (pi.score.getD 0)
      rw [endGameArgs_append, endGameArgs_append, h1.2.2.2, List.nil_append]
      rcases gameOverStep_cases (scoreStep g w (pi.score.getD 0)).1 w (pi.score.getD 0) now
        with h2 | ⟨h2, h2c, h2l⟩
      · rw [h2]
        rcases levelCompleteStep_cases (scoreStep g w (pi.score.getD 0)).1 w pi
          (pi.score.getD 0) now with h3 | ⟨_, h3, h3c, h3l⟩
        · rw [h3]
          exact Or.inl ⟨h1.1.trans hg2, rfl⟩
        · exact Or.inr ⟨trivial, h3, h3c, by simpa [endGameArgs] using h3l⟩
      · rcases levelCompleteStep_cases
          (gameOverStep (scoreStep g w (pi.score.getD 0)).1 w (pi.score.getD 0) now).1 w pi
          (pi.score.getD 0) now with h3 | ⟨h3, _⟩
        · rw [h3]
          exact Or.inr ⟨trivial, h2, h2c, by simpa [endGameArgs] using h2l⟩
        · rw [h2] at h3
          exact absurd h3 (by simp)


theorem runTicks_endGame_le (g : GameState) (ticks : List (Globals × Int)) :
    (endGameArgs (runTicks g ticks).2).length ≤ 1 := by
  induction ticks generalizing g with
  | nil => simp [runTicks, endGameArgs]
  | cons p rest ih =>
    obtain ⟨w, now⟩ := p
    simp only [runTicks, endGameArgs_append, List.length_append]
    rcases tick_endGame g w now with ⟨_, h⟩ | ⟨_, hended, _, hl⟩
    · rw [h]
      simpa using ih (tick g w now).1
    · rw [runTicks_ended _ rest hended]
      simpa [endGameArgs] using hl

/-- C20 (adapter terminal idempotency): over every sequence of polling ticks
with arbitrary sampled globals, from any adapter state, `endGame` is called at
most once in total.  A tick taken while the game has not ended on a sample with
`gameInfo.gameOver === 1` or with `projectInfo.levelComplete` set, or with both,
sets `gameEnded`, clears the interval and calls `endGame` exactly once when the
bridge is there; and once `gameEnded` is set, every later tick makes no call at
all, neither `updateScore` nor `endGame` nor a log. -/
theorem adapter_terminal_idempotency (g : GameState) (ticks : List (Globals × Int)) :
    (endGameArgs (runTicks g ticks).2).length ≤ 1
      ∧ (∀ (w : Globals) (now : Int) (pi : ProjectInfo),
          g.gameEnded = false → w.projectInfo = some pi →
          ((∃ ps gi, w.playState = some ps ∧ ps.gameInfo = some gi ∧ gi.gameOver = some 1)
            ∨ pi.levelComplete = true) →
          (tick g w now).1.gameEnded = true
            ∧ (tick g w now).1.checkInterval = false
            ∧ endGameArgs (tick g w now).2
                = if w.hasBridge then [finalScore (pi.score.getD 0) (elapsedSeconds g now)]
                  else [])
      ∧ (g.gameEnded = true → runTicks g ticks = (g, [])) := by
  refine ⟨runTicks_endGame_le g ticks, ?_, runTicks_ended g ticks⟩
  intro w now pi hg hpi hterm
  by_cases hover : ∃ ps gi, w.playState = some ps ∧ ps.gameInfo = some gi
      ∧ gi.gameOver = some 1
  · obtain ⟨ps, gi, hps, hgi, ho⟩ := hover
    exact tick_gameOver g w now pi ps gi hg hpi hps hgi ho
  · rcases hterm with h | h
    · exact absurd h hover
    · exact tick_levelComplete g w now pi hg hpi h
        (fun ps gi hps hgi ho => hover ⟨ps, gi, hps, hgi, ho⟩)

/-- C20 at a run of four ticks: a playing sample, then a sample with both
terminal flags set, then two more terminal samples; `endGame` is called once,
with 320. -/
theorem adapter_terminal_idempotency_witness :
    endGameArgs (runTicks (trackingState 0)
        [ (playingSample 100, 100000),
          ({ projectInfo := some { score := some 300, levelComplete := true },
             playState := some { gameInfo := some { gameOver := some 1 } },
             hasBridge := true }, 280000),
          (gameOverSample 400, 281000),
          (gameOverSample 500, 282000) ]).2 = [320]
      ∧ (endGameArgs (runTicks (trackingState 0)
          [ (playingSample 100, 100000),
            ({ projectInfo := some { score := some 300, levelComplete := true },
               playState := some { gameInfo := some { gameOver := some 1 } },
               hasBridge := true }, 280000),
            (gameOverSample 400, 281000),
            (gameOverSample 500, 282000) ]).2).length ≤ 1 :=
  ⟨by decide,
    (adapter_terminal_idempotency (trackingState 0)
      [ (playingSample 100, 100000),
        ({ projectInfo := some { score := some 300, levelComplete := true },
           playState := some { gameInfo := some { gameOver := some 1 } },
           hasBridge := true }, 280000),
        (gameOverSample 400, 281000),
        (gameOverSample 500, 282000) ]).1⟩


/-! ## The adapter on the bridge -/

theorem run_append (b : Bridge) (xs ys : List (Event × (Nat → Int))) :
    run b (xs ++ ys) = ((run (run b xs).1 ys).1, (run b xs).2 ++ (run (run b xs).1 ys).2) := by
  induction xs generalizing b with
  | nil => simp [run]
  | cons p rest ih =>
    obtain ⟨e, clock⟩ := p
    show run b ((e, clock) :: (rest ++ ys)) = _
    simp only [run, ih, List.append_assoc]

theorem attachClocks_append (clk : Nat → Nat → Int) (k : Nat) (xs ys : List AdapterCall) :
    attachClocks clk k (xs ++ ys)
      = attachClocks clk k xs ++ attachClocks clk (k + xs.length) ys := by
  induction xs generalizing k with
  | nil => simp [attachClocks]
  | cons c rest ih =>
    have hk : k + 1 + rest.length = k + (rest.length + 1) := by omega
    show (c.toEvent, clk k) :: attachClocks clk (k + 1) (rest ++ ys)
      = (c.toEvent, clk k) :: attachClocks clk (k + 1) rest
          ++ attachClocks clk (k + (rest.length + 1)) ys
    rw [ih (k + 1), hk]
    rfl

/-- A line on which a score matcher fires, or on which the game-over expression
does not match, can only change `currentScore` and emit `scoreUpdate`. -/
theorem processOutput_scoreOnly (b : Bridge) (clock : Nat → Int) (msg : List Char)
    (h : (anyScoreMatcher msg || !testEndPhrase msg) = true) :
    ∃ c, (_processOutput b clock (.str msg)).1 = { b with currentScore := c }
      ∧ ∀ m ∈ (_processOutput b clock (.str msg)).2, m.kind = MessageType.scoreUpdate := by
  have hnoop : ∃ c, ((b, []) : Bridge × List Message).1 = { b with currentScore := c }
      ∧ ∀ m ∈ ((b, []) : Bridge × List Message).2, m.kind = MessageType.scoreUpdate :=
    ⟨b.currentScore, rfl, fun m hm => by simp at hm⟩
  by_cases hm : indexOf msg marker = -1
  · by_cases hany : anyScoreMatcher msg = true
    · have hsome : (firstScoreMatch msg).isSome = true := by
        rw [firstScoreMatch_isSome]; exact hany
      obtain ⟨s, hs⟩ := Option.isSome_iff_exists.mp hsome
      rw [processOutput_eq_detected b clock msg s hm hs]
      rcases detectedScore_cases b clock (some s) with h1 | ⟨n, h1⟩
      · rw [h1]; exact hnoop
      · rw [h1]
        refine ⟨n, rfl, fun m hm2 => ?_⟩
        simp only [onScoreUpdate, List.mem_singleton] at hm2
        rw [hm2]; rfl
    · have hany2 : anyScoreMatcher msg = false := by simpa using hany
      have hend : testEndPhrase msg = false := by
        rw [hany2] at h
        simpa using h
      rw [processOutput_no_score b clock msg hm hany2, hend]
      exact hnoop
  · have : _processOutput b clock (.str msg) = (b, []) := by
      cases msg with
      | nil => rfl
      | cons c cs => simp [_processOutput, hm]
    rw [this]
    exact hnoop

/-- A sequence of calls none of which can end the game leaves the bridge as it
was up to `currentScore` and emits only `scoreUpdate` messages. -/
theorem run_scoreOnly (clk : Nat → Nat → Int) (calls : List AdapterCall) (k : Nat) (b : Bridge)
    (h : ∀ c ∈ calls, c.isScoreOnly = true) :
    ∃ c0, (run b (attachClocks clk k calls)).1 = { b with currentScore := c0 }
      ∧ ∀ m ∈ (run b (attachClocks clk k calls)).2, m.kind = MessageType.scoreUpdate := by
  induction calls generalizing k b with
  | nil => exact ⟨b.currentScore, rfl, fun m hm => by simp [attachClocks, run] at hm⟩
  | cons c rest ih =>
    have hc := h c (List.mem_cons_self _ _)
    have hstep : ∃ c1, (step b (clk k) c.toEvent).1 = { b with currentScore := c1 }
        ∧ ∀ m ∈ (step b (clk k) c.toEvent).2, m.kind = MessageType.scoreUpdate := by
      cases c with
      | updateScore s =>
        refine ⟨s, rfl, fun m hm => ?_⟩
        simp only [AdapterCall.toEvent, step, updateScore, onScoreUpdate,
          List.mem_singleton] at hm
        rw [hm]; rfl
      | log line => exact processOutput_scoreOnly b (clk k) line hc
      | endGame f => simp [AdapterCall.isScoreOnly] at hc
    obtain ⟨c1, hb1, hm1⟩ := hstep
    obtain ⟨c2, hb2, hm2⟩ := ih (k + 1) (step b (clk k) c.toEvent).1
      (fun x hx => h x (List.mem_cons_of_mem _ hx))
    refine ⟨c2, ?_, ?_⟩
    · show (run (step b (clk k) c.toEvent).1 (attachClocks clk (k + 1) rest)).1 = _
      rw [hb2, hb1]
    · intro m hm
      have hm' : m ∈ (step b (clk k) c.toEvent).2
          ++ (run (step b (clk k) c.toEvent).1 (attachClocks clk (k + 1) rest)).2 := hm
      rcases List.mem_append.mp hm' with h1 | h2
      · exact hm1 m h1
      · exact hm2 m h2

theorem filter_isGameEnd_scoreUpdates (xs : List Message)
    (h : ∀ m ∈ xs, m.kind = MessageType.scoreUpdate) : xs.filter Message.isGameEnd = [] := by
  rw [List.filter_eq_nil_iff]
  intro m hm
  have := h m hm
  cases m <;> simp_all [Message.kind, Message.isGameEnd]

/-- Calls that cannot end the game, followed by `endGame(f)`, on an active
bridge whose latch is unset: the only `gameEnd` emitted is the one of the
`endGame` call, and it carries `f`. -/
theorem run_then_endGame (clk : Nat → Nat → Int) (calls : List AdapterCall) (b : Bridge)
    (f : Int) (h : ∀ c ∈ calls, c.isScoreOnly = true)
    (ha : b.isGameActive = true) (hs : b._gameEndSent = false) :
    (run b (attachClocks clk 0 (calls ++ [AdapterCall.endGame f]))).2.filter Message.isGameEnd
      = [Message.gameEnd b.gameId f
          (Int.fdiv (clk calls.length 0 - b.startTime) 1000) b.sessionId
          (clk calls.length 1)] := by
  obtain ⟨c0, hb0, hm0⟩ := run_scoreOnly clk calls 0 b h
  rw [attachClocks_append, run_append]
  simp only [List.filter_append, filter_isGameEnd_scoreUpdates _ hm0, List.nil_append, hb0,
    Nat.zero_add]
  show (run { b with currentScore := c0 }
    [(Event.endGame (some f), clk calls.length)]).2.filter Message.isGameEnd = _
  have hacc := onGameEnd_accept { b with currentScore := f } (clk calls.length) ha hs
  simp only [run, step, endGame, hacc, List.append_nil]
  rfl


/-! ### The log lines of the adapter, as the bridge reads them -/

theorem matchLit_first_ne (p : Char) (ps : List Char) (c : Char) (cs : List Char)
    (h : canonicalize c ≠ canonicalize p) : matchLit (p :: ps) (c :: cs) = none := by
  simp [matchLit, h]

/-- No end phrase starts at a character that is none of the letters g, d, f, y,
l in either case. -/
theorem endPhraseAt_first (c : Char) (cs : List Char)
    (hg : canonicalize c ≠ 71) (hd : canonicalize c ≠ 68) (hf : canonicalize c ≠ 70)
    (hy : canonicalize c ≠ 89) (hl : canonicalize c ≠ 76) :
    endPhraseAt (c :: cs) = false := by
  have eg : matchLit "game".toList (c :: cs) = none :=
    matchLit_first_ne (Char.ofNat 103) "ame".toList c cs hg
  have ed : matchLit "died".toList (c :: cs) = none :=
    matchLit_first_ne (Char.ofNat 100) "ied".toList c cs hd
  have ef : matchLit "finished".toList (c :: cs) = none :=
    matchLit_first_ne (Char.ofNat 102) "inished".toList c cs hf
  have ego : matchLit "gameover".toList (c :: cs) = none :=
    matchLit_first_ne (Char.ofNat 103) "ameover".toList c cs hg
  have ey : matchLit "you".toList (c :: cs) = none :=
    matchLit_first_ne (Char.ofNat 121) "ou".toList c cs hy
  have ede : matchLit "defeat".toList (c :: cs) = none :=
    matchLit_first_ne (Char.ofNat 100) "efeat".toList c cs hd
  have el : matchLit "level".toList (c :: cs) = none :=
    matchLit_first_ne (Char.ofNat 108) "evel".toList c cs hl
  simp only [endPhraseAt, altGameOver, altYou, altTwoWords, eg, ed, ef, ego, ey, ede, el,
    Option.isSome_none, Bool.or_self]

theorem testEndPhrase_digits (ds : List Char) (h : ∀ c ∈ ds, isDigit c = true) :
    testEndPhrase ds = false := by
  induction ds with
  | nil => decide
  | cons c cs ih =>
    have hc := canonicalize_digit c (h c (List.mem_cons_self _ _))
    have h0 := endPhraseAt_first c cs (by omega) (by omega) (by omega) (by omega) (by omega)
    simp only [testEndPhrase, h0, Bool.false_or]
    exact ih (fun x hx => h x (List.mem_cons_of_mem _ hx))

/-- The line `[8Ball Pool] Score updated: <digits>` matches no end phrase. -/
theorem testEndPhrase_scoreUpdated (ds : List Char) (h : ∀ c ∈ ds, isDigit c = true) :
    testEndPhrase ("[8Ball Pool] Score updated: ".toList ++ ds) = false := by
  have hskip : testEndPhrase ("[8Ball Pool] Score updated: ".toList ++ ds) = testEndPhrase ds :=
    rfl
  rw [hskip]
  exact testEndPhrase_digits ds h

/-- The line `[8Ball Pool] Game ended - Score: <digits>...` is matched by the
score matcher. -/
theorem matchScore_gameEnded (c : Char) (cs : List Char) (hc : isDigit c = true) :
    matchScore ("[8Ball Pool] Game ended - Score: ".toList ++ c :: cs)
      = some (c :: cs.takeWhile isDigit) := by
  have hsep := isDigit_not_isSep c hc
  have hat : keywordNumberAt "score".toList (some (Char.ofNat 32))
      ("Score: ".toList ++ c :: cs)
      = if (((c :: cs).dropWhile isSep).takeWhile isDigit).isEmpty then none
        else some (((c :: cs).dropWhile isSep).takeWhile isDigit) := rfl
  have hat2 : keywordNumberAt "score".toList (some (Char.ofNat 32))
      ("Score: ".toList ++ c :: cs) = some (c :: cs.takeWhile isDigit) := by
    rw [hat]
    simp [List.dropWhile_cons, hsep, List.takeWhile_cons, hc]
  show (match keywordNumberAt "score".toList (some (Char.ofNat 32))
      ("Score: ".toList ++ c :: cs) with
    | some r => some r
    | none => searchKeywordNumber "score".toList (some (Char.ofNat 83))
        ("core: ".toList ++ c :: cs)) = _
  rw [hat2]

/-- Below `2^53` the string of a non-negative number is its decimal numeral. -/
theorem numberToString_of_lt (s : Int) (hs : 0 ≤ s) (h2 : s < 9007199254740992) :
    numberToString s = decimal s.toNat := by
  unfold numberToString naturalToString
  rw [if_neg (by omega), if_pos (by omega)]

theorem numberToString_pos (s : Int) (hs : 0 < s) (h2 : s < 9007199254740992) :
    ∃ c cs, numberToString s = c :: cs ∧ isDigit c = true
      ∧ ∀ x ∈ numberToString s, isDigit x = true := by
  have hpos : 0 < s.toNat := by omega
  obtain ⟨hne, hd, _⟩ := decimal_spec s.toNat hpos
  have hn : numberToString s = decimal s.toNat := numberToString_of_lt s (by omega) h2
  rw [hn]
  cases hdec : decimal s.toNat with
  | nil => exact absurd hdec hne
  | cons c cs =>
    rw [hdec] at hd
    exact ⟨c, cs, rfl, hd c (List.mem_cons_self _ _), hd⟩


/-- The calls of the game-over tick, spelled out: the calls of the score block,
then the log line, then `endGame(finalScore)`. -/
theorem tick_gameOver_calls (g : GameState) (w : Globals) (now : Int) (pi : ProjectInfo)
    (ps : PlayState) (gi : GameInfo)
    (hg : g.gameEnded = false) (hpi : w.projectInfo = some pi)
    (hps : w.playState = some ps) (hgi : ps.gameInfo = some gi)
    (hover : gi.gameOver = some 1) (hb : w.hasBridge = true) :
    (tick g w now).2
      = ((scoreStep g w (pi.score.getD 0)).2
          ++ [AdapterCall.log
                ("[8Ball Pool] Game ended - Score: ".toList ++ numberToString (pi.score.getD 0)
                  ++ " Time bonus: ".toList
                  ++ numberToString (timeBonus (elapsedSeconds g now))
                  ++ " Final: ".toList
                  ++ numberToString (finalScore (pi.score.getD 0) (elapsedSeconds g now)))])
        ++ [AdapterCall.endGame (finalScore (pi.score.getD 0) (elapsedSeconds g now))] := by
  have h1 := scoreStep_flags g w (pi.score.getD 0)
  have hgo : gameOverStep (scoreStep g w (pi.score.getD 0)).1 w (pi.score.getD 0) now
      = ({ (scoreStep g w (pi.score.getD 0)).1 with gameEnded := true, checkInterval := false },
          terminalCalls w
            ("[8Ball Pool] Game ended - Score: ".toList ++ numberToString (pi.score.getD 0)
              ++ " Time bonus: ".toList ++ numberToString (timeBonus (elapsedSeconds g now))
              ++ " Final: ".toList
              ++ numberToString (finalScore (pi.score.getD 0) (elapsedSeconds g now)))
            (finalScore (pi.score.getD 0) (elapsedSeconds g now))) := by
    simp only [gameOverStep, hps, hgi, hover, h1.1, hg, and_self, if_true, elapsedSeconds,
      h1.2.1]
  have hlc : ∀ g2 : GameState, g2.gameEnded = true →
      levelCompleteStep g2 w pi (pi.score.getD 0) now = (g2, []) := by
    intro g2 h2
    simp [levelCompleteStep, h2]
  simp only [tick, hpi, hg, Bool.false_eq_true, if_false, hgo]
  rw [hlc _ rfl]
  simp only [terminalCalls, hb, if_true, List.append_nil, List.append_assoc,
    List.singleton_append]

/-- The game-over tick seen from the bridge: for a sampled score `0 < s < 2^53`
the bridge emits exactly one `gameEnd` message, with the final score that the
adapter computed; the adapter's own log lines, which the bridge reads, do not
end the game before `endGame` is called, and the later ticks make no call. -/
theorem adapter_gameEnd_score (g : GameState) (w : Globals) (b : Bridge) (now : Int)
    (clk : Nat → Nat → Int) (s : Int) (pi : ProjectInfo) (ps : PlayState) (gi : GameInfo)
    (later : List (Globals × Int))
    (hs : 0 < s) (h2 : s < 9007199254740992) (hg : g.gameEnded = false)
    (hpi : w.projectInfo = some pi) (hscore : pi.score = some s)
    (hps : w.playState = some ps) (hgi : ps.gameInfo = some gi)
    (hover : gi.gameOver = some 1) (hb : w.hasBridge = true)
    (hact : b.isGameActive = true) (hsent : b._gameEndSent = false) :
    ∃ dur ts,
      (run b (attachClocks clk 0 (runTicks g ((w, now) :: later)).2)).2.filter Message.isGameEnd
        = [Message.gameEnd b.gameId (finalScore s (elapsedSeconds g now)) dur
            b.sessionId ts] := by
  have hsd : pi.score.getD 0 = s := by rw [hscore]; rfl
  -- the later ticks make no call
  have hended := (tick_gameOver g w now pi ps gi hg hpi hps hgi hover).1
  have hticks : (runTicks g ((w, now) :: later)).2 = (tick g w now).2 := by
    show (tick g w now).2 ++ (runTicks (tick g w now).1 later).2 = _
    rw [runTicks_ended _ later hended, List.append_nil]
  rw [hticks, tick_gameOver_calls g w now pi ps gi hg hpi hps hgi hover hb, hsd]
  -- the calls before `endGame` cannot end the game
  obtain ⟨c, cs, hnum, hc, hall⟩ := numberToString_pos s hs h2
  have hline : (AdapterCall.log
      ("[8Ball Pool] Game ended - Score: ".toList ++ numberToString s
        ++ " Time bonus: ".toList ++ numberToString (timeBonus (elapsedSeconds g now))
        ++ " Final: ".toList
        ++ numberToString (finalScore s (elapsedSeconds g now)))).isScoreOnly = true := by
    have hm := matchScore_gameEnded c
      (cs ++ (" Time bonus: ".toList ++ (numberToString (timeBonus (elapsedSeconds g now))
        ++ (" Final: ".toList ++ numberToString (finalScore s (elapsedSeconds g now)))))) hc
    simp only [AdapterCall.isScoreOnly, anyScoreMatcher, hnum, List.append_assoc,
      List.cons_append, hm, Option.isSome_some, Bool.or_true, Bool.true_or]
  have hscoreCalls : ∀ x ∈ (scoreStep g w s).2, x.isScoreOnly = true := by
    intro x hx
    unfold scoreStep at hx
    split at hx
    · simp only [hb, if_true, List.mem_cons, List.mem_singleton, List.not_mem_nil,
        or_false] at hx
      rcases hx with rfl | rfl
      · rfl
      · simp only [AdapterCall.isScoreOnly, testEndPhrase_scoreUpdated _ hall, Bool.not_false,
          Bool.or_true]
    · simp at hx
  have hpre : ∀ x ∈ (scoreStep g w s).2 ++ [AdapterCall.log
      ("[8Ball Pool] Game ended - Score: ".toList ++ numberToString s
        ++ " Time bonus: ".toList ++ numberToString (timeBonus (elapsedSeconds g now))
        ++ " Final: ".toList
        ++ numberToString (finalScore s (elapsedSeconds g now)))], x.isScoreOnly = true := by
    intro x hx
    rcases List.mem_append.mp hx with h | h
    · exact hscoreCalls x h
    · rw [List.mem_singleton.mp h]; exact hline
  exact ⟨_, _, run_then_endGame clk _ b _ hpre hact hsent⟩


/-- C18, the claim as stated fails: the final score is a sum of JavaScript
numbers.  The adapter started at time 0 samples `s = 2^53 - 1` with
`gameOver = 1` at 298 000 ms, so `d = 298` and `s + max(0, 300 - d) = 2^53 + 1`;
the single `gameEnd` carries `2^53`. -/
theorem adapter_end_to_end_counterexample :
    elapsedSeconds (trackingState 0) 298000 = 298
      ∧ (9007199254740991 : Int) + max 0 (300 - 298) = 9007199254740993
      ∧ ∃ dur ts,
        (run (activeBridge 0) (attachClocks (fun _ => constClock 298000) 0
            (runTicks (trackingState 0) [(gameOverSample 9007199254740991, 298000)]).2)).2.filter
            Message.isGameEnd
          = [Message.gameEnd (some "game-1") 9007199254740992 dur (some "session-1") ts] :=
  ⟨by decide, by decide,
    adapter_gameEnd_score (trackingState 0) (gameOverSample 9007199254740991) (activeBridge 0)
      298000 (fun _ => constClock 298000) 9007199254740991 _ _ _ []
      (by decide) (by decide) rfl rfl rfl rfl rfl rfl rfl rfl rfl⟩

/-- C18, amended (adapter end-to-end): with the bridge active and not ended, a
tick of the adapter, taken while the game has not ended, that samples a score
`s > 0` and `gameInfo.gameOver === 1` at `d` elapsed seconds, with
`s + max(0, 300 - d)` below `2^53`, followed by any later ticks, makes the bridge
emit exactly one `gameEnd` message, and its score is `s + max(0, 300 - d)`: the
adapter's own log lines, which the bridge reads, do not end the game before
`endGame` is called, and the later ticks make no call. -/
theorem adapter_end_to_end (g : GameState) (w : Globals) (b : Bridge) (now : Int)
    (clk : Nat → Nat → Int) (s : Int) (pi : ProjectInfo) (ps : PlayState) (gi : GameInfo)
    (later : List (Globals × Int))
    (hs : 0 < s) (hsum : s + max 0 (300 - elapsedSeconds g now) < 9007199254740992)
    (hg : g.gameEnded = false)
    (hpi : w.projectInfo = some pi) (hscore : pi.score = some s)
    (hps : w.playState = some ps) (hgi : ps.gameInfo = some gi)
    (hover : gi.gameOver = some 1) (hb : w.hasBridge = true)
    (hact : b.isGameActive = true) (hsent : b._gameEndSent = false) :
    ∃ dur ts,
      (run b (attachClocks clk 0 (runTicks g ((w, now) :: later)).2)).2.filter Message.isGameEnd
        = [Message.gameEnd b.gameId (s + max 0 (300 - elapsedSeconds g now)) dur
            b.sessionId ts] := by
  have hmax : (0 : Int) ≤ max 0 (300 - elapsedSeconds g now) := le_max_left _ _
  have hfin : finalScore s (elapsedSeconds g now) = s + max 0 (300 - elapsedSeconds g now) := by
    unfold finalScore timeBonus
    exact toDoubleInt_of_lt _ (by omega) hsum
  have h := adapter_gameEnd_score g w b now clk s pi ps gi later hs (by omega) hg hpi hscore
    hps hgi hover hb hact hsent
  rw [hfin] at h
  exact h

/-- C18 amended, at `s = 300`, `d = 280`: the adapter started at time 0 samples
`score = 300`, `gameOver = 1` at 280 000 ms; the bridge emits one `gameEnd`, with
score 320, whatever ticks follow. -/
theorem adapter_end_to_end_witness :
    elapsedSeconds (trackingState 0) 280000 = 280
      ∧ ∃ dur ts,
        (run (activeBridge 0) (attachClocks (fun _ => constClock 280000) 0
            (runTicks (trackingState 0)
              [(gameOverSample 300, 280000), (gameOverSample 300, 281000)]).2)).2.filter
            Message.isGameEnd
          = [Message.gameEnd (some "game-1") 320 dur (some "session-1") ts] :=
  ⟨by decide,
    adapter_end_to_end (trackingState 0) (gameOverSample 300) (activeBridge 0) 280000
      (fun _ => constClock 280000) 300 _ _ _ [(gameOverSample 300, 281000)]
      (by decide) (by decide) rfl rfl rfl rfl rfl rfl rfl rfl rfl⟩


/-! ## Transport, replay and the session fields -/

/-- C21 (transport delivery): for every envelope and every frame topology,
`sendMessage` makes the call `parent.postMessage` exactly when the parent differs
from the window itself and the call `top.postMessage` exactly when the top window
differs from both the window itself and the parent, each with the envelope
unchanged; hence the parent and the top window, when they are not the window
itself, each receive exactly one copy, no frame receives two, no other frame
receives any, and when `parent = top = self` nothing is posted.  The embedding is
a total function, so nothing is thrown. -/
theorem sendMessage_delivery (fr : Frames) (message : Message) :
    sendMessage fr message
        = (if fr.parent ≠ fr.self then
            [{ target := fr.parent, message := message, targetOrigin := "*" }] else [])
          ++ (if fr.top ≠ fr.self ∧ fr.top ≠ fr.parent then
            [{ target := fr.top, message := message, targetOrigin := "*" }] else [])
      ∧ (fr.parent ≠ fr.self → copiesTo fr.parent (sendMessage fr message) = 1)
      ∧ (fr.top ≠ fr.self → copiesTo fr.top (sendMessage fr message) = 1)
      ∧ copiesTo fr.self (sendMessage fr message) = 0
      ∧ (∀ f, copiesTo f (sendMessage fr message) ≤ 1)
      ∧ (∀ f, f ≠ fr.parent → f ≠ fr.top → copiesTo f (sendMessage fr message) = 0)
      ∧ (∀ p ∈ sendMessage fr message, p.message = message)
      ∧ (fr.parent = fr.self → fr.top = fr.self → sendMessage fr message = []) := by
  obtain ⟨s, p, t⟩ := fr
  refine ⟨rfl, ?_, ?_, ?_, ?_, ?_, ?_, ?_⟩
  · intro hp
    simp only [ne_eq] at hp
    by_cases ht : t ≠ s ∧ t ≠ p
    · simp [sendMessage, copiesTo, hp, ht.1, ht.2]
    · simp [sendMessage, copiesTo, hp, ht]
  · intro ht
    simp only [ne_eq] at ht
    by_cases hp : p = s
    · subst hp
      simp [sendMessage, copiesTo, ht]
    · by_cases htp : t = p
      · subst htp
        simp [sendMessage, copiesTo, hp]
      · have : ¬ p = t := fun h => htp h.symm
        simp [sendMessage, copiesTo, hp, ht, htp, this]
  · by_cases hp : p = s <;> by_cases ht : t = s <;> by_cases htp : t = p <;>
      simp_all [sendMessage, copiesTo]
  · intro f
    by_cases hp : p = s <;> by_cases ht : t = s <;> by_cases htp : t = p <;>
      by_cases hfp : p = f <;> by_cases hft : t = f <;>
      simp_all [sendMessage, copiesTo]
  · intro f hfp hft
    simp only [ne_eq] at hfp hft
    have h1 : ¬ p = f := fun h => hfp h.symm
    have h2 : ¬ t = f := fun h => hft h.symm
    by_cases hp : p = s <;> by_cases ht : t = s <;> by_cases htp : t = p <;>
      simp_all [sendMessage, copiesTo]
  · intro q hq
    simp only [sendMessage, List.mem_append] at hq
    rcases hq with hq | hq
    · split at hq
      · rw [List.mem_singleton.mp hq]
      · simp at hq
    · split at hq
      · rw [List.mem_singleton.mp hq]
      · simp at hq
  · intro hp ht
    simp only at hp ht
    subst hp; subst ht
    simp [sendMessage]

/-- C21 at a game frame nested two levels deep (window 2, parent 1, top 0) and at
a game frame embedded directly in the top page (window 1, parent 0, top 0): two
posts in the first case, one in the second. -/
theorem sendMessage_delivery_witness :
    (copiesTo 1 (sendMessage { self := 2, parent := 1, top := 0 }
          (Message.scoreUpdate (some "pool") 7 100)) = 1
        ∧ copiesTo 0 (sendMessage { self := 2, parent := 1, top := 0 }
          (Message.scoreUpdate (some "pool") 7 100)) = 1)
      ∧ copiesTo 0 (sendMessage { self := 1, parent := 0, top := 0 }
          (Message.scoreUpdate (some "pool") 7 100)) = 1
      ∧ sendMessage { self := 0, parent := 0, top := 0 }
          (Message.scoreUpdate (some "pool") 7 100) = [] :=
  ⟨⟨(sendMessage_delivery { self := 2, parent := 1, top := 0 } _).2.1 (by decide),
      (sendMessage_delivery { self := 2, parent := 1, top := 0 } _).2.2.1 (by decide)⟩,
    (sendMessage_delivery { self := 1, parent := 0, top := 0 } _).2.1 (by decide),
    (sendMessage_delivery { self := 0, parent := 0, top := 0 } _).2.2.2.2.2.2.2 rfl rfl⟩


/-- From an active bridge whose latch is unset, a sequence of calls without
`reset` that contains an explicit end signal emits exactly one `gameEnd`. -/
theorem run_armed_count (b : Bridge) (evs : List (Event × (Nat → Int)))
    (ha : b.isGameActive = true) (hs : b._gameEndSent = false)
    (hr : ∀ p ∈ evs, p.1 ≠ Event.reset)
    (hend : ∃ p ∈ evs, p.1.isEndSignal = true) :
    countGameEnd (run b evs).2 = 1 := by
  induction evs generalizing b with
  | nil => obtain ⟨p, hp, _⟩ := hend; simp at hp
  | cons p rest ih =>
    obtain ⟨e, clock⟩ := p
    have hr1 : e ≠ Event.reset := hr (e, clock) (List.mem_cons_self _ _)
    have hr2 : ∀ q ∈ rest, q.1 ≠ Event.reset := fun q hq => hr q (List.mem_cons_of_mem _ hq)
    rcases step_armed b clock e ha hs hr1 with ⟨hne, ha1, hs1, hc⟩ | ⟨hs1, hc⟩
    · have hend2 : ∃ q ∈ rest, q.1.isEndSignal = true := by
        obtain ⟨q, hq, hqe⟩ := hend
        rcases List.mem_cons.mp hq with rfl | hq
        · simp [hne] at hqe
        · exact ⟨q, hq, hqe⟩
      have h2 := ih (step b clock e).1 ha1 hs1 hr2 hend2
      simp only [run, countGameEnd_append, hc, h2]
    · have h2 := run_latched (step b clock e).1 rest hs1 hr2
      simp only [run, countGameEnd_append, hc, h2]

/-- C22 (replay reset): for every bridge state, `reset()` emits no message and
leaves `currentScore = 0`, `isGameActive = true` and `_gameEndSent = false`, with
`sessionId`, `nonce` and `gameId` unchanged.  Consequently an end signal right
after the reset emits a `gameEnd` (with score 0 and the duration counted from the
reset), and every sequence of calls without a further `reset` that contains an
end signal emits exactly one `gameEnd`, whether or not one had been emitted
before the reset. -/
theorem reset_replay (b : Bridge) (clock : Nat → Int) :
    (reset b clock).2 = []
      ∧ (reset b clock).1.currentScore = 0
      ∧ (reset b clock).1.isGameActive = true
      ∧ (reset b clock).1._gameEndSent = false
      ∧ (reset b clock).1.sessionId = b.sessionId
      ∧ (reset b clock).1.nonce = b.nonce
      ∧ (reset b clock).1.gameId = b.gameId
      ∧ (∀ c2 : Nat → Int, (onGameEnd (reset b clock).1 c2).2
          = [Message.gameEnd b.gameId 0 (Int.fdiv (c2 0 - clock 0) 1000) b.sessionId (c2 1)])
      ∧ (∀ evs : List (Event × (Nat → Int)),
          (∀ p ∈ evs, p.1 ≠ Event.reset) → (∃ p ∈ evs, p.1.isEndSignal = true) →
          countGameEnd (run (reset b clock).1 evs).2 = 1) := by
  refine ⟨rfl, rfl, rfl, rfl, rfl, rfl, rfl, ?_, ?_⟩
  · intro c2
    rw [onGameEnd_accept (reset b clock).1 c2 rfl rfl]
    rfl
  · intro evs hr hend
    exact run_armed_count (reset b clock).1 evs rfl rfl hr hend

/-- C22 at a bridge that has already sent its `gameEnd`: after `reset()` at
9000 ms, a score line and `endGame(30)` at 12 500 ms emit a new `gameEnd`, and a
further end signal emits nothing more. -/
theorem reset_replay_witness :
    (endedBridge 120)._gameEndSent = true
      ∧ countGameEnd (run (reset (endedBridge 120) (constClock 9000)).1
          [ (Event.processOutput (.str "score: 9".toList), constClock 10000),
            (Event.endGame (some 30), constClock 12500),
            (Event.onGameEnd, constClock 13000) ]).2 = 1 :=
  ⟨by decide,
    (reset_replay (endedBridge 120) (constClock 9000)).2.2.2.2.2.2.2.2
      [ (Event.processOutput (.str "score: 9".toList), constClock 10000),
        (Event.endGame (some 30), constClock 12500),
        (Event.onGameEnd, constClock 13000) ] (by decide) (by decide)⟩

/-- What a call can do to the session fields: `sessionId`, `nonce` and `gameId`
are never changed, and `startTime` is changed by `reset()` only. -/
theorem step_session_fields (b : Bridge) (clock : Nat → Int) (e : Event) :
    (step b clock e).1.sessionId = b.sessionId
      ∧ (step b clock e).1.nonce = b.nonce
      ∧ (step b clock e).1.gameId = b.gameId
      ∧ (e ≠ Event.reset → (step b clock e).1.startTime = b.startTime) := by
  have hend : ∀ b1 : Bridge, (onGameEnd b1 clock).1.sessionId = b1.sessionId
      ∧ (onGameEnd b1 clock).1.nonce = b1.nonce
      ∧ (onGameEnd b1 clock).1.gameId = b1.gameId
      ∧ (onGameEnd b1 clock).1.startTime = b1.startTime := by
    intro b1
    unfold onGameEnd
    split <;> exact ⟨rfl, rfl, rfl, rfl⟩
  cases e with
  | processOutput message =>
    have hstep : step b clock (Event.processOutput message)
        = _processOutput b clock message := rfl
    rcases processOutput_cases b clock message with h | ⟨n, h⟩ | h
    · rw [hstep, h]; exact ⟨rfl, rfl, rfl, fun _ => rfl⟩
    · rw [hstep, h]; exact ⟨rfl, rfl, rfl, fun _ => rfl⟩
    · rw [hstep, h]
      exact ⟨(hend b).1, (hend b).2.1, (hend b).2.2.1, fun _ => (hend b).2.2.2⟩
  | updateScore score => exact ⟨rfl, rfl, rfl, fun _ => rfl⟩
  | endGame finalScore =>
    cases finalScore with
    | none => exact ⟨(hend b).1, (hend b).2.1, (hend b).2.2.1, fun _ => (hend b).2.2.2⟩
    | some f =>
      have h := hend { b with currentScore := f }
      exact ⟨h.1, h.2.1, h.2.2.1, fun _ => h.2.2.2⟩
  | onGameEnd => exact ⟨(hend b).1, (hend b).2.1, (hend b).2.2.1, fun _ => (hend b).2.2.2⟩
  | reset => exact ⟨rfl, rfl, rfl, fun h => absurd rfl h⟩

/-- C23, the claim as stated fails: `reset()` called at 9000 ms on a bridge
created at 0 ms sets `startTime` to 9000. -/
theorem session_immutability_counterexample :
    (activeBridge 5).startTime = 0
      ∧ (reset (activeBridge 5) (constClock 9000)).1.startTime = 9000
      ∧ (step (activeBridge 5) (constClock 9000) Event.reset).1.startTime
          ≠ (activeBridge 5).startTime := by
  decide

/-- C23, amended: no bridge operation (`_processOutput`, `onScoreUpdate`,
`updateScore`, `onGameEnd`, `endGame`, `reset`; `sendMessage` does not write to
the bridge at all) changes `sessionId`, `nonce` or `gameId`, and none but
`reset()` changes `startTime`; `reset()` sets `startTime` to the time of the
call, so that the duration of a replay is counted from the reset. -/
theorem session_immutability (b : Bridge) (clock : Nat → Int) (e : Event) :
    (step b clock e).1.sessionId = b.sessionId
      ∧ (step b clock e).1.nonce = b.nonce
      ∧ (step b clock e).1.gameId = b.gameId
      ∧ (e ≠ Event.reset → (step b clock e).1.startTime = b.startTime)
      ∧ (step b clock Event.reset).1.startTime = clock 0
      ∧ (∀ score, (onScoreUpdate b clock score).1.sessionId = b.sessionId
          ∧ (onScoreUpdate b clock score).1.nonce = b.nonce
          ∧ (onScoreUpdate b clock score).1.gameId = b.gameId
          ∧ (onScoreUpdate b clock score).1.startTime = b.startTime) :=
  ⟨(step_session_fields b clock e).1, (step_session_fields b clock e).2.1,
    (step_session_fields b clock e).2.2.1, (step_session_fields b clock e).2.2.2,
    rfl, fun _ => ⟨rfl, rfl, rfl, rfl⟩⟩

/-- C23 amended, at an active bridge: the line `game over` ends the game and
keeps the start time, `reset()` at 9000 ms moves it to 9000. -/
theorem session_immutability_witness :
    (step (activeBridge 5) (constClock 7000)
        (Event.processOutput (.str "game over".toList))).1.startTime = 0
      ∧ (step (activeBridge 5) (constClock 9000) Event.reset).1.startTime = 9000 :=
  ⟨(session_immutability (activeBridge 5) (constClock 7000)
      (Event.processOutput (.str "game over".toList))).2.2.2.1 (by decide),
    (session_immutability (activeBridge 5) (constClock 9000) Event.reset).2.2.2.2.1⟩


/-! ## The game registry and `formatNumber` -/

/-- C30, the code at the failing input: of the five entries of `games`, the
first four have a well-formed UUID and the entry `8ball-pool` has not: its
`uuid` is `a1b2c3d4-5e6f-7g8h-9i0j-1k2l3m4n5o6p`, whose third, fourth and fifth
groups contain the letters g to p, which are not hexadecimal digits. -/
theorem games_uuid_not_all_wellFormed :
    games.map (fun g => (g.id, isWellFormedUuid g.uuid))
        = [ ("neon-sky-runner", true), ("tilenova", true), ("flappy", true),
            ("sudoku", true), ("8ball-pool", false) ]
      ∧ isHexDigit (Char.ofNat 103) = false
      ∧ ¬ (∀ g ∈ games, isWellFormedUuid g.uuid = true) := by
  decide

/-- C29, the code at the failing input: `formatNumber(999999)` is `1000.0K`,
whichever way a tie would be broken, so the numeric part of a result with the
unit `K` is not always below 1000; from 1 000 000 on the unit is `M`
(`1.0M`), and 999 949 still gives `999.9K`. -/
theorem formatNumber_rounds_up_to_1000K (tieUp : Bool) :
    formatNumber 999999 tieUp = "1000.0K".toList
      ∧ formatNumber 999949 tieUp = "999.9K".toList
      ∧ formatNumber 1000000 tieUp = "1.0M".toList
      ∧ formatNumber 1000 tieUp = "1.0K".toList
      ∧ formatNumber 999 tieUp = "999".toList := by
  cases tieUp <;> norm_num [formatNumber, toFixed1, decimal]


/-- Away from the top of the range the unit `K` is consistent: for
`1000 ≤ n < 999950` the result is a number of tenths between 10 and 9999, the
nearest to `n / 1000`, written with one decimal and followed by `K`; below 1000
the result is the decimal numeral of `n`. -/
theorem formatNumber_below_rounding_edge (n : Nat) (tieUp : Bool) :
    (1000 ≤ n → n < 999950 →
        ∃ tenths, 10 ≤ tenths ∧ tenths < 10000
          ∧ 100 * tenths ≤ n + 50 ∧ n ≤ 100 * tenths + 50
          ∧ formatNumber n tieUp
              = decimal (tenths / 10) ++ [Char.ofNat 46] ++ decimal (tenths % 10)
                ++ "K".toList)
      ∧ (n < 1000 → formatNumber n tieUp = decimal n) := by
  constructor
  · intro h1 h2
    have hM : ¬ n ≥ 1000000 := by omega
    simp only [formatNumber, hM, if_false, h1, ge_iff_le, if_true, toFixed1]
    by_cases htie : 10 * n % 1000 * 2 = 1000
    · cases tieUp
      · refine ⟨10 * n / 1000, by omega, by omega, by omega, by omega, ?_⟩
        simp [htie]
      · refine ⟨10 * n / 1000 + 1, by omega, by omega, by omega, by omega, ?_⟩
        simp [htie]
    · refine ⟨(10 * n * 2 + 1000) / (2 * 1000), by omega, by omega, by omega, by omega, ?_⟩
      simp [htie]
  · intro h
    have hM : ¬ n ≥ 1000000 := by omega
    have hK : ¬ n ≥ 1000 := by omega
    simp only [formatNumber, hM, hK, if_false]


/-! ## The Sudoku progress counter -/

/-- C28, the code at the failing input: in a 4×4 game with eight given cells the
counter starts right (`filledCells = 8`, the number of non-zero cells), and a
number placed in the selected empty cell, or cleared again, keeps it right; but a
second number placed in the same cell raises `filledCells` to 10 while the grid
has 9 non-zero cells, because `placeNumber` increments the counter without
looking at the cell (`clearCell` does look).  After nine presses `filledCells`
is 17, above `totalCells = 16`, and the percentage shown is 106. -/
theorem filledCells_overcounts_overwrites :
    (sudokuStart.selectedCell = some (0, 0) ∧ sudokuStart.totalCells = 16
        ∧ sudokuStart.filledCells = 8 ∧ countNonZero sudokuStart.playerGrid = 8)
      ∧ ((pressNumbers sudokuStart [1]).filledCells = 9
        ∧ countNonZero (pressNumbers sudokuStart [1]).playerGrid = 9)
      ∧ ((clearCell (pressNumbers sudokuStart [1])).filledCells = 8
        ∧ countNonZero (clearCell (pressNumbers sudokuStart [1])).playerGrid = 8)
      ∧ ((pressNumbers sudokuStart [1, 3]).filledCells = 10
        ∧ countNonZero (pressNumbers sudokuStart [1, 3]).playerGrid = 9)
      ∧ ((pressNumbers sudokuStart [1, 3, 1, 3, 1, 3, 1, 3, 1]).filledCells = 17
        ∧ (pressNumbers sudokuStart [1, 3, 1, 3, 1, 3, 1, 3, 1]).totalCells = 16
        ∧ progressPercentage (pressNumbers sudokuStart [1, 3, 1, 3, 1, 3, 1, 3, 1]) = 106) := by
  decide

/-- Whatever the grid, a number placed on a selected cell adds one to the
counter, and a second number placed on the same cell adds one more. -/
theorem placeNumber_twice (s : GameScene) (row col a b : Nat)
    (hsel : s.selectedCell = some (row, col)) :
    (placeNumber (placeNumber s a) b).filledCells = s.filledCells + 2
      ∧ (placeNumber (placeNumber s a) b).playerGrid
          = setCell (setCell s.playerGrid row col a) row col b := by
  simp only [placeNumber, hsel]
  constructor
  · omega
  · trivial


/-! ## Keywords and phrases in any letter case -/

/-- A character that folds to an upper-case ASCII letter is a letter: it is a
word character and is neither white space, a separator, a dash, a digit nor an
opening bracket. -/
theorem canon_letter (c : Char) (h1 : 65 ≤ canonicalize c) (h2 : canonicalize c ≤ 90) :
    isWordChar c = true ∧ isSpace c = false ∧ isSep c = false
      ∧ isDashOrUnderscore c = false ∧ isDigit c = false ∧ c.toNat ≠ 91 := by
  have hc : (65 ≤ c.toNat ∧ c.toNat ≤ 90) ∨ (97 ≤ c.toNat ∧ c.toNat ≤ 122) := by
    unfold canonicalize at h1 h2
    split at h1
    · right; assumption
    · left
      rw [if_neg (by assumption)] at h2
      exact ⟨h1, h2⟩
  refine ⟨?_, ?_, ?_, ?_, ?_, ?_⟩
  · simp only [isWordChar, isDigit, Bool.or_eq_true, Bool.and_eq_true, decide_eq_true_eq]
    omega
  · simp only [isSpace, Bool.or_eq_false_iff, Bool.and_eq_false_iff, decide_eq_false_iff_not]
    omega
  · simp only [isSep, isSpace, Bool.or_eq_false_iff, Bool.and_eq_false_iff,
      decide_eq_false_iff_not]
    omega
  · simp only [isDashOrUnderscore, Bool.or_eq_false_iff, decide_eq_false_iff_not]
    omega
  · simp only [isDigit, Bool.and_eq_false_iff, decide_eq_false_iff_not]
    omega
  · omega

/-- A separator character does not fold to a letter. -/
theorem canon_sep (c : Char) (h : isSep c = true) :
    ¬ (65 ≤ canonicalize c ∧ canonicalize c ≤ 90) ∧ c.toNat ≠ 91 := by
  simp only [isSep, isSpace, Bool.or_eq_true, Bool.and_eq_true, decide_eq_true_eq] at h
  unfold canonicalize
  constructor
  · split <;> omega
  · omega

/-- A literal matches every text that begins with a letter-case variant of it. -/
theorem matchLit_variant (lit q rest : List Char)
    (h : q.map canonicalize = lit.map canonicalize) :
    matchLit lit (q ++ rest) = some rest := by
  induction lit generalizing q with
  | nil =>
    have : q = [] := by simpa using h
    subst this
    rfl
  | cons p ps ih =>
    cases q with
    | nil => simp at h
    | cons c cs =>
      simp only [List.map_cons, List.cons.injEq] at h
      simp only [List.cons_append, matchLit, h.1, if_true]
      exact ih cs h.2

theorem mem_variant (K V : List Char) (h : V.map canonicalize = K.map canonicalize)
    (c : Char) (hc : c ∈ V) : canonicalize c ∈ K.map canonicalize := by
  rw [← h]
  exact List.mem_map_of_mem _ hc

/-- The head of a variant of a non-empty literal folds like the head of the
literal. -/
theorem variant_cons (k : Char) (ks V : List Char)
    (h : V.map canonicalize = (k :: ks).map canonicalize) :
    ∃ c cs, V = c :: cs ∧ canonicalize c = canonicalize k
      ∧ cs.map canonicalize = ks.map canonicalize := by
  cases V with
  | nil => simp at h
  | cons c cs =>
    simp only [List.map_cons, List.cons.injEq] at h
    exact ⟨c, cs, rfl, h.1, h.2⟩

/-- If a match of the expression starts somewhere in the line, the test
succeeds. -/
theorem testEndPhrase_of_suffix (pre s : List Char) (h : endPhraseAt s = true) :
    testEndPhrase (pre ++ s) = true := by
  induction pre with
  | nil =>
    cases s with
    | nil => exact h
    | cons c cs => simp [testEndPhrase, h]
  | cons c cs ih => simp [testEndPhrase, ih]


/-- A variant of two words with one character between them splits into a variant
of the first word, a character that folds like the one between, and a variant of
the second word. -/
theorem variant_two_words (w1 w2 q : List Char) (g : Char)
    (h : q.map canonicalize = (w1 ++ g :: w2).map canonicalize) :
    ∃ q1 c q2, q = q1 ++ c :: q2 ∧ q1.map canonicalize = w1.map canonicalize
      ∧ canonicalize c = canonicalize g ∧ q2.map canonicalize = w2.map canonicalize := by
  rw [List.map_append] at h
  obtain ⟨q1, r, rfl, h1, h2⟩ := List.map_eq_append_iff.mp h
  obtain ⟨c, q2, rfl, hc, h3⟩ := variant_cons g w2 r h2
  exact ⟨q1, c, q2, rfl, h1, hc, h3⟩

/-- A text that begins with a variant of a word starting with a letter is not
eaten by a white-space or dash skip. -/
theorem skip_variant (k : Char) (ks q post : List Char)
    (hk1 : 65 ≤ canonicalize k) (hk2 : canonicalize k ≤ 90)
    (h : q.map canonicalize = (k :: ks).map canonicalize) :
    (q ++ post).dropWhile isSpace = q ++ post ∧ skipOptDash (q ++ post) = q ++ post := by
  obtain ⟨c, cs, rfl, hc, _⟩ := variant_cons k ks q h
  have hl := canon_letter c (by omega) (by omega)
  constructor
  · simp [List.dropWhile_cons, hl.2.1]
  · simp [skipOptDash, hl.2.2.2.1]

theorem canon_eq_space (c : Char) (h : canonicalize c = canonicalize (Char.ofNat 32)) :
    isSpace c = true := by
  have e : canonicalize (Char.ofNat 32) = 32 := by decide
  rw [e] at h
  unfold canonicalize at h
  have : c.toNat = 32 := by
    split at h <;> omega
  simp [isSpace, this]

theorem canon_eq_dash (c : Char) (h : canonicalize c = canonicalize (Char.ofNat 45)) :
    isSpace c = false ∧ isDashOrUnderscore c = true := by
  have e : canonicalize (Char.ofNat 45) = 45 := by decide
  rw [e] at h
  unfold canonicalize at h
  have : c.toNat = 45 := by
    split at h <;> omega
  simp [isSpace, isDashOrUnderscore, this]

/-- Alternative `game\s*[-_]?\s*over` matches a variant of `game`, one blank or
one dash, and a variant of `over`. -/
theorem altGameOver_variant (q1 q2 post : List Char) (c : Char)
    (h1 : q1.map canonicalize = "game".toList.map canonicalize)
    (h2 : q2.map canonicalize = "over".toList.map canonicalize)
    (hc : canonicalize c = canonicalize (Char.ofNat 32)
      ∨ canonicalize c = canonicalize (Char.ofNat 45)) :
    altGameOver (q1 ++ c :: q2 ++ post) = true := by
  have hskip := skip_variant (Char.ofNat 111) "ver".toList q2 post (by decide) (by decide) h2
  have hm1 : matchLit "game".toList (q1 ++ (c :: (q2 ++ post))) = some (c :: (q2 ++ post)) :=
    matchLit_variant _ _ _ h1
  have hm2 : matchLit "over".toList (q2 ++ post) = some post := matchLit_variant _ _ _ h2
  have hline : q1 ++ c :: q2 ++ post = q1 ++ (c :: (q2 ++ post)) := by simp
  rw [hline]
  unfold altGameOver
  rw [hm1]
  rcases hc with hc | hc
  · have hsp := canon_eq_space c hc
    simp only [List.dropWhile_cons, hsp, if_true, hskip.1, hskip.2, hm2, Option.isSome_some]
  · have hd := canon_eq_dash c hc
    simp only [List.dropWhile_cons, hd.1, Bool.false_eq_true, if_false, skipOptDash, hd.2,
      if_true, hskip.1, hm2, Option.isSome_some]

/-- Alternatives `you\s+lose` and `you\s+lost` match a variant of `you`, a blank
and a variant of the last word. -/
theorem altYou_variant (last q1 q2 post : List Char) (c k : Char) (ks : List Char)
    (hlast : last = k :: ks) (hk1 : 65 ≤ canonicalize k) (hk2 : canonicalize k ≤ 90)
    (h1 : q1.map canonicalize = "you".toList.map canonicalize)
    (h2 : q2.map canonicalize = last.map canonicalize)
    (hc : canonicalize c = canonicalize (Char.ofNat 32)) :
    altYou last (q1 ++ c :: q2 ++ post) = true := by
  subst hlast
  have hskip := skip_variant k ks q2 post hk1 hk2 h2
  have hm1 : matchLit "you".toList (q1 ++ (c :: (q2 ++ post))) = some (c :: (q2 ++ post)) :=
    matchLit_variant _ _ _ h1
  have hm2 : matchLit (k :: ks) (q2 ++ post) = some post := matchLit_variant _ _ _ h2
  have hline : q1 ++ c :: q2 ++ post = q1 ++ (c :: (q2 ++ post)) := by simp
  rw [hline]
  unfold altYou
  rw [hm1]
  simp only [skipSpaces1, canon_eq_space c hc, if_true, hskip.1, hm2, Option.isSome_some]

/-- Alternatives `game\s*end` and `level\s*complete` match a variant of the first
word, a blank and a variant of the second word. -/
theorem altTwoWords_variant (first second q1 q2 post : List Char) (c k : Char)
    (ks : List Char)
    (hsecond : second = k :: ks) (hk1 : 65 ≤ canonicalize k) (hk2 : canonicalize k ≤ 90)
    (h1 : q1.map canonicalize = first.map canonicalize)
    (h2 : q2.map canonicalize = second.map canonicalize)
    (hc : canonicalize c = canonicalize (Char.ofNat 32)) :
    altTwoWords first second (q1 ++ c :: q2 ++ post) = true := by
  subst hsecond
  have hskip := skip_variant k ks q2 post hk1 hk2 h2
  have hm1 : matchLit first (q1 ++ (c :: (q2 ++ post))) = some (c :: (q2 ++ post)) :=
    matchLit_variant _ _ _ h1
  have hm2 : matchLit (k :: ks) (q2 ++ post) = some post := matchLit_variant _ _ _ h2
  have hline : q1 ++ c :: q2 ++ post = q1 ++ (c :: (q2 ++ post)) := by simp
  rw [hline]
  unfold altTwoWords
  rw [hm1]
  simp only [List.dropWhile_cons, canon_eq_space c hc, if_true, hskip.1, hm2,
    Option.isSome_some]


/-- Every letter-case variant of each of the ten end phrases is matched by the
game-over expression at its first character. -/
theorem endPhraseAt_variant (p q post : List Char) (hp : p ∈ endPhrases)
    (hq : q.map canonicalize = p.map canonicalize) :
    endPhraseAt (q ++ post) = true := by
  have hor : ∀ a b c d e f g h i : Bool,
      (a = true ∨ b = true ∨ c = true ∨ d = true ∨ e = true ∨ f = true ∨ g = true
        ∨ h = true ∨ i = true) → (a || b || c || d || e || f || g || h || i) = true := by
    intro a b c d e f g h i hh
    simp only [Bool.or_eq_true]
    tauto
  unfold endPhraseAt
  apply hor
  simp only [endPhrases, List.mem_cons, List.mem_singleton, List.not_mem_nil, or_false] at hp
  rcases hp with rfl | rfl | rfl | rfl | rfl | rfl | rfl | rfl | rfl | rfl
  · -- game over
    obtain ⟨q1, c, q2, rfl, h1, hc, h2⟩ :=
      variant_two_words "game".toList "over".toList q (Char.ofNat 32) hq
    exact Or.inl (altGameOver_variant q1 q2 post c h1 h2 (Or.inl hc))
  · -- game-over
    obtain ⟨q1, c, q2, rfl, h1, hc, h2⟩ :=
      variant_two_words "game".toList "over".toList q (Char.ofNat 45) hq
    exact Or.inl (altGameOver_variant q1 q2 post c h1 h2 (Or.inr hc))
  · -- died
    right; left
    rw [matchLit_variant _ _ _ hq]; rfl
  · -- finished
    right; right; left
    rw [matchLit_variant _ _ _ hq]; rfl
  · -- gameover
    right; right; right; left
    rw [matchLit_variant _ _ _ hq]; rfl
  · -- you lose
    obtain ⟨q1, c, q2, rfl, h1, hc, h2⟩ :=
      variant_two_words "you".toList "lose".toList q (Char.ofNat 32) hq
    right; right; right; right; left
    exact altYou_variant "lose".toList q1 q2 post c (Char.ofNat 108) "ose".toList rfl
      (by decide) (by decide) h1 h2 hc
  · -- you lost
    obtain ⟨q1, c, q2, rfl, h1, hc, h2⟩ :=
      variant_two_words "you".toList "lost".toList q (Char.ofNat 32) hq
    right; right; right; right; right; left
    exact altYou_variant "lost".toList q1 q2 post c (Char.ofNat 108) "ost".toList rfl
      (by decide) (by decide) h1 h2 hc
  · -- defeat
    right; right; right; right; right; right; left
    rw [matchLit_variant _ _ _ hq]; rfl
  · -- game end
    obtain ⟨q1, c, q2, rfl, h1, hc, h2⟩ :=
      variant_two_words "game".toList "end".toList q (Char.ofNat 32) hq
    right; right; right; right; right; right; right; left
    exact altTwoWords_variant "game".toList "end".toList q1 q2 post c (Char.ofNat 101)
      "nd".toList rfl (by decide) (by decide) h1 h2 hc
  · -- level complete
    obtain ⟨q1, c, q2, rfl, h1, hc, h2⟩ :=
      variant_two_words "level".toList "complete".toList q (Char.ofNat 32) hq
    right; right; right; right; right; right; right; right
    exact altTwoWords_variant "level".toList "complete".toList q1 q2 post c (Char.ofNat 99)
      "omplete".toList rfl (by decide) (by decide) h1 h2 hc

/-- C24 (end-phrase table): for each of the ten phrases `p` of the table and for
every line that contains `p` as a substring in any letter case, does not contain
the marker `[Ginix Bridge]` and is matched by none of the five score matchers,
`_processOutput` is the call `onGameEnd()`, whatever the state of the bridge; on
an active bridge whose latch is unset it therefore emits exactly one message, a
`gameEnd` carrying `currentScore`. -/
theorem end_phrase_table (b : Bridge) (clock : Nat → Int) (p q pre post : List Char)
    (hp : p ∈ endPhrases) (hq : q.map canonicalize = p.map canonicalize)
    (hm : ¬ ∃ pre2 post2, pre ++ q ++ post = pre2 ++ marker ++ post2)
    (hs : anyScoreMatcher (pre ++ q ++ post) = false) :
    testEndPhrase (pre ++ q ++ post) = true
      ∧ _processOutput b clock (.str (pre ++ q ++ post)) = onGameEnd b clock
      ∧ (b.isGameActive = true → b._gameEndSent = false →
          (_processOutput b clock (.str (pre ++ q ++ post))).2
            = [Message.gameEnd b.gameId b.currentScore
                (Int.fdiv (clock 0 - b.startTime) 1000) b.sessionId (clock 1)]) := by
  have hidx : indexOf (pre ++ q ++ post) marker = -1 := by
    by_contra h
    exact hm ((indexOf_marker_iff _).mp h)
  have hend : testEndPhrase (pre ++ q ++ post) = true := by
    rw [List.append_assoc]
    exact testEndPhrase_of_suffix pre (q ++ post) (endPhraseAt_variant p q post hp hq)
  have hout : _processOutput b clock (.str (pre ++ q ++ post)) = onGameEnd b clock := by
    rw [processOutput_no_score b clock _ hidx hs, hend]
    rfl
  refine ⟨hend, hout, ?_⟩
  intro ha hsent
  rw [hout, onGameEnd_accept b clock ha hsent]

/-- C24 at the phrase `you lose` in the spelling `You Lose` inside the longer
line `Oh no: You Lose again!`, on an active bridge with score 12: the game ends
with score 12. -/
theorem end_phrase_table_witness :
    (_processOutput (activeBridge 12) (constClock 5000)
        (.str ("Oh no: ".toList ++ "You Lose".toList ++ " again!".toList))).2
      = [Message.gameEnd (some "game-1") 12 5 (some "session-1") 5000] :=
  (end_phrase_table (activeBridge 12) (constClock 5000) "you lose".toList "You Lose".toList
    "Oh no: ".toList " again!".toList (by decide) (by decide)
    (fun h => absurd ((indexOf_marker_iff _).mpr h) (by decide)) (by decide)).2.2 rfl rfl


/-! ## The score matchers on their canonical forms -/

theorem isSpace_isSep (c : Char) (h : isSpace c = true) : isSep c = true := by
  simp [isSep, h]

theorem isSpace_not_isDigit (c : Char) (h : isSpace c = true) : isDigit c = false := by
  cases hd : isDigit c with
  | false => rfl
  | true => rw [isDigit_not_isSpace c hd] at h; exact absurd h (by simp)

theorem takeWhile_append_all (p : Char → Bool) (a b : List Char)
    (h : ∀ x ∈ a, p x = true) : (a ++ b).takeWhile p = a ++ b.takeWhile p := by
  induction a with
  | nil => rfl
  | cons x xs ih =>
    have hx : p x = true := h x (List.mem_cons_self _ _)
    simp only [List.cons_append, List.takeWhile_cons, hx, if_true]
    rw [ih (fun y hy => h y (List.mem_cons_of_mem _ hy))]

theorem takeWhile_head_neg (p : Char → Bool) (l : List Char)
    (h : ∀ x, l.head? = some x → p x = false) : l.takeWhile p = [] := by
  cases l with
  | nil => rfl
  | cons x xs => simp [List.takeWhile_cons, h x rfl]

theorem search_cons_none (kw : List Char) (prev : Option Char) (c : Char) (cs : List Char)
    (h : keywordNumberAt kw prev (c :: cs) = none) :
    searchKeywordNumber kw prev (c :: cs) = searchKeywordNumber kw (some c) cs := by
  rw [searchKeywordNumber, h]

theorem keywordNumberAt_second_ne (p p2 : Char) (ps : List Char) (prev : Option Char)
    (c c2 : Char) (cs : List Char) (h : canonicalize c2 ≠ canonicalize p2) :
    keywordNumberAt (p :: p2 :: ps) prev (c :: c2 :: cs) = none := by
  unfold keywordNumberAt
  simp [matchLit, h]

/-- The keyword pattern matches at the start of a line that consists of a
letter-case variant of the keyword, one or more separators and a run of digits,
and it captures the run. -/
theorem searchKeywordNumber_variant (k : Char) (ks V seps ds : List Char) (sp : Char)
    (hk1 : 65 ≤ canonicalize k) (hk2 : canonicalize k ≤ 90)
    (hV : V.map canonicalize = (k :: ks).map canonicalize)
    (hsp : isSep sp = true) (hseps : ∀ c ∈ seps, isSep c = true)
    (hne : ds ≠ []) (hd : ∀ c ∈ ds, isDigit c = true) :
    searchKeywordNumber (k :: ks) none (V ++ sp :: seps ++ ds) = some ds := by
  have hm : matchLit (k :: ks) (V ++ (sp :: (seps ++ ds))) = some (sp :: (seps ++ ds)) :=
    matchLit_variant _ _ _ hV
  obtain ⟨c, cs, rfl, hc, _⟩ := variant_cons k ks V hV
  have hl := canon_letter c (by omega) (by omega)
  have hdrop : (seps ++ ds).dropWhile isSep = ds := by
    rw [dropWhile_append_all isSep seps ds hseps]
    exact dropWhile_head_neg isSep ds (fun x hx =>
      isDigit_not_isSep x (hd x (List.mem_of_mem_head? hx)))
  have htake : ds.takeWhile isDigit = ds := List.takeWhile_eq_self_iff.mpr hd
  have hemp : ds.isEmpty = false := by
    cases ds with
    | nil => exact absurd rfl hne
    | cons x xs => rfl
  have hline : c :: cs ++ sp :: seps ++ ds = c :: (cs ++ (sp :: (seps ++ ds))) := by simp
  have hat : keywordNumberAt (k :: ks) none (c :: (cs ++ (sp :: (seps ++ ds)))) = some ds := by
    unfold keywordNumberAt
    have hwb : wordBoundary none (c :: (cs ++ (sp :: (seps ++ ds)))) = true := by
      simp [wordBoundary, hl.1]
    rw [if_pos hwb]
    have hm2 : matchLit (k :: ks) (c :: (cs ++ (sp :: (seps ++ ds))))
        = some (sp :: (seps ++ ds)) := by simpa using hm
    rw [hm2]
    simp only [hsp, if_true, List.dropWhile_cons, hdrop, htake, hemp, Bool.false_eq_true,
      if_false]
  rw [hline, searchKeywordNumber, hat]

/-- A keyword whose first letter occurs nowhere in the other keyword is not found
in a line made of a variant of that other keyword, separators and digits. -/
theorem searchKeywordNumber_other (p : Char) (ps K V seps ds : List Char)
    (hp1 : 65 ≤ canonicalize p) (hp2 : canonicalize p ≤ 90)
    (hK : ∀ x ∈ K.map canonicalize, x ≠ canonicalize p)
    (hV : V.map canonicalize = K.map canonicalize)
    (hseps : ∀ c ∈ seps, isSep c = true) (hd : ∀ c ∈ ds, isDigit c = true)
    (prev : Option Char) :
    searchKeywordNumber (p :: ps) prev (V ++ seps ++ ds) = none := by
  apply searchKeywordNumber_first_absent
  intro c hc
  rcases List.mem_append.mp hc with h | h
  · rcases List.mem_append.mp h with h | h
    · exact hK _ (mem_variant K V hV c h)
    · have := (canon_sep c (hseps c h)).1
      omega
  · have := canonicalize_digit c (hd c h)
    omega

/-- The score matcher is not fooled by the final `s` of `points`. -/
theorem matchScore_points (V seps ds : List Char) (sp : Char)
    (hV : V.map canonicalize = "points".toList.map canonicalize)
    (hsp : isSep sp = true) (hseps : ∀ c ∈ seps, isSep c = true)
    (hd : ∀ c ∈ ds, isDigit c = true) :
    matchScore (V ++ sp :: seps ++ ds) = none := by
  have hcanon : "points".toList.map canonicalize = [80, 79, 73, 78, 84, 83] := by decide
  rw [hcanon] at hV
  simp only [List.map_eq_cons_iff, List.map_eq_nil_iff] at hV
  obtain ⟨c1, _, rfl, h1, c2, _, rfl, h2, c3, _, rfl, h3, c4, _, rfl, h4,
    c5, _, rfl, h5, c6, _, rfl, h6, rfl⟩ := hV
  have hS : canonicalize (Char.ofNat 115) = 83 := by decide
  have hC : canonicalize (Char.ofNat 99) = 67 := by decide
  have hspc := (canon_sep sp hsp).1
  show searchKeywordNumber (Char.ofNat 115 :: Char.ofNat 99 :: "ore".toList) none
    (c1 :: c2 :: c3 :: c4 :: c5 :: c6 :: (sp :: (seps ++ ds))) = none
  rw [search_cons_none _ _ _ _ (keywordNumberAt_first_ne _ _ _ _ _ (by omega)),
    search_cons_none _ _ _ _ (keywordNumberAt_first_ne _ _ _ _ _ (by omega)),
    search_cons_none _ _ _ _ (keywordNumberAt_first_ne _ _ _ _ _ (by omega)),
    search_cons_none _ _ _ _ (keywordNumberAt_first_ne _ _ _ _ _ (by omega)),
    search_cons_none _ _ _ _ (keywordNumberAt_first_ne _ _ _ _ _ (by omega)),
    search_cons_none _ _ _ _ (keywordNumberAt_second_ne _ _ _ _ _ _ _ (by omega))]
  apply searchKeywordNumber_first_absent
  intro c hc
  rcases List.mem_cons.mp hc with rfl | hc
  · omega
  · rcases List.mem_append.mp hc with h | h
    · have := (canon_sep c (hseps c h)).1
      omega
    · have := canonicalize_digit c (hd c h)
      omega


theorem indexOf_no_bracket (s : List Char) (h : ∀ c ∈ s, c.toNat ≠ 91) :
    indexOf s marker = -1 := by
  show indexOfFrom (Char.ofNat 91 :: "Ginix Bridge]".toList) 0 s = -1
  apply indexOfFrom_first_absent
  intro c hc e
  exact h c hc (by rw [e]; decide)

theorem isDigit_ne_bracket (c : Char) (h : isDigit c = true) : c.toNat ≠ 91 := by
  simp only [isDigit, Bool.and_eq_true, decide_eq_true_eq] at h
  omega

/-- A line made of a variant of a score keyword, separators and digits does not
contain the marker. -/
theorem indexOf_keywordLine (K V seps ds : List Char) (hK : K ∈ scoreKeywords)
    (hV : V.map canonicalize = K.map canonicalize)
    (hseps : ∀ c ∈ seps, isSep c = true) (hd : ∀ c ∈ ds, isDigit c = true) :
    indexOf (V ++ seps ++ ds) marker = -1 := by
  have hletters : ∀ x ∈ K.map canonicalize, 65 ≤ x ∧ x ≤ 90 := by
    simp only [scoreKeywords, List.mem_cons, List.mem_singleton, List.not_mem_nil,
      or_false] at hK
    rcases hK with rfl | rfl | rfl | rfl <;> decide
  apply indexOf_no_bracket
  intro c hc
  rcases List.mem_append.mp hc with h | h
  · rcases List.mem_append.mp h with h | h
    · have := hletters _ (mem_variant K V hV c h)
      exact (canon_letter c this.1 this.2).2.2.2.2.2
    · exact (canon_sep c (hseps c h)).2
  · exact isDigit_ne_bracket c (hd c h)

/-- On a line made of a variant of a score keyword, separators and digits, the
first matcher that fires is the one of the keyword, and it captures the digits. -/
theorem firstScoreMatch_keywordLine (K V seps ds : List Char) (hK : K ∈ scoreKeywords)
    (hV : V.map canonicalize = K.map canonicalize)
    (hsne : seps ≠ []) (hseps : ∀ c ∈ seps, isSep c = true)
    (hne : ds ≠ []) (hd : ∀ c ∈ ds, isDigit c = true) :
    firstScoreMatch (V ++ seps ++ ds)
      = some ((toDouble (digitsValue ds) : Nat) : Int) := by
  cases seps with
  | nil => exact absurd rfl hsne
  | cons sp seps =>
    have hsp : isSep sp = true := hseps sp (List.mem_cons_self _ _)
    have hseps2 : ∀ c ∈ seps, isSep c = true := fun c hc => hseps c (List.mem_cons_of_mem _ hc)
    have hparse := parseInt_digits ds hne hd
    simp only [scoreKeywords, List.mem_cons, List.mem_singleton, List.not_mem_nil,
      or_false] at hK
    unfold firstScoreMatch matchBest matchScore matchPoints matchLevel
    rcases hK with rfl | rfl | rfl | rfl
    · rw [show "best".toList = Char.ofNat 98 :: "est".toList from rfl] at hV ⊢
      rw [searchKeywordNumber_variant _ _ V seps ds sp (by decide) (by decide) hV hsp hseps2
        hne hd]
      exact hparse
    · have h1 : searchKeywordNumber "best".toList none (V ++ sp :: seps ++ ds) = none :=
        searchKeywordNumber_other (Char.ofNat 98) "est".toList "score".toList V (sp :: seps) ds
          (by decide) (by decide) (by decide) hV hseps hd none
      rw [h1]
      rw [show "score".toList = Char.ofNat 115 :: "core".toList from rfl] at hV ⊢
      rw [searchKeywordNumber_variant _ _ V seps ds sp (by decide) (by decide) hV hsp hseps2
        hne hd]
      exact hparse
    · have h1 : searchKeywordNumber "best".toList none (V ++ sp :: seps ++ ds) = none :=
        searchKeywordNumber_other (Char.ofNat 98) "est".toList "points".toList V (sp :: seps) ds
          (by decide) (by decide) (by decide) hV hseps hd none
      have h2 : searchKeywordNumber "score".toList none (V ++ sp :: seps ++ ds) = none :=
        matchScore_points V seps ds sp hV hsp hseps2 hd
      rw [h1, h2]
      rw [show "points".toList = Char.ofNat 112 :: "oints".toList from rfl] at hV ⊢
      rw [searchKeywordNumber_variant _ _ V seps ds sp (by decide) (by decide) hV hsp hseps2
        hne hd]
      exact hparse
    · have h1 : searchKeywordNumber "best".toList none (V ++ sp :: seps ++ ds) = none :=
        searchKeywordNumber_other (Char.ofNat 98) "est".toList "level".toList V (sp :: seps) ds
          (by decide) (by decide) (by decide) hV hseps hd none
      have h2 : searchKeywordNumber "score".toList none (V ++ sp :: seps ++ ds) = none :=
        searchKeywordNumber_other (Char.ofNat 115) "core".toList "level".toList V (sp :: seps)
          ds (by decide) (by decide) (by decide) hV hseps hd none
      have h3 : searchKeywordNumber "points".toList none (V ++ sp :: seps ++ ds) = none :=
        searchKeywordNumber_other (Char.ofNat 112) "oints".toList "level".toList V (sp :: seps)
          ds (by decide) (by decide) (by decide) hV hseps hd none
      rw [h1, h2, h3]
      rw [show "level".toList = Char.ofNat 108 :: "evel".toList from rfl] at hV ⊢
      rw [searchKeywordNumber_variant _ _ V seps ds sp (by decide) (by decide) hV hsp hseps2
        hne hd]
      exact hparse


/-- A line made of white space, a run of digits and white space passes the
digits-only test, is matched by no keyword matcher, does not contain the marker,
and its candidate is the double nearest to the value of the run. -/
theorem firstScoreMatch_digitsLine (ws1 ds ws2 : List Char)
    (h1 : ∀ c ∈ ws1, isSpace c = true) (h2 : ∀ c ∈ ws2, isSpace c = true)
    (hne : ds ≠ []) (hd : ∀ c ∈ ds, isDigit c = true) :
    firstScoreMatch (ws1 ++ ds ++ ws2) = some ((toDouble (digitsValue ds) : Nat) : Int)
      ∧ indexOf (ws1 ++ ds ++ ws2) marker = -1 := by
  have hkw : ∀ (p : Char) (ps : List Char), 65 ≤ canonicalize p → canonicalize p ≤ 90 →
      searchKeywordNumber (p :: ps) none (ws1 ++ ds ++ ws2) = none := by
    intro p ps hp1 hp2
    apply searchKeywordNumber_first_absent
    intro c hc
    rcases List.mem_append.mp hc with h | h
    · rcases List.mem_append.mp h with h | h
      · have := (canon_sep c (isSpace_isSep c (h1 c h))).1
        omega
      · have := canonicalize_digit c (hd c h)
        omega
    · have := (canon_sep c (isSpace_isSep c (h2 c h))).1
      omega
  have hdrop1 : (ws1 ++ ds ++ ws2).dropWhile isSpace = ds ++ ws2 := by
    rw [List.append_assoc, dropWhile_append_all isSpace ws1 (ds ++ ws2) h1]
    cases ds with
    | nil => exact absurd rfl hne
    | cons x xs =>
      have := isDigit_not_isSpace x (hd x (List.mem_cons_self _ _))
      simp [List.dropWhile_cons, this]
  have htake : (ds ++ ws2).takeWhile isDigit = ds := by
    rw [takeWhile_append_all isDigit ds ws2 hd,
      takeWhile_head_neg isDigit ws2 (fun x hx =>
        isSpace_not_isDigit x (h2 x (List.mem_of_mem_head? hx))),
      List.append_nil]
  have hdrop2 : (ds ++ ws2).dropWhile isDigit = ws2 := by
    rw [dropWhile_append_all isDigit ds ws2 hd]
    exact dropWhile_head_neg isDigit ws2 (fun x hx =>
      isSpace_not_isDigit x (h2 x (List.mem_of_mem_head? hx)))
  have hdrop3 : ws2.dropWhile isSpace = [] := List.dropWhile_eq_nil_iff.mpr h2
  have hemp : ds.isEmpty = false := by
    cases ds with
    | nil => exact absurd rfl hne
    | cons x xs => rfl
  have htest : testDigitsOnly (ws1 ++ ds ++ ws2) = true := by
    simp only [testDigitsOnly, hdrop1, htake, hdrop2, hdrop3, hemp, Bool.not_false,
      List.isEmpty_nil, Bool.and_self]
  have htrim : trim (ws1 ++ ds ++ ws2) = ds := by
    rw [(trim_digitsOnly _ htest).2.2, hdrop1, htake]
  constructor
  · unfold firstScoreMatch matchBest matchScore matchPoints matchLevel
    rw [show "best".toList = Char.ofNat 98 :: "est".toList from rfl,
      show "score".toList = Char.ofNat 115 :: "core".toList from rfl,
      show "points".toList = Char.ofNat 112 :: "oints".toList from rfl,
      show "level".toList = Char.ofNat 108 :: "evel".toList from rfl,
      hkw _ _ (by decide) (by decide), hkw _ _ (by decide) (by decide),
      hkw _ _ (by decide) (by decide), hkw _ _ (by decide) (by decide)]
    simp only [htest, if_true, htrim]
    exact parseInt_digits ds hne hd
  · apply indexOf_no_bracket
    intro c hc
    rcases List.mem_append.mp hc with h | h
    · rcases List.mem_append.mp h with h | h
      · exact (canon_sep c (isSpace_isSep c (h1 c h))).2
      · exact isDigit_ne_bracket c (hd c h)
    · exact (canon_sep c (isSpace_isSep c (h2 c h))).2

/-- Leading zeros do not change the value of a run of digits, and the numeral of
a positive number with any number of zeros in front is a run of digits whose
value is the number. -/
theorem digitsValue_zeros (k n : Nat) (hn : 0 < n) :
    List.replicate k (Char.ofNat 48) ++ decimal n ≠ []
      ∧ (∀ c ∈ List.replicate k (Char.ofNat 48) ++ decimal n, isDigit c = true)
      ∧ digitsValue (List.replicate k (Char.ofNat 48) ++ decimal n) = n := by
  obtain ⟨hne, hd, hv⟩ := decimal_spec n hn
  refine ⟨?_, ?_, ?_⟩
  · intro h
    exact hne (List.append_eq_nil.mp h).2
  · intro c hc
    rcases List.mem_append.mp hc with h | h
    · rw [(List.mem_replicate.mp h).2]; decide
    · exact hd c h
  · have hz : ∀ (j : Nat) (ds : List Char),
        digitsValue (List.replicate j (Char.ofNat 48) ++ ds) = digitsValue ds := by
      intro j ds
      induction j with
      | zero => rfl
      | succ j ih =>
        have hstep : digitsValue (Char.ofNat 48 :: (List.replicate j (Char.ofNat 48) ++ ds))
            = digitsValue (List.replicate j (Char.ofNat 48) ++ ds) := by
          simp only [digitsValue, List.foldl_cons]
          rfl
        rw [List.replicate_succ, List.cons_append, hstep, ih]
    rw [hz, hv]

/-- C25, the claim as stated fails: the candidate is a JavaScript number.  The
lines `score: 9007199254740993` and `9007199254740993`, which carry the decimal
numeral of `n = 2^53 + 1`, are recognised as score lines, but the value stored
and posted is `9007199254740992`, not `n`. -/
theorem score_matcher_table_counterexample :
    decimal 9007199254740993 = "9007199254740993".toList
      ∧ firstScoreMatch "score: 9007199254740993".toList = some 9007199254740992
      ∧ _processOutput (activeBridge 0) (constClock 1)
          (.str "score: 9007199254740993".toList)
        = ({ activeBridge 0 with currentScore := 9007199254740992 },
            [Message.scoreUpdate (some "game-1") 9007199254740992 1])
      ∧ _processOutput (activeBridge 0) (constClock 1) (.str "9007199254740993".toList)
        = ({ activeBridge 0 with currentScore := 9007199254740992 },
            [Message.scoreUpdate (some "game-1") 9007199254740992 1]) :=
  ⟨by norm_num [decimal], by decide, by decide, by decide⟩

/-- C25, amended (score-matcher table): for each of the keywords best, score,
points and level in any letter casing, followed by one or more of white space,
`:` and `=` and by a run of digits (`Best n`, `score: n`, `Score n`, `score=n`,
`points: n`, `Points n`, `level: n`), and for a line that consists only of
optional white space, a run of digits and optional white space, whenever the
base-10 value of the run is below `2^53`, `_processOutput` treats the line as a
score candidate whose value is the base-10 value of the run; for the decimal
numeral of a positive `n`, with or without leading zeros, that value is exactly
`n`. -/
theorem score_matcher_table (b : Bridge) (clock : Nat → Int)
    (K V seps ds ws1 ws2 : List Char) (hK : K ∈ scoreKeywords)
    (hV : V.map canonicalize = K.map canonicalize)
    (hsne : seps ≠ []) (hseps : ∀ c ∈ seps, isSep c = true)
    (hws1 : ∀ c ∈ ws1, isSpace c = true) (hws2 : ∀ c ∈ ws2, isSpace c = true)
    (hne : ds ≠ []) (hd : ∀ c ∈ ds, isDigit c = true)
    (hval : digitsValue ds < 9007199254740992) :
    (firstScoreMatch (V ++ seps ++ ds) = some ((digitsValue ds : Nat) : Int)
        ∧ _processOutput b clock (.str (V ++ seps ++ ds))
            = detectedScore b clock (some ((digitsValue ds : Nat) : Int)))
      ∧ (firstScoreMatch (ws1 ++ ds ++ ws2) = some ((digitsValue ds : Nat) : Int)
        ∧ _processOutput b clock (.str (ws1 ++ ds ++ ws2))
            = detectedScore b clock (some ((digitsValue ds : Nat) : Int)))
      ∧ (∀ k n : Nat, 0 < n →
          List.replicate k (Char.ofNat 48) ++ decimal n ≠ []
            ∧ (∀ c ∈ List.replicate k (Char.ofNat 48) ++ decimal n, isDigit c = true)
            ∧ digitsValue (List.replicate k (Char.ofNat 48) ++ decimal n) = n) := by
  have hf1 := firstScoreMatch_keywordLine K V seps ds hK hV hsne hseps hne hd
  have hi1 := indexOf_keywordLine K V seps ds hK hV hseps hd
  have h2 := firstScoreMatch_digitsLine ws1 ds ws2 hws1 hws2 hne hd
  rw [toDouble_of_lt _ hval] at hf1 h2
  exact ⟨⟨hf1, processOutput_eq_detected b clock _ _ hi1 hf1⟩,
    ⟨h2.1, processOutput_eq_detected b clock _ _ h2.2 h2.1⟩,
    fun k n hn => digitsValue_zeros k n hn⟩

/-- C25 amended, at the lines `LeVeL:=  007` and (blank)`007`(blank), on a bridge
whose score is 0: both are forwarded as the score 7. -/
theorem score_matcher_table_witness :
    _processOutput (activeBridge 0) (constClock 1)
        (.str ("LeVeL".toList ++ ":=  ".toList ++ "007".toList))
      = ({ activeBridge 0 with currentScore := 7 }, [Message.scoreUpdate (some "game-1") 7 1])
    ∧ _processOutput (activeBridge 0) (constClock 1)
        (.str (" ".toList ++ "007".toList ++ " ".toList))
      = ({ activeBridge 0 with currentScore := 7 },
          [Message.scoreUpdate (some "game-1") 7 1]) :=
  ⟨(score_matcher_table (activeBridge 0) (constClock 1) "level".toList "LeVeL".toList
      ":=  ".toList "007".toList " ".toList " ".toList (by decide) (by decide) (by decide)
      (by decide) (by decide) (by decide) (by decide) (by decide) (by decide)).1.2,
    (score_matcher_table (activeBridge 0) (constClock 1) "level".toList "LeVeL".toList
      ":=  ".toList "007".toList " ".toList " ".toList (by decide) (by decide) (by decide)
      (by decide) (by decide) (by decide) (by decide) (by decide) (by decide)).2.1.2⟩


/-- A candidate of `shortestAt` reads back as the double it was chosen for. -/
theorem shortestAt_sound (v p c : Nat) (h : shortestAt v p = some c) : toDouble c = v := by
  unfold shortestAt at h
  by_cases h1 : toDouble (v / 10 ^ p * 10 ^ p) = v
  · by_cases h2 : toDouble (v / 10 ^ p * 10 ^ p + 10 ^ p) = v
    · rw [if_pos h1, if_pos h2] at h
      split at h
      · cases h; exact h1
      · split at h
        · cases h; exact h2
        · split at h
          · cases h; exact h1
          · cases h; exact h2
    · rw [if_pos h1, if_neg h2] at h
      cases h; exact h1
  · rw [if_neg h1] at h
    split at h
    · rename_i h2
      cases h; exact h2
    · exact absurd h (by simp)

/-- The digits chosen for a JavaScript number read back as that number. -/
theorem shortestFrom_sound (v p : Nat) (hv : toDouble v = v) :
    toDouble (shortestFrom v p) = v := by
  induction p with
  | zero => exact hv
  | succ p ih =>
    unfold shortestFrom
    split
    · rename_i c hc
      exact shortestAt_sound v (p + 1) c hc
    · exact ih

/-- The string of a positive JavaScript number below `10^21` is a non-empty run
of digits, and `parseInt` reads it back as the same number. -/
theorem numberToString_value (n : Int) (hn : 0 < n) (hlt : n < 1000000000000000000000)
    (hdbl : toDoubleInt n = n) :
    numberToString n ≠ [] ∧ (∀ c ∈ numberToString n, isDigit c = true)
      ∧ ((toDouble (digitsValue (numberToString n)) : Nat) : Int) = n := by
  have hpos : 0 < n.toNat := by omega
  have hv : toDouble n.toNat = n.toNat := by
    unfold toDoubleInt at hdbl
    rw [if_neg (by omega)] at hdbl
    omega
  by_cases hsmall : n < 9007199254740992
  · obtain ⟨hne, hd, hval⟩ := decimal_spec n.toNat hpos
    rw [numberToString_of_lt n (by omega) hsmall, hval, toDouble_of_lt _ (by omega)]
    exact ⟨hne, hd, by omega⟩
  · have hs : numberToString n
        = decimal (shortestFrom n.toNat ((decimal n.toNat).length - 1)) := by
      unfold numberToString naturalToString
      rw [if_neg (by omega), if_neg (by omega), if_pos (by omega)]
    have hback := shortestFrom_sound n.toNat ((decimal n.toNat).length - 1) hv
    have hcpos : 0 < shortestFrom n.toNat ((decimal n.toNat).length - 1) := by
      rcases Nat.eq_zero_or_pos (shortestFrom n.toNat ((decimal n.toNat).length - 1))
        with h0 | h0
      · rw [h0, show toDouble 0 = 0 from by decide] at hback
        omega
      · exact h0
    obtain ⟨hne, hd, hval⟩ := decimal_spec _ hcpos
    rw [hs, hval, hback]
    exact ⟨hne, hd, by omega⟩

theorem exponentForm_cons (ds : List Char) (d : Char) (rest : List Char)
    (h : significand ds = d :: rest) :
    exponentForm ds
      = (if rest.isEmpty then [d] else d :: Char.ofNat 46 :: rest)
          ++ "e+".toList ++ decimal (ds.length - 1) := by
  unfold exponentForm
  rw [h]

theorem numberToString_large (n : Int) (v : Nat) (hv : n.toNat = v) (h0 : 0 ≤ n)
    (h1 : ¬ v < 1000000000000000000000) (ds : List Char) (hds : decimal v = ds) :
    numberToString n = exponentForm (decimal (shortestFrom v (ds.length - 1))) := by
  unfold numberToString naturalToString
  rw [if_neg (by omega), hv, if_neg (by omega), if_neg h1, hds]

/-- The string of `10^21` is `1e+21`. -/
theorem numberToString_sextillion :
    numberToString 1000000000000000000000 = "1e+21".toList := by
  have hdec : decimal 1000000000000000000000 = "1000000000000000000000".toList := by
    norm_num [decimal]
  have hexp : decimal 21 = "21".toList := by norm_num [decimal]
  have hlen : "1000000000000000000000".toList.length - 1 = 21 := by decide
  have hshort : shortestFrom 1000000000000000000000 21 = 1000000000000000000000 := by
    decide
  have hsig : significand "1000000000000000000000".toList = "1".toList := by decide
  rw [numberToString_large 1000000000000000000000 1000000000000000000000 (by decide)
      (by decide) (by decide) _ hdec,
    hlen, hshort, hdec, exponentForm_cons _ _ _ hsig, hlen, hexp]
  decide

/-- The line `GAME_OVER:<digits>` is matched by no score matcher, matches the
game-over expression and does not contain the marker. -/
theorem gameOverLine (ds : List Char) (hd : ∀ c ∈ ds, isDigit c = true) :
    anyScoreMatcher ("GAME_OVER:".toList ++ ds) = false
      ∧ testEndPhrase ("GAME_OVER:".toList ++ ds) = true
      ∧ indexOf ("GAME_OVER:".toList ++ ds) marker = -1 := by
  have hpre : ∀ x ∈ "GAME_OVER:".toList,
      canonicalize x ≠ 66 ∧ canonicalize x ≠ 83 ∧ canonicalize x ≠ 80 ∧ canonicalize x ≠ 76
        ∧ x.toNat ≠ 91 := by decide
  have hkw : ∀ (p : Char) (ps : List Char),
      (canonicalize p = 66 ∨ canonicalize p = 83 ∨ canonicalize p = 80 ∨ canonicalize p = 76) →
      searchKeywordNumber (p :: ps) none ("GAME_OVER:".toList ++ ds) = none := by
    intro p ps hp
    apply searchKeywordNumber_first_absent
    intro c hc
    rcases List.mem_append.mp hc with h | h
    · have := hpre c h
      omega
    · have := canonicalize_digit c (hd c h)
      omega
  refine ⟨?_, rfl, ?_⟩
  · unfold anyScoreMatcher matchBest matchScore matchPoints matchLevel
    rw [show "best".toList = Char.ofNat 98 :: "est".toList from rfl,
      show "score".toList = Char.ofNat 115 :: "core".toList from rfl,
      show "points".toList = Char.ofNat 112 :: "oints".toList from rfl,
      show "level".toList = Char.ofNat 108 :: "evel".toList from rfl,
      hkw _ _ (by decide), hkw _ _ (by decide), hkw _ _ (by decide), hkw _ _ (by decide)]
    rfl
  · apply indexOf_no_bracket
    intro c hc
    rcases List.mem_append.mp hc with h | h
    · exact (hpre c h).2.2.2.2
    · exact isDigit_ne_bracket c (hd c h)

/-- C26, the claim as stated fails: the score is written into the line by
`String(score)`.  For the score `10^21`, a JavaScript number, the lines are
`SCORE:1e+21` and `GAME_OVER:1e+21`; the first is read as the score 1, so the
bridge is left with `currentScore = 1` and emits `scoreUpdate(1)` and a `gameEnd`
with score 1. -/
theorem sudoku_score_report_counterexample :
    toDoubleInt 1000000000000000000000 = 1000000000000000000000
      ∧ createStatsCard 1000000000000000000000
          = [ "SCORE:1e+21".toList, "GAME_OVER:1e+21".toList ]
      ∧ run (activeBridge 0)
          (reportCalls 1000000000000000000000 (constClock 4000) (constClock 4001))
        = ({ activeBridge 0 with
              currentScore := 1, _gameEndSent := true, isGameActive := false },
            [ Message.scoreUpdate (some "game-1") 1 4000,
              Message.gameEnd (some "game-1") 1 4 (some "session-1") 4001 ]) := by
  have hlines : createStatsCard 1000000000000000000000
      = [ "SCORE:1e+21".toList, "GAME_OVER:1e+21".toList ] := by
    unfold createStatsCard
    rw [numberToString_sextillion]
    rfl
  refine ⟨by decide, hlines, ?_⟩
  unfold reportCalls
  rw [hlines]
  decide

/-- C26, amended (Sudoku score report): for every positive score `n` below
`10^21` (a JavaScript number, as every integer below `2^53` is), the two lines
`SCORE:n` and `GAME_OVER:n` that `VictoryScene.createStatsCard` logs, processed
in that order by `_processOutput` on an active bridge that has not ended, leave
`currentScore = n` and emit exactly one `gameEnd` message with score `n`,
preceded by exactly one `scoreUpdate(n)` when `n` differs from the previous
`currentScore` and by nothing otherwise: the second line is taken as an end
signal, not as a score. -/
theorem sudoku_score_report (b : Bridge) (c1 c2 : Nat → Int) (n : Int) (hn : 0 < n)
    (hlt : n < 1000000000000000000000) (hdbl : toDoubleInt n = n)
    (ha : b.isGameActive = true) (hs : b._gameEndSent = false) :
    run b (reportCalls n c1 c2)
      = ({ b with currentScore := n, _gameEndSent := true, isGameActive := false },
          (if n ≠ b.currentScore then [Message.scoreUpdate b.gameId n (c1 0)] else [])
            ++ [Message.gameEnd b.gameId n (Int.fdiv (c2 0 - b.startTime) 1000)
                  b.sessionId (c2 1)]) := by
  obtain ⟨hne, hd, hv⟩ := numberToString_value n hn hlt hdbl
  have hf1 := firstScoreMatch_keywordLine "score".toList "SCORE".toList ":".toList
    (numberToString n) (by decide) (by decide) (by decide) (by decide) hne hd
  have hi1 := indexOf_keywordLine "score".toList "SCORE".toList ":".toList
    (numberToString n) (by decide) (by decide) (by decide) hd
  rw [hv] at hf1
  have hl1 : _processOutput b c1 (.str ("SCORE:".toList ++ numberToString n))
      = detectedScore b c1 (some n) :=
    processOutput_eq_detected b c1 _ n hi1 hf1
  obtain ⟨hany, hend, hi2⟩ := gameOverLine (numberToString n) hd
  have hl2 : ∀ b2 : Bridge,
      _processOutput b2 c2 (.str ("GAME_OVER:".toList ++ numberToString n))
        = onGameEnd b2 c2 := by
    intro b2
    rw [processOutput_no_score b2 c2 _ hi2 hany, hend, if_pos rfl]
  show run b [(Event.processOutput (.str ("SCORE:".toList ++ numberToString n)), c1),
      (Event.processOutput (.str ("GAME_OVER:".toList ++ numberToString n)), c2)] = _
  simp only [run, step, hl1, hl2, List.append_nil]
  rw [detectedScore_some]
  by_cases hc : n = b.currentScore
  · have hcond : ¬ (0 < n ∧ n ≠ b.currentScore) := fun h => h.2 hc
    rw [if_neg hcond, onGameEnd_accept b c2 ha hs, if_neg (fun h => h hc)]
    simp only [List.nil_append, ← hc]
  · rw [if_pos ⟨hn, hc⟩, if_pos hc]
    rw [onGameEnd_accept _ c2 (by exact ha) (by exact hs)]

/-- C26 amended, at the score 1250 on a bridge whose score is 0: the score is
forwarded, then the game ends with it. -/
theorem sudoku_score_report_witness :
    run (activeBridge 0) (reportCalls 1250 (constClock 4000) (constClock 4001))
      = ({ activeBridge 0 with
            currentScore := 1250, _gameEndSent := true, isGameActive := false },
          (if (1250 : Int) ≠ (activeBridge 0).currentScore then
              [Message.scoreUpdate (activeBridge 0).gameId 1250 (constClock 4000 0)]
            else [])
            ++ [Message.gameEnd (activeBridge 0).gameId 1250
                  (Int.fdiv (constClock 4001 0 - (activeBridge 0).startTime) 1000)
                  (activeBridge 0).sessionId (constClock 4001 1)]) :=
  sudoku_score_report (activeBridge 0) (constClock 4000) (constClock 4001) 1250 (by decide)
    (by decide) (by decide) rfl rfl


/-- The calls of the level-complete tick, spelled out: the calls of the score
block, then the log line, then `endGame(finalScore)`. -/
theorem tick_levelComplete_calls (g : GameState) (w : Globals) (now : Int) (pi : ProjectInfo)
    (hg : g.gameEnded = false) (hpi : w.projectInfo = some pi)
    (hlevel : pi.levelComplete = true)
    (hno : ∀ ps gi, w.playState = some ps → ps.gameInfo = some gi → gi.gameOver ≠ some 1)
    (hb : w.hasBridge = true) :
    (tick g w now).2
      = (scoreStep g w (pi.score.getD 0)).2
        ++ [AdapterCall.log
              ("[8Ball Pool] Level complete - Final score: ".toList
                ++ numberToString (finalScore (pi.score.getD 0) (elapsedSeconds g now))),
            AdapterCall.endGame (finalScore (pi.score.getD 0) (elapsedSeconds g now))] := by
  have h1 := scoreStep_flags g w (pi.score.getD 0)
  have hgo : gameOverStep (scoreStep g w (pi.score.getD 0)).1 w (pi.score.getD 0) now
      = ((scoreStep g w (pi.score.getD 0)).1, []) := by
    unfold gameOverStep
    split
    · rfl
    · rename_i ps hps
      split
      · rfl
      · rename_i gi hgi
        rw [if_neg (fun h => hno ps gi hps hgi h.1)]
  simp only [tick, hpi, hg, Bool.false_eq_true, if_false, hgo]
  have hlc : levelCompleteStep (scoreStep g w (pi.score.getD 0)).1 w pi (pi.score.getD 0) now
      = ({ (scoreStep g w (pi.score.getD 0)).1 with gameEnded := true, checkInterval := false },
          terminalCalls w
            ("[8Ball Pool] Level complete - Final score: ".toList
              ++ numberToString (finalScore (pi.score.getD 0) (elapsedSeconds g now)))
            (finalScore (pi.score.getD 0) (elapsedSeconds g now))) := by
    simp only [levelCompleteStep, hlevel, h1.1, hg, and_self, if_true, elapsedSeconds, h1.2.1]
  rw [hlc]
  simp only [terminalCalls, hb, if_true, List.append_nil]

/-- The line `[8Ball Pool] Level complete - Final score: <digits>` does not
contain the marker, is matched by the score matcher with the digits as its
capture, and would match the game-over expression (`Level complete`). -/
theorem levelCompleteLine (ds : List Char) (hne : ds ≠ []) (hd : ∀ c ∈ ds, isDigit c = true) :
    indexOf ("[8Ball Pool] Level complete - Final score: ".toList ++ ds) marker = -1
      ∧ firstScoreMatch ("[8Ball Pool] Level complete - Final score: ".toList ++ ds)
          = some ((toDouble (digitsValue ds) : Nat) : Int)
      ∧ testEndPhrase ("[8Ball Pool] Level complete - Final score: ".toList ++ ds) = true := by
  refine ⟨?_, ?_, rfl⟩
  · have hskip : indexOf ("[8Ball Pool] Level complete - Final score: ".toList ++ ds) marker
        = indexOfFrom (Char.ofNat 91 :: "Ginix Bridge]".toList) 43 ds := rfl
    rw [hskip]
    apply indexOfFrom_first_absent
    intro c hc e
    exact isDigit_ne_bracket c (hd c hc) (by rw [e]; decide)
  · cases ds with
    | nil => exact absurd rfl hne
    | cons c cs =>
      have hc : isDigit c = true := hd c (List.mem_cons_self _ _)
      have hsep := isDigit_not_isSep c hc
      have hbest : matchBest ("[8Ball Pool] Level complete - Final score: ".toList ++ c :: cs)
          = none := by
        have hskip : matchBest
            ("[8Ball Pool] Level complete - Final score: ".toList ++ c :: cs)
            = searchKeywordNumber (Char.ofNat 98 :: "est".toList) (some (Char.ofNat 32))
                (c :: cs) := rfl
        rw [hskip]
        apply searchKeywordNumber_first_absent
        intro x hx
        have := canonicalize_digit x (hd x hx)
        have h98 : canonicalize (Char.ofNat 98) = 66 := by decide
        omega
      have htake : (c :: cs).takeWhile isDigit = c :: cs :=
        List.takeWhile_eq_self_iff.mpr hd
      have hat : keywordNumberAt "score".toList (some (Char.ofNat 32))
          ("score: ".toList ++ c :: cs)
          = if (((c :: cs).dropWhile isSep).takeWhile isDigit).isEmpty then none
            else some (((c :: cs).dropWhile isSep).takeWhile isDigit) := rfl
      have hat2 : keywordNumberAt "score".toList (some (Char.ofNat 32))
          ("score: ".toList ++ c :: cs) = some (c :: cs) := by
        rw [hat, show (c :: cs).dropWhile isSep = c :: cs from by
          simp [List.dropWhile_cons, hsep], htake]
        rfl
      have hscore : matchScore ("[8Ball Pool] Level complete - Final score: ".toList ++ c :: cs)
          = some (c :: cs) := by
        show (match keywordNumberAt "score".toList (some (Char.ofNat 32))
            ("score: ".toList ++ c :: cs) with
          | some r => some r
          | none => searchKeywordNumber "score".toList (some (Char.ofNat 115))
              ("core: ".toList ++ c :: cs)) = _
        rw [hat2]
      unfold firstScoreMatch
      rw [hbest]
      simp only [hscore]
      exact parseInt_digits (c :: cs) hne hd

/-- C27, the claim as stated fails: the final score is written into the log line
by the string conversion of JavaScript.  The adapter started at time 0 samples
the score `10^21` with `levelComplete` at 300 000 ms; the bonus is 0 and the
final score is `F = 10^21`; the log line reads `... Final score: 1e+21`, it is
consumed as the score 1, and the bridge emits `scoreUpdate(1)`, not
`scoreUpdate(F)`, before `endGame(F)` emits `gameEnd`. -/
theorem level_complete_line_reenters_counterexample :
    finalScore 1000000000000000000000 (elapsedSeconds (trackingState 1000000000000000000000)
        300000) = 1000000000000000000000
      ∧ (tick (trackingState 1000000000000000000000)
          (levelCompleteSample 1000000000000000000000) 300000).2
        = [ AdapterCall.log "[8Ball Pool] Level complete - Final score: 1e+21".toList,
            AdapterCall.endGame 1000000000000000000000 ]
      ∧ run (activeBridge 0) (attachClocks (fun _ => constClock 300000) 0
          [ AdapterCall.log "[8Ball Pool] Level complete - Final score: 1e+21".toList,
            AdapterCall.endGame 1000000000000000000000 ])
        = ({ activeBridge 0 with
              currentScore := 1000000000000000000000, _gameEndSent := true,
              isGameActive := false },
            [ Message.scoreUpdate (some "game-1") 1 300000,
              Message.gameEnd (some "game-1") 1000000000000000000000 300 (some "session-1")
                300000 ]) := by
  have hfin : finalScore 1000000000000000000000
      (elapsedSeconds (trackingState 1000000000000000000000) 300000)
      = 1000000000000000000000 := by decide
  have hstep : (scoreStep (trackingState 1000000000000000000000)
      (levelCompleteSample 1000000000000000000000) 1000000000000000000000).2 = [] := by
    decide
  have h := tick_levelComplete_calls (trackingState 1000000000000000000000)
    (levelCompleteSample 1000000000000000000000) 300000
    { score := some 1000000000000000000000, levelComplete := true } rfl rfl rfl
    (by intro ps gi h1 h2; cases h1; cases h2; decide) rfl
  have hget : (({ score := some 1000000000000000000000, levelComplete := true } :
      ProjectInfo).score.getD 0) = 1000000000000000000000 := rfl
  rw [hget, hstep, hfin, numberToString_sextillion] at h
  exact ⟨hfin, h, by decide⟩

/-- C27, amended (adapter log lines re-enter the extractor): on the
level-complete path of the 8 Ball Pool adapter with the bridge present, the tick
ends with the log line `[8Ball Pool] Level complete - Final score: F` followed by
`endGame(F)`, where `F` is the final score with the time bonus.  For every `F`
with `0 < F < 10^21` different from the `currentScore` of the bridge at that
moment, the line carries no marker and is consumed by `_processOutput` as a
score line (although it also matches the game-over expression), so an active
bridge emits `scoreUpdate(F)` and only then, on `endGame(F)`, the `gameEnd`
message with score `F`. -/
theorem level_complete_line_reenters (g : GameState) (w : Globals) (now : Int)
    (pi : ProjectInfo) (b : Bridge) (clk : Nat → Nat → Int) (k : Nat) (F : Int)
    (hg : g.gameEnded = false) (hpi : w.projectInfo = some pi)
    (hlevel : pi.levelComplete = true)
    (hno : ∀ ps gi, w.playState = some ps → ps.gameInfo = some gi → gi.gameOver ≠ some 1)
    (hb : w.hasBridge = true)
    (hF : F = finalScore (pi.score.getD 0) (elapsedSeconds g now))
    (hpos : 0 < F) (hlt : F < 1000000000000000000000) (hdiff : F ≠ b.currentScore)
    (hact : b.isGameActive = true) (hsent : b._gameEndSent = false) :
    (tick g w now).2
        = (scoreStep g w (pi.score.getD 0)).2
          ++ [AdapterCall.log
                ("[8Ball Pool] Level complete - Final score: ".toList ++ numberToString F),
              AdapterCall.endGame F]
      ∧ indexOf ("[8Ball Pool] Level complete - Final score: ".toList ++ numberToString F)
          marker = -1
      ∧ testEndPhrase ("[8Ball Pool] Level complete - Final score: ".toList
          ++ numberToString F) = true
      ∧ _processOutput b (clk k)
          (.str ("[8Ball Pool] Level complete - Final score: ".toList ++ numberToString F))
          = ({ b with currentScore := F }, [Message.scoreUpdate b.gameId F (clk k 0)])
      ∧ run b (attachClocks clk k
          [AdapterCall.log
              ("[8Ball Pool] Level complete - Final score: ".toList ++ numberToString F),
            AdapterCall.endGame F])
          = ({ b with currentScore := F, _gameEndSent := true, isGameActive := false },
              [Message.scoreUpdate b.gameId F (clk k 0),
               Message.gameEnd b.gameId F (Int.fdiv (clk (k + 1) 0 - b.startTime) 1000)
                 b.sessionId (clk (k + 1) 1)]) := by
  have hdbl : toDoubleInt F = F := by
    rw [hF]
    exact toDoubleInt_idem _
  obtain ⟨hne, hd, hv⟩ := numberToString_value F hpos hlt hdbl
  obtain ⟨hidx, hfirst, hend⟩ := levelCompleteLine (numberToString F) hne hd
  rw [hv] at hfirst
  have hline : _processOutput b (clk k)
      (.str ("[8Ball Pool] Level complete - Final score: ".toList ++ numberToString F))
      = ({ b with currentScore := F }, [Message.scoreUpdate b.gameId F (clk k 0)]) := by
    rw [processOutput_eq_detected b (clk k) _ F hidx hfirst, detectedScore_some,
      if_pos ⟨hpos, hdiff⟩]
  refine ⟨?_, hidx, hend, hline, ?_⟩
  · rw [hF]
    exact tick_levelComplete_calls g w now pi hg hpi hlevel hno hb
  · simp only [attachClocks, AdapterCall.toEvent, run, step, hline, endGame, List.append_nil]
    rw [onGameEnd_accept _ (clk (k + 1)) (by exact hact) (by exact hsent)]
    rfl


/-- C27 amended, at the score 300 sampled with `levelComplete` at 280 000 ms by an
adapter started at time 0: the final score is 320; the bridge, whose score is
300, forwards 320 as a score from the log line, then ends the game with it. -/
theorem level_complete_line_reenters_witness :
    (tick (trackingState 300) (levelCompleteSample 300) 280000).2
        = (scoreStep (trackingState 300) (levelCompleteSample 300) 300).2
          ++ [AdapterCall.log
                ("[8Ball Pool] Level complete - Final score: ".toList ++ numberToString 320),
              AdapterCall.endGame 320]
      ∧ run (activeBridge 300) (attachClocks (fun _ => constClock 280000) 0
          [AdapterCall.log
              ("[8Ball Pool] Level complete - Final score: ".toList ++ numberToString 320),
            AdapterCall.endGame 320])
          = ({ activeBridge 300 with
                currentScore := 320, _gameEndSent := true, isGameActive := false },
              [Message.scoreUpdate (some "game-1") 320 280000,
               Message.gameEnd (some "game-1") 320 280 (some "session-1") 280000]) :=
  have h := level_complete_line_reenters (trackingState 300) (levelCompleteSample 300) 280000
    { score := some 300, levelComplete := true } (activeBridge 300)
    (fun _ => constClock 280000) 0 320 rfl rfl rfl
    (by intro ps gi h1 h2; cases h1; cases h2; decide) rfl (by decide) (by decide) (by decide)
    (by decide) rfl rfl
  ⟨h.1, h.2.2.2.2⟩

end GinixBridge
